import Mathlib

/-!
Verification development for the gogo structured source-mutation engine.

The engine manipulates Go syntax trees.  Following the system boundary drawn
by the design document (the parse/render syntax-tree service is an external,
correct black box), file content is represented throughout by its parsed form:
a `GoFile` value.  `parse` and `render` are then mutually inverse bijections,
so byte equality of rendered files coincides with equality of `GoFile` values,
and re-parsing a rendered file is the identity.

The AST below is the fragment of go/ast that the verified operations read or
write: identifiers, selector expressions, key-value pairs inside composite
literals, calls, pointer types, basic literals; struct fields with multiple
declared names and optional tags; var/const/type GenDecls; functions and
methods with receiver, parameters, results and a statement body.  Function
literals and positions are outside the modelled fragment.  Every slot that is
an `*ast.Ident` in go/ast is a `String` slot here (package name, declaration
names, field names, selector names); `ast.Inspect`-style walks visit exactly
those slots.
-/

namespace Gogo

mutual

/-- Expressions of the modelled go/ast fragment.  `sel x s` is
`ast.SelectorExpr{X: x, Sel: Ident(s)}`; `kv` is `ast.KeyValueExpr`;
`lit ty elts` is `ast.CompositeLit`; `basic` is `ast.BasicLit` (its value is
not an identifier and is never renamed). -/
inductive GoExpr where
  | ident (name : String)
  | basic (value : String)
  | sel (x : GoExpr) (selName : String)
  | star (x : GoExpr)
  | kv (key val : GoExpr)
  | call (fn : GoExpr) (args : GoExprs)
  | lit (ty : GoExpr) (elts : GoExprs)
  deriving DecidableEq, Repr

/-- Lists of expressions (spelled out so that all recursions are structural). -/
inductive GoExprs where
  | nil
  | cons (head : GoExpr) (tail : GoExprs)
  deriving DecidableEq, Repr

end

/-- Statements: expression statements, returns and assignments are the forms
the verified operations inspect or build. -/
inductive GoStmt where
  | exprStmt (e : GoExpr)
  | ret (results : List GoExpr)
  | assign (lhs rhs : List GoExpr)
  deriving DecidableEq, Repr

/-- `ast.Field`: one or more declared names, a type expression and an optional
tag string (go/ast stores the tag as a BasicLit; only its string value
matters here). -/
structure GoField where
  names : List String
  ty : GoExpr
  tag : Option String
  deriving DecidableEq, Repr

/-- The right-hand side of a TypeSpec: a struct type or any other type
expression. -/
inductive GoTypeDef where
  | structType (fields : List GoField)
  | aliasTy (e : GoExpr)
  deriving DecidableEq, Repr

/-- GenDecl specs: `type name = def` / `var,const names ty = values`. -/
inductive GoSpec where
  | typeSpec (name : String) (ty : GoTypeDef)
  | valueSpec (names : List String) (tyOpt : Option GoExpr) (values : List GoExpr)
  deriving DecidableEq, Repr

/-- The token of a GenDecl. -/
inductive GoTok where
  | tvar
  | tconst
  | ttype
  deriving DecidableEq, Repr

/-- Top-level declarations: GenDecls and functions/methods (`recv = none` for
plain functions). -/
inductive GoDecl where
  | gen (tok : GoTok) (specs : List GoSpec)
  | funcDecl (name : String) (recv : Option GoField)
      (params : List GoField) (results : List GoField) (body : List GoStmt)
  deriving DecidableEq, Repr

/-- A parsed Go source file: package clause plus declarations. -/
structure GoFile where
  pkgName : String
  decls : List GoDecl
  deriving DecidableEq, Repr

instance : Inhabited GoExpr := ⟨GoExpr.ident ""⟩

instance : Inhabited GoStmt := ⟨GoStmt.exprStmt default⟩

instance : Inhabited GoField := ⟨⟨[], GoExpr.ident "", none⟩⟩

instance : Inhabited GoSpec := ⟨GoSpec.typeSpec "" (GoTypeDef.aliasTy default)⟩

instance : Inhabited GoDecl := ⟨GoDecl.gen GoTok.tvar []⟩

instance : Inhabited GoFile := ⟨⟨"", []⟩⟩

def GoExprs.toList : GoExprs → List GoExpr
  | .nil => []
  | .cons h t => h :: GoExprs.toList t

def GoExprs.ofList : List GoExpr → GoExprs
  | [] => .nil
  | h :: t => .cons h (GoExprs.ofList t)

/-! ## Embedding of parser.go: the struct merge/reconciliation engine -/

/-- `gogo.StructField` (parser-facing field description: name, type string,
optional tag annotation). -/
structure StructField where
  name : String
  ty : String
  ann : String
  deriving DecidableEq, Repr

/-- `gogo.structDef`: the desired state handed to the merge engine. -/
structure structDef where
  name : String
  ensureFields : List StructField
  deleteFields : List StructField
  preserveExisting : Bool
  deriving DecidableEq, Repr

/-! Character-list implementations of the string primitives the Go code
uses (`strings.Contains/HasPrefix/TrimSpace/Split/Fields`, `filepath.Dir`),
all structurally recursive so that concrete runs evaluate inside the
kernel. -/

def strContainsChar (s : String) (c : Char) : Bool :=
  s.toList.contains c

def listStarts : List Char → List Char → Bool
  | _, [] => true
  | [], _ :: _ => false
  | a :: as, b :: bs => a = b && listStarts as bs

/-- `strings.HasPrefix`. -/
def strStarts (s p : String) : Bool :=
  listStarts s.toList p.toList

/-- `strings.Split` on a single separator character. -/
def splitOnChar (c : Char) : List Char → List String
  | [] => [""]
  | a :: rest =>
    let r := splitOnChar c rest
    if a = c then "" :: r
    else
      match r with
      | [] => [String.mk [a]]
      | h :: t => String.mk (a :: h.toList) :: t

/-- Splitting on a character-class predicate (`strings.Fields` composes this
with dropping empty pieces). -/
def splitOnP (p : Char → Bool) : List Char → List String
  | [] => [""]
  | a :: rest =>
    let r := splitOnP p rest
    if p a then "" :: r
    else
      match r with
      | [] => [String.mk [a]]
      | h :: t => String.mk (a :: h.toList) :: t

/-- `strings.TrimSpace`. -/
def strTrim (s : String) : String :=
  String.mk (((s.toList.dropWhile Char.isWhitespace).reverse.dropWhile
    Char.isWhitespace).reverse)

/-- The trailing `package.Type` / plain-identifier cases of `parseTypeExpr`
(strings.LastIndex of "." with a positive index gives a SelectorExpr). -/
def qualifiedOrIdent (typeStr : String) : GoExpr :=
  let chars := typeStr.toList
  match (List.range chars.length).reverse.find? (fun i => chars.getD i ' ' = '.') with
  | some idx =>
    if 0 < idx then .sel (.ident (typeStr.take idx)) (typeStr.drop (idx + 1))
    else .ident typeStr
  | none => .ident typeStr

/-- `parseTypeExpr` from parser.go, fuelled (the Go recursion always strictly
shrinks the string, the fuel is its length bound).  ArrayType and MapType are
outside the expression fragment proper, so they are encoded as composite
nodes with marker types; the encoding is injective in its arguments, which
is all the merge theorems consume. -/
def parseTypeExprGo : Nat → String → GoExpr
  | 0, typeStr => .ident typeStr
  | fuel + 1, typeStr =>
    if ¬ strContainsChar typeStr '.' && ¬ strContainsChar typeStr '[' &&
        ¬ strContainsChar typeStr '*' then
      .ident typeStr
    else if strStarts typeStr "*" then
      .star (parseTypeExprGo fuel (typeStr.drop 1))
    else if strStarts typeStr "[]" then
      .lit (.ident "[]") (.cons (parseTypeExprGo fuel (typeStr.drop 2)) .nil)
    else if strStarts typeStr "map[" then
      match (typeStr.toList.findIdx? (· = ']')) with
      | some closeIdx =>
        if 0 < closeIdx then
          .lit (.ident "map")
            (.cons (parseTypeExprGo fuel ((typeStr.drop 4).take (closeIdx - 4)))
              (.cons (parseTypeExprGo fuel (typeStr.drop (closeIdx + 1))) .nil))
        else qualifiedOrIdent typeStr
      | none => qualifiedOrIdent typeStr
    else qualifiedOrIdent typeStr

def parseTypeExpr (typeStr : String) : GoExpr :=
  parseTypeExprGo (typeStr.length + 1) typeStr

/-- Tag normalization repeated throughout parser.go: ensure the annotation is
wrapped in backtick quotes ("\x60"). -/
def normalizeAnn (a : String) : String :=
  if ¬ strStarts a "\x60" then "\x60" ++ a ++ "\x60" else a

/-- The new `ast.Field` built for an ensure-field that is not yet present
(parser.go `modifyStruct`, add-new-field branch; identical construction in
`createStructDecl`). -/
def mkEnsureField (e : StructField) : GoField :=
  { names := [e.name]
    ty := parseTypeExpr e.ty
    tag := if e.ann ≠ "" then some (normalizeAnn e.ann) else none }

/-- Updating an existing field per `modifyStruct`: the type is overwritten,
the tag only when an annotation was supplied. -/
def updateField (f : GoField) (e : StructField) : GoField :=
  { f with
    ty := parseTypeExpr e.ty
    tag := if e.ann ≠ "" then some (normalizeAnn e.ann) else f.tag }

/-- Whether the field is marked for deletion: some declared name equals some
DeleteFields name (`modifyStruct`, deletion loop). -/
def fieldMarkedForDeletion (dels : List StructField) (f : GoField) : Bool :=
  f.names.any (fun n => dels.any (fun d => d.name = n))

/-- The `existingFields` map of `modifyStruct`, restricted to what the update
path consumes: for a name, the field holding it.  Go builds the map by
iterating the field list in order, so a duplicated name resolves to the last
field declaring it. -/
def lastIdxWithName (fields : List GoField) (n : String) : Option Nat :=
  (List.range fields.length).reverse.find?
    (fun i => decide (n ∈ (fields.getD i default).names))

/-- The ensure loop of `modifyStruct`.  `base` is the field list the
`existingFields` map was built from (the map is never refreshed while the
loop appends). -/
def ensurePhase (base : List GoField) : List GoField → List StructField → List GoField
  | acc, [] => acc
  | acc, e :: rest =>
    match lastIdxWithName base e.name with
    | some i => ensurePhase base (acc.set i (updateField (acc.getD i default) e)) rest
    | none => ensurePhase base (acc ++ [mkEnsureField e]) rest

/-- `modifyStruct` applied to one struct's field list: the deletion /
clear-all phase followed by the ensure loop. -/
def modifyStructFields (fields0 : List GoField) (s : structDef) : List GoField :=
  let afterDelete :=
    if s.deleteFields ≠ [] then
      fields0.filter (fun f => ! fieldMarkedForDeletion s.deleteFields f)
    else if ¬ s.preserveExisting then []
    else fields0
  ensurePhase afterDelete afterDelete s.ensureFields

/-- The per-spec action of `modifyStruct`: a TypeSpec named `s.name` whose
type is a struct gets its field list reconciled; everything else is
untouched. -/
def modifyTypeSpec (s : structDef) (sp : GoSpec) : GoSpec :=
  match sp with
  | .typeSpec nm (.structType fields) =>
    if nm = s.name then .typeSpec nm (.structType (modifyStructFields fields s))
    else sp
  | _ => sp

/-- `modifyStruct` on a GenDecl: reconcile every matching TypeSpec; other
decls are untouched. -/
def modifyStruct (decl : GoDecl) (s : structDef) : GoDecl :=
  match decl with
  | .gen .ttype specs => .gen .ttype (specs.map (modifyTypeSpec s))
  | d => d

/-- `createStructDecl`: a fresh `type name struct { ensure-fields }`. -/
def createStructDecl (s : structDef) : GoDecl :=
  .gen .ttype [.typeSpec s.name (.structType (s.ensureFields.map mkEnsureField))]

/-- `createNewFileWithStruct`: package header (default "main") plus the
requested struct (rendered/formatted by the external service). -/
def createNewFileWithStruct (s : structDef) (packageName : String) : GoFile :=
  { pkgName := if packageName = "" then "main" else packageName
    decls := [createStructDecl s] }

/-- Whether a spec is a struct-typed TypeSpec with the given name. -/
def specIsStructNamed (name : String) (sp : GoSpec) : Bool :=
  match sp with
  | .typeSpec nm (.structType _) => nm = name
  | _ => false

/-- `findOrCreateStruct`: index of the first GenDecl containing a struct-typed
TypeSpec with the given name. -/
def isStructDeclNamed (name : String) (d : GoDecl) : Bool :=
  match d with
  | .gen .ttype specs => specs.any (specIsStructNamed name)
  | _ => false

def findOrCreateStructIdx (decls : List GoDecl) (name : String) : Option Nat :=
  decls.findIdx? (isStructDeclNamed name)

/-- `modifyExistingFile`: parse, find-or-create the struct, reconcile, render.
In the parsed-content model the parse/render pair is the identity. -/
def modifyExistingFile (f : GoFile) (s : structDef) : GoFile :=
  match findOrCreateStructIdx f.decls s.name with
  | none => { f with decls := f.decls ++ [createStructDecl s] }
  | some i => { f with decls := f.decls.set i (modifyStruct (f.decls.getD i default) s) }

/-- `Project.modifyStructInFile`: empty/absent content creates a new file,
otherwise the existing file is modified. -/
def modifyStructInFile (content : Option GoFile) (s : structDef) (defaultPackage : String) :
    GoFile :=
  match content with
  | none => createNewFileWithStruct s defaultPackage
  | some f => modifyExistingFile f s

/-! ### Field-name bookkeeping for the merge theorems -/

/-- All declared names of a field list, in declaration order. -/
def fieldNames (fields : List GoField) : List String :=
  fields.flatMap (·.names)

def ensureNames (s : structDef) : List String :=
  s.ensureFields.map (·.name)

def deleteNames (s : structDef) : List String :=
  s.deleteFields.map (·.name)

/-! ## Storage model and the Safe Apply Protocol (`Project.applyChanges`)

The storage collaborator contract (fs.FS) is modelled on the in-memory
map-backed store shipped with the repository: a path-to-content table.
`Rename` moves content and fails with NotExist when the source is absent;
`Remove` deletes when present (its result is discarded by `applyChanges` at
every call site); `TempFile` creates an empty file.  Directory bookkeeping
(`MkdirAll`) never affects file contents and is tracked only as an event.
Content is an arbitrary type `α` (bytes ≅ parsed trees elsewhere in this
development).  Failure injection: a `FailPlan` marks which fallible calls of
one `applyChanges` run report an error; an injected failure leaves the store
unchanged.  Every storage call is recorded as an `FsEvent` so that theorems
can state "no storage access happened". -/

def FsStore (α : Type) : Type := List (String × α)

def fsLookup {α : Type} : FsStore α → String → Option α
  | [], _ => none
  | e :: rest, p => if e.1 = p then some e.2 else fsLookup rest p

def fsWrite {α : Type} : FsStore α → String → α → FsStore α
  | [], p, c => [(p, c)]
  | e :: rest, p, c => if e.1 = p then (p, c) :: rest else e :: fsWrite rest p c

def fsErase {α : Type} : FsStore α → String → FsStore α
  | [], _ => []
  | e :: rest, p => if e.1 = p then fsErase rest p else e :: fsErase rest p

/-- The mock store's `Rename`: write the content under the new path, delete
the old path; NotExist when the source is absent. -/
def fsRename {α : Type} (st : FsStore α) (src dst : String) : Option (FsStore α) :=
  match fsLookup st src with
  | none => none
  | some c => some (fsErase (fsWrite st dst c) src)

/-- One storage event per collaborator call, in call order. -/
inductive FsEvent where
  | statE (p : String)
  | readE (p : String)
  | mkdirE (d : String)
  | tempE (d : String)
  | writeE (p : String)
  | renameE (src dst : String)
  | removeE (p : String)
  | conflictE (file : String)
  deriving DecidableEq, Repr

/-- Which fallible storage calls of one `applyChanges` run are forced to
fail. -/
structure FailPlan where
  failMkdir : Bool
  failTemp : Bool
  failWriteTemp : Bool
  failRenameBackup : Bool
  failRenameFinal : Bool
  failRenameRestore : Bool
  deriving DecidableEq, Repr

def FailPlan.allSucceed : FailPlan := ⟨false, false, false, false, false, false⟩

/-- A rename call site with failure injection. -/
def fsRenameOp {α : Type} (st : FsStore α) (inject : Bool) (src dst : String) :
    Option (FsStore α) :=
  if inject then none else fsRename st src dst

/-- `filepath.Dir`, restricted to relative slash-separated paths. -/
def dirOf (p : String) : String :=
  let parts := splitOnChar '/' p.toList
  if parts.length ≤ 1 then "." else String.intercalate "/" parts.dropLast

/-- `Project.applyChanges`: the Safe Apply Protocol.  `accept?` is the
conflict callback (`none` = no callback installed; the canned policies are
the constant `some true` / `some false` verdicts); `tempPath` is the fresh
name produced by `TempFile`; `fileExists` is the caller's Stat result.
Returns the outcome, the final store, and the storage-event trace. -/
def applyChanges {α : Type} (plan : FailPlan) (accept? : Option Bool)
    (tempPath : String) (emptyContent : α)
    (st : FsStore α) (filename : String) (newContent : α) (fileExists : Bool) :
    Except String Unit × FsStore α × List FsEvent :=
  let dir := dirOf filename
  -- (1) ensure the parent directory exists
  let ev0 : List FsEvent := if dir ≠ "" ∧ dir ≠ "." then [.mkdirE dir] else []
  if (dir ≠ "" ∧ dir ≠ ".") ∧ plan.failMkdir then
    (.error "failed to create directory", st, ev0)
  else
    -- (2) create a fresh temp file in the same directory (created empty)
    let ev1 := ev0 ++ [.tempE dir]
    if plan.failTemp then (.error "failed to create temp file", st, ev1)
    else
      let st1 := fsWrite st tempPath emptyContent
      -- write the new content to the temp file; on failure drop the temp
      let ev2 := ev1 ++ [.writeE tempPath]
      if plan.failWriteTemp then
        (.error "failed to write temp file", fsErase st1 tempPath, ev2 ++ [.removeE tempPath])
      else
        let st2 := fsWrite st1 tempPath newContent
        -- (3) conflict callback; a false verdict drops the temp, no error
        if accept? = some false then
          (.ok (), fsErase st2 tempPath, ev2 ++ [.conflictE filename, .removeE tempPath])
        else
          let ev3 := ev2 ++ (if accept?.isSome then [.conflictE filename] else [])
          -- (4) move the temp file into place
          if fileExists then
            let backupPath := filename ++ ".backup"
            match fsRenameOp st2 plan.failRenameBackup filename backupPath with
            | none =>
              (.error "failed to backup existing file", fsErase st2 tempPath,
                ev3 ++ [.renameE filename backupPath, .removeE tempPath])
            | some st3 =>
              match fsRenameOp st3 plan.failRenameFinal tempPath filename with
              | none =>
                -- restore the backup (result discarded by the source), drop the temp
                let st4 := match fsRenameOp st3 plan.failRenameRestore backupPath filename with
                  | none => st3
                  | some s => s
                (.error "failed to apply changes", fsErase st4 tempPath,
                  ev3 ++ [.renameE filename backupPath, .renameE tempPath filename,
                    .renameE backupPath filename, .removeE tempPath])
              | some st4 =>
                (.ok (), fsErase st4 backupPath,
                  ev3 ++ [.renameE filename backupPath, .renameE tempPath filename,
                    .removeE backupPath])
          else
            match fsRenameOp st2 plan.failRenameFinal tempPath filename with
            | none =>
              (.error "failed to create file", fsErase st2 tempPath,
                ev3 ++ [.renameE tempPath filename, .removeE tempPath])
            | some st3 => (.ok (), st3, ev3 ++ [.renameE tempPath filename])

/-! ## The Project facade (`Project.Struct` and the other five kinds)

The per-kind option records from gogo.go, the raw-content field parser from
parser.go, and the unified `Project.<Kind>` operations: validate the option
record, Stat/ReadFile the target, produce the fresh content, short-circuit
on byte equality, otherwise run the Safe Apply Protocol.  The struct
pipeline is fully embedded; for the other five kinds the content
construction goes through the external parse/render service, so the
`modify<Kind>InFile` step is a function argument supplied by the caller —
only the validation-before-storage behaviour of those five is subject to a
claim. -/

/-- `gogo.StructOpts`. -/
structure StructOpts where
  filename : String
  name : String
  fields : List StructField
  content : String
  deleteFields : List StructField
  preserveExisting : Bool
  deriving DecidableEq, Repr

/-- `parseFieldsString` from parser.go: one field per non-empty line,
`Name Type` as the first two whitespace-separated words, annotation from the
first backtick (\x60) to the end of the line; lines with fewer than two
words are skipped. -/
def parseFieldsString (fields : String) : List StructField :=
  (splitOnChar (Char.ofNat 10) fields.toList).filterMap (fun line0 =>
    let line := strTrim line0
    if line = "" then none
    else
      let parts := (splitOnP Char.isWhitespace line.toList).filter (· ≠ "")
      if parts.length < 2 then none
      else
        let ann := match line.toList.findIdx? (· = '\x60') with
          | some idx => String.mk (line.toList.drop idx)
          | none => ""
        some { name := parts.getD 0 "", ty := parts.getD 1 "", ann := ann })

/-- The `structDef` that `Project.Struct` hands to the merge engine: the
Content form parses the raw string and forces `PreserveExisting = true` with
no deletions; the Fields form passes the options through. -/
def structDefOf (opts : StructOpts) : structDef :=
  if opts.content ≠ "" then
    { name := opts.name
      ensureFields := parseFieldsString opts.content
      deleteFields := []
      preserveExisting := true }
  else
    { name := opts.name
      ensureFields := opts.fields
      deleteFields := opts.deleteFields
      preserveExisting := opts.preserveExisting }

/-- `Project.Struct`: validation, Stat/ReadFile, merge, equality
short-circuit, Safe Apply.  Same shape as `applyChanges`: result, final
store, storage-event trace. -/
def ProjectStruct (plan : FailPlan) (accept? : Option Bool) (tempPath : String)
    (initialPackageName : String) (st : FsStore GoFile) (opts : StructOpts) :
    Except String Unit × FsStore GoFile × List FsEvent :=
  if opts.fields.length > 0 ∧ opts.content ≠ "" then
    (.error "Fields and Content are mutually exclusive - provide only one", st, [])
  else if opts.fields.length = 0 ∧ opts.content = "" then
    (.error "must provide either Fields or Content", st, [])
  else if opts.filename = "" then
    (.error "Filename is required", st, [])
  else if opts.name = "" then
    (.error "struct Name is required", st, [])
  else
    let s := structDefOf opts
    let oldContent := fsLookup st opts.filename
    let fileExists := oldContent.isSome
    let evRead : List FsEvent :=
      [.statE opts.filename] ++ (if fileExists then [.readE opts.filename] else [])
    let newContent := modifyStructInFile oldContent s initialPackageName
    if fileExists ∧ oldContent = some newContent then
      (.ok (), st, evRead)
    else
      let res := applyChanges plan accept? tempPath default st opts.filename
        newContent fileExists
      (res.1, res.2.1, evRead ++ res.2.2)

/-- `gogo.Parameter`. -/
structure Parameter where
  name : String
  ty : String
  deriving DecidableEq, Repr

/-- `gogo.MethodOpts`. -/
structure MethodOpts where
  filename : String
  name : String
  receiverName : String
  receiverType : String
  params : List Parameter
  returnType : String
  body : String
  content : String
  deriving DecidableEq, Repr

/-- `gogo.FunctionOpts`. -/
structure FunctionOpts where
  filename : String
  name : String
  params : List Parameter
  returnType : String
  body : String
  content : String
  deriving DecidableEq, Repr

/-- `gogo.Variable`. -/
structure VariableDecl where
  name : String
  ty : String
  value : String
  deriving DecidableEq, Repr

/-- `gogo.VariableOpts`. -/
structure VariableOpts where
  filename : String
  vars : List VariableDecl
  content : String
  deriving DecidableEq, Repr

/-- `gogo.Constant`. -/
structure ConstantDecl where
  name : String
  ty : String
  value : String
  deriving DecidableEq, Repr

/-- `gogo.ConstantOpts`. -/
structure ConstantOpts where
  filename : String
  constants : List ConstantDecl
  content : String
  deriving DecidableEq, Repr

/-- `gogo.TypeDef`. -/
structure TypeDefOpt where
  name : String
  definition : String
  deriving DecidableEq, Repr

/-- `gogo.TypeOpts`. -/
structure TypeOpts where
  filename : String
  types : List TypeDefOpt
  content : String
  deriving DecidableEq, Repr

/-- The shared post-validation pipeline of the five non-struct kinds:
Stat/ReadFile, produce content through the supplied modify step (the
external-service-dependent part), equality short-circuit, Safe Apply. -/
def projectPipeline (modifyStep : Option GoFile → Except String GoFile)
    (errPrefix : String) (plan : FailPlan) (accept? : Option Bool) (tempPath : String)
    (st : FsStore GoFile) (filename : String) :
    Except String Unit × FsStore GoFile × List FsEvent :=
  let oldContent := fsLookup st filename
  let fileExists := oldContent.isSome
  let evRead : List FsEvent :=
    [.statE filename] ++ (if fileExists then [.readE filename] else [])
  match modifyStep oldContent with
  | .error e => (.error (errPrefix ++ e), st, evRead)
  | .ok newContent =>
    if fileExists ∧ oldContent = some newContent then
      (.ok (), st, evRead)
    else
      let res := applyChanges plan accept? tempPath default st filename
        newContent fileExists
      (res.1, res.2.1, evRead ++ res.2.2)

/-- `Project.Method`: validation, then the shared pipeline with the
method-content construction step. -/
def ProjectMethod (modifyM : Option GoFile → MethodOpts → String → Except String GoFile)
    (plan : FailPlan) (accept? : Option Bool) (tempPath : String)
    (initialPackageName : String) (st : FsStore GoFile) (opts : MethodOpts) :
    Except String Unit × FsStore GoFile × List FsEvent :=
  let hasStructuredParams :=
    opts.params.length > 0 ∨ opts.returnType ≠ "" ∨ opts.body ≠ ""
  if hasStructuredParams ∧ opts.content ≠ "" then
    (.error "Parameters/ReturnType/Body and Content are mutually exclusive - provide only one approach", st, [])
  else if ¬ hasStructuredParams ∧ opts.content = "" then
    (.error "must provide either Parameters/ReturnType/Body or Content", st, [])
  else if opts.filename = "" then
    (.error "Filename is required", st, [])
  else if opts.name = "" then
    (.error "method Name is required", st, [])
  else if opts.receiverType = "" then
    (.error "ReceiverType is required for methods", st, [])
  else
    projectPipeline (fun old => modifyM old opts initialPackageName)
      "failed to modify method: " plan accept? tempPath st opts.filename

/-- `Project.Function`. -/
def ProjectFunction (modifyF : Option GoFile → FunctionOpts → String → Except String GoFile)
    (plan : FailPlan) (accept? : Option Bool) (tempPath : String)
    (initialPackageName : String) (st : FsStore GoFile) (opts : FunctionOpts) :
    Except String Unit × FsStore GoFile × List FsEvent :=
  let hasStructuredParams :=
    opts.params.length > 0 ∨ opts.returnType ≠ "" ∨ opts.body ≠ ""
  if hasStructuredParams ∧ opts.content ≠ "" then
    (.error "Parameters/ReturnType/Body and Content are mutually exclusive - provide only one approach", st, [])
  else if ¬ hasStructuredParams ∧ opts.content = "" then
    (.error "must provide either Parameters/ReturnType/Body or Content", st, [])
  else if opts.filename = "" then
    (.error "Filename is required", st, [])
  else if opts.name = "" then
    (.error "function Name is required", st, [])
  else
    projectPipeline (fun old => modifyF old opts initialPackageName)
      "failed to modify function: " plan accept? tempPath st opts.filename

/-- `Project.Variable`. -/
def ProjectVariable (modifyV : Option GoFile → VariableOpts → String → Except String GoFile)
    (plan : FailPlan) (accept? : Option Bool) (tempPath : String)
    (initialPackageName : String) (st : FsStore GoFile) (opts : VariableOpts) :
    Except String Unit × FsStore GoFile × List FsEvent :=
  if opts.vars.length > 0 ∧ opts.content ≠ "" then
    (.error "Variables and Content are mutually exclusive - provide only one", st, [])
  else if opts.vars.length = 0 ∧ opts.content = "" then
    (.error "must provide either Variables or Content", st, [])
  else if opts.filename = "" then
    (.error "Filename is required", st, [])
  else
    projectPipeline (fun old => modifyV old opts initialPackageName)
      "failed to modify variables: " plan accept? tempPath st opts.filename

/-- `Project.Constant`. -/
def ProjectConstant (modifyC : Option GoFile → ConstantOpts → String → Except String GoFile)
    (plan : FailPlan) (accept? : Option Bool) (tempPath : String)
    (initialPackageName : String) (st : FsStore GoFile) (opts : ConstantOpts) :
    Except String Unit × FsStore GoFile × List FsEvent :=
  if opts.constants.length > 0 ∧ opts.content ≠ "" then
    (.error "Constants and Content are mutually exclusive - provide only one", st, [])
  else if opts.constants.length = 0 ∧ opts.content = "" then
    (.error "must provide either Constants or Content", st, [])
  else if opts.filename = "" then
    (.error "Filename is required", st, [])
  else
    projectPipeline (fun old => modifyC old opts initialPackageName)
      "failed to modify constants: " plan accept? tempPath st opts.filename

/-- `Project.Type`. -/
def ProjectType (modifyT : Option GoFile → TypeOpts → String → Except String GoFile)
    (plan : FailPlan) (accept? : Option Bool) (tempPath : String)
    (initialPackageName : String) (st : FsStore GoFile) (opts : TypeOpts) :
    Except String Unit × FsStore GoFile × List FsEvent :=
  if opts.types.length > 0 ∧ opts.content ≠ "" then
    (.error "Types and Content are mutually exclusive - provide only one", st, [])
  else if opts.types.length = 0 ∧ opts.content = "" then
    (.error "must provide either Types or Content", st, [])
  else if opts.filename = "" then
    (.error "Filename is required", st, [])
  else
    projectPipeline (fun old => modifyT old opts initialPackageName)
      "failed to modify types: " plan accept? tempPath st opts.filename

/-- The update part of the ensure loop in isolation: the appends stripped
out. -/
def applyUpds (base : List GoField) : List GoField → List StructField → List GoField
  | acc, [] => acc
  | acc, e :: rest =>
    match lastIdxWithName base e.name with
    | some i => applyUpds base (acc.set i (updateField (acc.getD i default) e)) rest
    | none => applyUpds base acc rest

/-- The deletion/clear phase of `modifyStruct`, in isolation. -/
def afterDelete (fields0 : List GoField) (s : structDef) : List GoField :=
  if s.deleteFields ≠ [] then
    fields0.filter (fun f => ! fieldMarkedForDeletion s.deleteFields f)
  else if ¬ s.preserveExisting then []
  else fields0

/-- Decidable well-formedness of one struct's fields: one declared name per
field, all names distinct. -/
def fieldsWF (fields : List GoField) : Bool :=
  fields.all (fun fl => fl.names.length = 1) && decide (fieldNames fields).Nodup

/-- Decidable well-formedness of every struct named `nm` in the file. -/
def fileStructWF (f : GoFile) (nm : String) : Bool :=
  f.decls.all (fun d =>
    match d with
    | .gen .ttype specs => specs.all (fun sp =>
        match sp with
        | .typeSpec n (.structType fields) => if n = nm then fieldsWF fields else true
        | _ => true)
    | _ => true)

/-! ### The Content form of `Project.Struct` (C10) -/

/-- The field names a spec contributes to the struct named `nm`. -/
def specStructNames (nm : String) (sp : GoSpec) : List String :=
  match sp with
  | .typeSpec n (.structType fs) => if n = nm then fieldNames fs else []
  | _ => []

/-- The field names of the struct named `nm` inside one declaration. -/
def structSpecsNames (nm : String) (d : GoDecl) : List String :=
  match d with
  | .gen .ttype specs => specs.flatMap (specStructNames nm)
  | _ => []

/-- The field names of the struct named `nm` in the file (first matching
declaration, as `findOrCreateStruct` selects it). -/
def structNamesOf (f : GoFile) (nm : String) : List String :=
  match findOrCreateStructIdx f.decls nm with
  | none => []
  | some i => structSpecsNames nm (f.decls.getD i default)

/-! ## The Identifier Rename Engine

`renameIdentifier` (template/internal.go) and the ident pass of `Code.Rename`
(astm/rename.go) are the same `ast.Inspect` walk: every `*ast.Ident` slot
spelled `old` is rewritten to `new` — package clause, declaration names,
field names, parameter names, selector `Sel` idents, type positions, call
targets and uses alike.  The functions below spell out that walk over every
ident slot of the modelled AST; the counters mirror them slot for slot. -/

/-- Rewrite one ident slot. -/
def renameName (old new n : String) : String :=
  if n = old then new else n

mutual

def renameExpr (old new : String) : GoExpr → GoExpr
  | .ident n => .ident (renameName old new n)
  | .basic v => .basic v
  | .sel x s => .sel (renameExpr old new x) (renameName old new s)
  | .star x => .star (renameExpr old new x)
  | .kv k v => .kv (renameExpr old new k) (renameExpr old new v)
  | .call fn args => .call (renameExpr old new fn) (renameExprs old new args)
  | .lit t elts => .lit (renameExpr old new t) (renameExprs old new elts)

def renameExprs (old new : String) : GoExprs → GoExprs
  | .nil => .nil
  | .cons h t => .cons (renameExpr old new h) (renameExprs old new t)

end

def renameStmt (old new : String) : GoStmt → GoStmt
  | .exprStmt e => .exprStmt (renameExpr old new e)
  | .ret rs => .ret (rs.map (renameExpr old new))
  | .assign lhs rhs => .assign (lhs.map (renameExpr old new)) (rhs.map (renameExpr old new))

def renameField (old new : String) (fl : GoField) : GoField :=
  { names := fl.names.map (renameName old new)
    ty := renameExpr old new fl.ty
    tag := fl.tag }

def renameTypeDef (old new : String) : GoTypeDef → GoTypeDef
  | .structType fields => .structType (fields.map (renameField old new))
  | .aliasTy e => .aliasTy (renameExpr old new e)

def renameSpec (old new : String) : GoSpec → GoSpec
  | .typeSpec n ty => .typeSpec (renameName old new n) (renameTypeDef old new ty)
  | .valueSpec names tyOpt values =>
    .valueSpec (names.map (renameName old new)) (tyOpt.map (renameExpr old new))
      (values.map (renameExpr old new))

def renameDecl (old new : String) : GoDecl → GoDecl
  | .gen tok specs => .gen tok (specs.map (renameSpec old new))
  | .funcDecl n recv params results body =>
    .funcDecl (renameName old new n) (recv.map (renameField old new))
      (params.map (renameField old new)) (results.map (renameField old new))
      (body.map (renameStmt old new))

/-- `renameIdentifier` restricted to one file (template/internal.go walks
every file with exactly this action; ast.Inspect(file) also visits the
package-clause ident). -/
def renameIdentFile (old new : String) (f : GoFile) : GoFile :=
  { pkgName := renameName old new f.pkgName
    decls := f.decls.map (renameDecl old new) }

mutual

def countIdentExpr (n : String) : GoExpr → Nat
  | .ident m => if m = n then 1 else 0
  | .basic _ => 0
  | .sel x s => countIdentExpr n x + (if s = n then 1 else 0)
  | .star x => countIdentExpr n x
  | .kv k v => countIdentExpr n k + countIdentExpr n v
  | .call fn args => countIdentExpr n fn + countIdentExprs n args
  | .lit t elts => countIdentExpr n t + countIdentExprs n elts

def countIdentExprs (n : String) : GoExprs → Nat
  | .nil => 0
  | .cons h t => countIdentExpr n h + countIdentExprs n t

end

def countIdentStmt (n : String) : GoStmt → Nat
  | .exprStmt e => countIdentExpr n e
  | .ret rs => (rs.map (countIdentExpr n)).sum
  | .assign lhs rhs => (lhs.map (countIdentExpr n)).sum + (rhs.map (countIdentExpr n)).sum

def countIdentField (n : String) (fl : GoField) : Nat :=
  (fl.names.map (fun m => if m = n then 1 else 0)).sum + countIdentExpr n fl.ty

def countIdentTypeDef (n : String) : GoTypeDef → Nat
  | .structType fields => (fields.map (countIdentField n)).sum
  | .aliasTy e => countIdentExpr n e

def countIdentSpec (n : String) : GoSpec → Nat
  | .typeSpec m ty => (if m = n then 1 else 0) + countIdentTypeDef n ty
  | .valueSpec names tyOpt values =>
    (names.map (fun m => if m = n then 1 else 0)).sum +
      (match tyOpt with | none => 0 | some e => countIdentExpr n e) +
      (values.map (countIdentExpr n)).sum

def countIdentDecl (n : String) : GoDecl → Nat
  | .gen _ specs => (specs.map (countIdentSpec n)).sum
  | .funcDecl m recv params results body =>
    (if m = n then 1 else 0) +
      (match recv with | none => 0 | some fl => countIdentField n fl) +
      (params.map (countIdentField n)).sum + (results.map (countIdentField n)).sum +
      (body.map (countIdentStmt n)).sum

/-- The number of ident slots spelled `n` anywhere in the file. -/
def countIdentFile (n : String) (f : GoFile) : Nat :=
  (if f.pkgName = n then 1 else 0) + (f.decls.map (countIdentDecl n)).sum

/-! ## struct.go: Struct.RemoveMethod and getDefaultReturnValue -/

/-- `getReceiverType`: the receiver's base type name for `T` and `*T`
receivers (`Recv == nil` / empty receiver list is the `none` case). -/
def getReceiverType : Option GoField → Option String
  | none => none
  | some fl =>
    match fl.ty with
    | .star (.ident n) => some n
    | .ident n => some n
    | _ => none

/-- The search predicate both loops of `RemoveMethod` use: a FuncDecl named
`mName` with a nonempty receiver whose base type is `sName`. -/
def isMethodOf (sName mName : String) (d : GoDecl) : Bool :=
  match d with
  | .funcDecl n recv _ _ _ =>
    decide (n = mName) && decide (getReceiverType recv = some sName)
  | _ => false

mutual

/-- The `methodCalled` Inspect: some CallExpr whose Fun is a SelectorExpr
with `Sel.Name == methodName`. -/
def exprHasCallTo (m : String) : GoExpr → Bool
  | .ident _ => false
  | .basic _ => false
  | .sel x _ => exprHasCallTo m x
  | .star x => exprHasCallTo m x
  | .kv k v => exprHasCallTo m k || exprHasCallTo m v
  | .call fn args =>
    (match fn with | .sel _ s => decide (s = m) | _ => false) ||
      exprHasCallTo m fn || exprsHasCallTo m args
  | .lit t elts => exprHasCallTo m t || exprsHasCallTo m elts

def exprsHasCallTo (m : String) : GoExprs → Bool
  | .nil => false
  | .cons h t => exprHasCallTo m h || exprsHasCallTo m t

end

def stmtHasCallTo (m : String) : GoStmt → Bool
  | .exprStmt e => exprHasCallTo m e
  | .ret rs => rs.any (exprHasCallTo m)
  | .assign lhs rhs => lhs.any (exprHasCallTo m) || rhs.any (exprHasCallTo m)

def fieldHasCallTo (m : String) (fl : GoField) : Bool :=
  exprHasCallTo m fl.ty

def specHasCallTo (m : String) : GoSpec → Bool
  | .typeSpec _ (.structType fields) => fields.any (fieldHasCallTo m)
  | .typeSpec _ (.aliasTy e) => exprHasCallTo m e
  | .valueSpec _ tyOpt values =>
    (match tyOpt with | none => false | some e => exprHasCallTo m e) ||
      values.any (exprHasCallTo m)

def declHasCallTo (m : String) : GoDecl → Bool
  | .gen _ specs => specs.any (specHasCallTo m)
  | .funcDecl _ recv params results body =>
    (match recv with | none => false | some fl => fieldHasCallTo m fl) ||
      params.any (fieldHasCallTo m) || results.any (fieldHasCallTo m) ||
      body.any (stmtHasCallTo m)

def fileHasCallTo (m : String) (f : GoFile) : Bool :=
  f.decls.any (declHasCallTo m)

/-- `getDefaultReturnValue` (struct.go): default expression for the FIRST
result type; `none` when there are no results (the Go code then places a nil
expr in the return). -/
def getDefaultReturnValue (results : List GoField) : Option GoExpr :=
  match results with
  | [] => none
  | r :: _ =>
    match r.ty with
    | .ident n =>
      if n = "string" then some (.basic "\"HELLO, WORLD!\"")
      else if decide (n = "int") || decide (n = "int8") || decide (n = "int16") ||
          decide (n = "int32") || decide (n = "int64") || decide (n = "uint") ||
          decide (n = "uint8") || decide (n = "uint16") || decide (n = "uint32") ||
          decide (n = "uint64") then some (.basic "0")
      else if decide (n = "float32") || decide (n = "float64") then
        some (.basic "0.0")
      else if n = "bool" then some (.ident "false")
      else some (.ident "nil")
    | .star _ => some (.ident "nil")
    | _ => some (.ident "nil")

/-- `Struct.RemoveMethod` (struct.go ll. 204-286): locate the first matching
method declaration; if some call site `x.m(...)` exists anywhere in the file,
APPEND a stub FuncDecl (sharing the removed method's Type and Recv — equality
in this value model) whose body returns the default value; otherwise drop
every matching declaration. -/
def RemoveMethod (sName mName : String) (f : GoFile) : Except String GoFile :=
  match f.decls.find? (isMethodOf sName mName) with
  | none => .error "not found"
  | some (.funcDecl _ recv params results _) =>
    if fileHasCallTo mName f then
      .ok { f with decls := f.decls ++
        [.funcDecl mName recv params results
          [.ret ((getDefaultReturnValue results).toList)]] }
    else
      .ok { f with decls := f.decls.filter (fun d => !(isMethodOf sName mName d)) }
  | some _ => .ok f

/-- `RemoveMethod` failing input: `Get` is still called in `useIt`. -/
def c8File : GoFile :=
  { pkgName := "main"
    decls :=
      [ .gen .ttype [.typeSpec "S" (.structType [⟨["A"], .ident "int", none⟩])]
      , .funcDecl "Get" (some ⟨["s"], .ident "S", none⟩) [] [⟨[], .ident "string", none⟩]
          [.ret [.basic "\x22hi\x22"]]
      , .funcDecl "useIt" none [⟨["s"], .ident "S", none⟩] []
          [.exprStmt (.call (.sel (.ident "s") "Get") .nil)] ] }

/-- The same file without the call site. -/
def c8FileUnref : GoFile :=
  { pkgName := "main"
    decls :=
      [ .gen .ttype [.typeSpec "S" (.structType [⟨["A"], .ident "int", none⟩])]
      , .funcDecl "Get" (some ⟨["s"], .ident "S", none⟩) [] [⟨[], .ident "string", none⟩]
          [.ret [.basic "\x22hi\x22"]] ] }

/-! ## astm/rename.go: Code.Rename -/

/-- The decl-collection pass predicate on one spec: a TypeSpec named `old`,
or a ValueSpec one of whose names is `old`. -/
def specHasDeclName (old : String) : GoSpec → Bool
  | .typeSpec n _ => decide (n = old)
  | .valueSpec names _ _ => names.any (fun m => decide (m = old))

/-- `len(decls) != 0` of `Code.Rename`: the Inspect collection pass found a
TypeSpec, FuncDecl or ValueSpec declaring `old`. -/
def hasDeclNamed (old : String) (f : GoFile) : Bool :=
  f.decls.any fun d =>
    match d with
    | .gen _ specs => specs.any (specHasDeclName old)
    | .funcDecl n _ _ _ _ => decide (n = old)

/-- The declaration pass restricted to one spec: rename declaration-name
slots spelled `old`. -/
def declSlotSpec (old new : String) : GoSpec → GoSpec
  | .typeSpec n ty => .typeSpec (renameName old new n) ty
  | .valueSpec names tyOpt values => .valueSpec (names.map (renameName old new)) tyOpt values

def declSlotDecl (old new : String) : GoDecl → GoDecl
  | .gen tok specs => .gen tok (specs.map (declSlotSpec old new))
  | .funcDecl n recv params results body =>
    .funcDecl (renameName old new n) recv params results body

def declSlotFile (old new : String) (f : GoFile) : GoFile :=
  { f with decls := f.decls.map (declSlotDecl old new) }

/-- `Code.Rename` (astm/rename.go): if no declaration of `old` exists, do
nothing; otherwise run the ident pass over the whole file, then the
declaration pass over the collected declarations.  The collected TypeSpec and
FuncDecl name slots are overwritten with `new` unconditionally — after the
ident pass they already read `new`, so that write, like the ValueSpec pass's
conditional `== old` rename, is the conditional decl-slot rename below. -/
def codeRename (old new : String) (f : GoFile) : GoFile :=
  if hasDeclNamed old f then declSlotFile old new (renameIdentFile old new f)
  else f

/-! ## Struct-field rename: astm `Code.FieldRename` (part_011) and template
`renameStructFieldIdentifier` (template/internal.go) -/

/-- A GenDecl holding a struct-typed TypeSpec with the given name (the astm
search has no token restriction: ast.Inspect reaches every TypeSpec). -/
def declHasStructNamed (nm : String) (d : GoDecl) : Bool :=
  match d with
  | .gen _ specs => specs.any (specIsStructNamed nm)
  | _ => false

/-- Position of the first struct-typed TypeSpec named `nm` in Inspect order:
first declaration, first spec within it. -/
def findStructDeclSpec (decls : List GoDecl) (nm : String) : Option (Nat × Nat) :=
  match decls.findIdx? (declHasStructNamed nm) with
  | none => none
  | some i =>
    match decls.getD i default with
    | .gen _ specs =>
      match specs.findIdx? (specIsStructNamed nm) with
      | none => none
      | some j => some (i, j)
    | _ => none

/-- FieldRename's per-field loop: rename the FIRST name spelled `old` (the
inner loop breaks on the first hit), report whether any hit occurred. -/
def replaceFirst (old new : String) : List String → List String × Bool
  | [] => ([], false)
  | n :: rest =>
    if n = old then (new :: rest, true)
    else
      let pr := replaceFirst old new rest
      (n :: pr.1, pr.2)

/-- The outer field loop (no break: every field gets its first matching name
renamed); the flag is `fieldFound`. -/
def renameFieldDeclNames (old new : String) : List GoField → List GoField × Bool
  | [] => ([], false)
  | fl :: rest =>
    let pr := replaceFirst old new fl.names
    let rr := renameFieldDeclNames old new rest
    ({ fl with names := pr.1 } :: rr.1, pr.2 || rr.2)

def renameStructFieldsInSpec (old new : String) (sp : GoSpec) : GoSpec × Bool :=
  match sp with
  | .typeSpec n (.structType fields) =>
    let pr := renameFieldDeclNames old new fields
    (.typeSpec n (.structType pr.1), pr.2)
  | sp => (sp, false)

/-- Whether some field of a struct-typed spec declares a name `old`
(`fieldFound` without performing the rename). -/
def structHasFieldNamed (old : String) (sp : GoSpec) : Bool :=
  match sp with
  | .typeSpec _ (.structType fields) =>
    fields.any (fun fl => fl.names.any (fun m => decide (m = old)))
  | _ => false

mutual

/-- FieldRename's reference pass: rename every SelectorExpr `Sel` spelled
`old`, and every KeyValueExpr whose key is an ident spelled `old` (no type
check on the composite literal). -/
def fieldRefRenameExpr (old new : String) : GoExpr → GoExpr
  | .ident n => .ident n
  | .basic v => .basic v
  | .sel x s => .sel (fieldRefRenameExpr old new x) (renameName old new s)
  | .star x => .star (fieldRefRenameExpr old new x)
  | .kv (.ident n) v => .kv (.ident (renameName old new n)) (fieldRefRenameExpr old new v)
  | .kv k v => .kv (fieldRefRenameExpr old new k) (fieldRefRenameExpr old new v)
  | .call fn args =>
    .call (fieldRefRenameExpr old new fn) (fieldRefRenameExprs old new args)
  | .lit t elts =>
    .lit (fieldRefRenameExpr old new t) (fieldRefRenameExprs old new elts)

def fieldRefRenameExprs (old new : String) : GoExprs → GoExprs
  | .nil => .nil
  | .cons h t => .cons (fieldRefRenameExpr old new h) (fieldRefRenameExprs old new t)

end

def fieldRefRenameStmt (old new : String) : GoStmt → GoStmt
  | .exprStmt e => .exprStmt (fieldRefRenameExpr old new e)
  | .ret rs => .ret (rs.map (fieldRefRenameExpr old new))
  | .assign lhs rhs =>
    .assign (lhs.map (fieldRefRenameExpr old new)) (rhs.map (fieldRefRenameExpr old new))

def fieldRefRenameField (old new : String) (fl : GoField) : GoField :=
  { fl with ty := fieldRefRenameExpr old new fl.ty }

def fieldRefRenameSpec (old new : String) : GoSpec → GoSpec
  | .typeSpec n (.structType fields) =>
    .typeSpec n (.structType (fields.map (fieldRefRenameField old new)))
  | .typeSpec n (.aliasTy e) => .typeSpec n (.aliasTy (fieldRefRenameExpr old new e))
  | .valueSpec names tyOpt values =>
    .valueSpec names (tyOpt.map (fieldRefRenameExpr old new))
      (values.map (fieldRefRenameExpr old new))

def fieldRefRenameDecl (old new : String) : GoDecl → GoDecl
  | .gen tok specs => .gen tok (specs.map (fieldRefRenameSpec old new))
  | .funcDecl n recv params results body =>
    .funcDecl n (recv.map (fieldRefRenameField old new))
      (params.map (fieldRefRenameField old new))
      (results.map (fieldRefRenameField old new))
      (body.map (fieldRefRenameStmt old new))

def fieldRefRenameFile (old new : String) (f : GoFile) : GoFile :=
  { f with decls := f.decls.map (fieldRefRenameDecl old new) }

/-- `Code.FieldRename` (part_011): find the first struct-typed TypeSpec named
`structName` (struct not found → no mutation); rename the first matching name
of each of its fields (no hit → no mutation); then run the reference pass
over the whole file. -/
def FieldRename (structName old new : String) (f : GoFile) : GoFile :=
  match findStructDeclSpec f.decls structName with
  | none => f
  | some (i, j) =>
    match f.decls.getD i default with
    | .gen tok specs =>
      let pr := renameStructFieldsInSpec old new (specs.getD j default)
      if pr.2 then
        fieldRefRenameFile old new
          { f with decls := f.decls.set i (.gen tok (specs.set j pr.1)) }
      else f
    | _ => f

/-- The success condition of `FieldRename` (struct found and `fieldFound`),
independent of the new name. -/
def fieldRenamePerformed (structName old : String) (f : GoFile) : Bool :=
  match findStructDeclSpec f.decls structName with
  | none => false
  | some (i, j) =>
    match f.decls.getD i default with
    | .gen _ specs => structHasFieldNamed old (specs.getD j default)
    | _ => false

mutual

/-- Template `renameStructFieldIdentifier` on expressions: the SelectorExpr
rule only — composite-literal keys are NOT rewritten by this engine. -/
def selRenameExpr (old new : String) : GoExpr → GoExpr
  | .ident n => .ident n
  | .basic v => .basic v
  | .sel x s => .sel (selRenameExpr old new x) (renameName old new s)
  | .star x => .star (selRenameExpr old new x)
  | .kv k v => .kv (selRenameExpr old new k) (selRenameExpr old new v)
  | .call fn args => .call (selRenameExpr old new fn) (selRenameExprs old new args)
  | .lit t elts => .lit (selRenameExpr old new t) (selRenameExprs old new elts)

def selRenameExprs (old new : String) : GoExprs → GoExprs
  | .nil => .nil
  | .cons h t => .cons (selRenameExpr old new h) (selRenameExprs old new t)

end

def selRenameStmt (old new : String) : GoStmt → GoStmt
  | .exprStmt e => .exprStmt (selRenameExpr old new e)
  | .ret rs => .ret (rs.map (selRenameExpr old new))
  | .assign lhs rhs =>
    .assign (lhs.map (selRenameExpr old new)) (rhs.map (selRenameExpr old new))

def selRenameField (old new : String) (fl : GoField) : GoField :=
  { fl with ty := selRenameExpr old new fl.ty }

/-- Template `renameStructFieldIdentifier` on one spec: every TypeSpec named
`S` (no token restriction, every matching TypeSpec in every file) has ALL
matching field names renamed (no break in either loop); the selector rule
applies inside all type expressions as well. -/
def tmplFieldRenameSpec (S old new : String) : GoSpec → GoSpec
  | .typeSpec n (.structType fields) =>
    .typeSpec n (.structType (fields.map (fun fl =>
      { names := if n = S then fl.names.map (renameName old new) else fl.names
        ty := selRenameExpr old new fl.ty
        tag := fl.tag })))
  | .typeSpec n (.aliasTy e) => .typeSpec n (.aliasTy (selRenameExpr old new e))
  | .valueSpec names tyOpt values =>
    .valueSpec names (tyOpt.map (selRenameExpr old new))
      (values.map (selRenameExpr old new))

def tmplFieldRenameDecl (S old new : String) : GoDecl → GoDecl
  | .gen tok specs => .gen tok (specs.map (tmplFieldRenameSpec S old new))
  | .funcDecl n recv params results body =>
    .funcDecl n (recv.map (selRenameField old new))
      (params.map (selRenameField old new))
      (results.map (selRenameField old new))
      (body.map (selRenameStmt old new))

def tmplFieldRenameFile (S old new : String) (f : GoFile) : GoFile :=
  { f with decls := f.decls.map (tmplFieldRenameDecl S old new) }

/-! ### Positional counters for the scoping statement -/

mutual

/-- SelectorExpr `Sel` slots spelled `n`. -/
def countSelSlotExpr (n : String) : GoExpr → Nat
  | .ident _ => 0
  | .basic _ => 0
  | .sel x s => countSelSlotExpr n x + (if s = n then 1 else 0)
  | .star x => countSelSlotExpr n x
  | .kv k v => countSelSlotExpr n k + countSelSlotExpr n v
  | .call fn args => countSelSlotExpr n fn + countSelSlotExprs n args
  | .lit t elts => countSelSlotExpr n t + countSelSlotExprs n elts

def countSelSlotExprs (n : String) : GoExprs → Nat
  | .nil => 0
  | .cons h t => countSelSlotExpr n h + countSelSlotExprs n t

end

mutual

/-- KeyValueExpr ident keys spelled `n`. -/
def countKvKeyExpr (n : String) : GoExpr → Nat
  | .ident _ => 0
  | .basic _ => 0
  | .sel x _ => countKvKeyExpr n x
  | .star x => countKvKeyExpr n x
  | .kv (.ident m) v => (if m = n then 1 else 0) + countKvKeyExpr n v
  | .kv k v => countKvKeyExpr n k + countKvKeyExpr n v
  | .call fn args => countKvKeyExpr n fn + countKvKeyExprs n args
  | .lit t elts => countKvKeyExpr n t + countKvKeyExprs n elts

def countKvKeyExprs (n : String) : GoExprs → Nat
  | .nil => 0
  | .cons h t => countKvKeyExpr n h + countKvKeyExprs n t

end

mutual

/-- Ident nodes spelled `n` that are neither selector slots (those are not
Ident nodes in this model) nor KeyValueExpr keys. -/
def countPlainIdentExpr (n : String) : GoExpr → Nat
  | .ident m => if m = n then 1 else 0
  | .basic _ => 0
  | .sel x _ => countPlainIdentExpr n x
  | .star x => countPlainIdentExpr n x
  | .kv (.ident _) v => countPlainIdentExpr n v
  | .kv k v => countPlainIdentExpr n k + countPlainIdentExpr n v
  | .call fn args => countPlainIdentExpr n fn + countPlainIdentExprs n args
  | .lit t elts => countPlainIdentExpr n t + countPlainIdentExprs n elts

def countPlainIdentExprs (n : String) : GoExprs → Nat
  | .nil => 0
  | .cons h t => countPlainIdentExpr n h + countPlainIdentExprs n t

end

/-! Expression slots of the syntactic containers, so that every file-level
counter is a sum over one list of expressions. -/

def exprSlotsStmt : GoStmt → List GoExpr
  | .exprStmt e => [e]
  | .ret rs => rs
  | .assign lhs rhs => lhs ++ rhs

def exprSlotsField (fl : GoField) : List GoExpr := [fl.ty]

def exprSlotsSpec : GoSpec → List GoExpr
  | .typeSpec _ (.structType fields) => fields.flatMap exprSlotsField
  | .typeSpec _ (.aliasTy e) => [e]
  | .valueSpec _ tyOpt values => tyOpt.toList ++ values

def exprSlotsDecl : GoDecl → List GoExpr
  | .gen _ specs => specs.flatMap exprSlotsSpec
  | .funcDecl _ recv params results body =>
    (recv.toList ++ params ++ results).flatMap exprSlotsField ++
      body.flatMap exprSlotsStmt

def exprSlotsFile (f : GoFile) : List GoExpr :=
  f.decls.flatMap exprSlotsDecl

def countSelSlotFile (n : String) (f : GoFile) : Nat :=
  ((exprSlotsFile f).map (countSelSlotExpr n)).sum

def countKvKeyFile (n : String) (f : GoFile) : Nat :=
  ((exprSlotsFile f).map (countKvKeyExpr n)).sum

def countPlainIdentFile (n : String) (f : GoFile) : Nat :=
  ((exprSlotsFile f).map (countPlainIdentExpr n)).sum

/-- Declared struct-field name slots spelled `n` (declaration sites only). -/
def countNameSlots (n : String) (names : List String) : Nat :=
  (names.map (fun m => if m = n then 1 else 0)).sum

def countFieldNamesSpec (n : String) : GoSpec → Nat
  | .typeSpec _ (.structType fields) =>
    (fields.map (fun fl => countNameSlots n fl.names)).sum
  | _ => 0

def countFieldNamesDecl (n : String) : GoDecl → Nat
  | .gen _ specs => (specs.map (countFieldNamesSpec n)).sum
  | _ => 0

def countStructFieldNamesFile (n : String) (f : GoFile) : Nat :=
  (f.decls.map (countFieldNamesDecl n)).sum

/-- Struct `S` declares field `old`; a composite literal of UNRELATED type `T`
uses `old` as a key. -/
def c7File : GoFile :=
  { pkgName := "main"
    decls :=
      [ .gen .ttype [.typeSpec "S" (.structType [⟨["old"], .ident "int", none⟩])]
      , .gen .tvar [.valueSpec ["x"] none
          [.lit (.ident "T") (.cons (.kv (.ident "old") (.basic "1")) .nil)]] ] }

/-! ## The template layer (template/template.go, internal.go, rename.go,
part_005): a heap model

A `Template` holds `*ast.File` pointers; "shared mutable state" is a
statement about aliasing, so the model makes the pointers explicit: trees
live in a heap `Nat → GoFile`, a template maps filenames to references, and
mutating a tree is writing its reference.  `cloneTemplate` renders every
file and reparses the bytes into fresh trees; the render/parse pair is the
spec's correct black box, so the clone is a deep copy into references the
allocator has never handed out (`Mem.next` is the allocation bound). -/

structure TemplateH where
  files : List (String × Nat)
  deriving DecidableEq, Repr

structure Mem where
  heap : Nat → GoFile
  next : Nat

/-- Mutate the tree at reference `r`. -/
def hwrite (m : Mem) (r : Nat) (g : GoFile) : Mem :=
  { m with heap := fun x => if x = r then g else m.heap x }

/-- `format.Node` on every file of the template: filename ↦ rendered bytes,
bytes identified with trees through the correct render/parse pair. -/
def renderTH (m : Mem) (t : TemplateH) : List (String × GoFile) :=
  t.files.map (fun p => (p.1, m.heap p.2))

/-- All references of `t` were allocated before `m.next` (every live
template satisfies this; clones allocate at and above `m.next`). -/
def THWF (m : Mem) (t : TemplateH) : Prop :=
  ∀ p ∈ t.files, p.2 < m.next

/-- The clone loop: for each source file, copy its tree into the next fresh
reference. -/
def cloneFiles (heap : Nat → GoFile) (next : Nat) :
    List (String × Nat) → List (String × Nat) × (Nat → GoFile) × Nat
  | [] => ([], heap, next)
  | p :: rest =>
    let pr := cloneFiles (fun x => if x = next then heap p.2 else heap x)
      (next + 1) rest
    ((p.1, next) :: pr.1, pr.2)

/-- `cloneTemplate` (template/internal.go ll. 243-268). -/
def cloneTemplate (m : Mem) (t : TemplateH) : TemplateH × Mem :=
  let pr := cloneFiles m.heap m.next t.files
  (⟨pr.1⟩, ⟨pr.2.1, pr.2.2⟩)

/-- A per-file mutation applied to every file of a template in order
(the shape of `renameIdentifier` / `renameStructFieldIdentifier`). -/
def mutateFiles (F : GoFile → GoFile) : Mem → List (String × Nat) → Mem
  | m, [] => m
  | m, p :: rest => mutateFiles F (hwrite m p.2 (F (m.heap p.2))) rest

def mutateAll (F : GoFile → GoFile) (m : Mem) (t : TemplateH) : Mem :=
  mutateFiles F m t.files

/-- `findStructGenDecl` restricted to one file: first TYPE GenDecl holding a
struct-typed TypeSpec named `S`, and the spec's index inside it. -/
def fileFindStructIdx (S : String) (f : GoFile) : Option (Nat × Nat) :=
  match f.decls.findIdx? (isStructDeclNamed S) with
  | none => none
  | some i =>
    match f.decls.getD i default with
    | .gen _ specs =>
      match specs.findIdx? (specIsStructNamed S) with
      | none => none
      | some j => some (i, j)
    | _ => none

/-- `findStructGenDecl` across the files: reference of the file plus the
decl/spec indices of the first hit. -/
def findStructLoc (m : Mem) (S : String) : List (String × Nat) → Option (Nat × Nat × Nat)
  | [] => none
  | p :: rest =>
    match fileFindStructIdx S (m.heap p.2) with
    | some (i, j) => some (p.2, i, j)
    | none => findStructLoc m S rest

/-- Rewrite the field list of the struct `findStructGenDecl` finds (the
mutation step shared by AddStructField, RemoveStructField and the
type/annotation pass of RenameStructField). -/
def updStructFieldsAt (m : Mem) (t : TemplateH) (S : String)
    (F : List GoField → List GoField) : Mem :=
  match findStructLoc m S t.files with
  | none => m
  | some (r, i, j) =>
    match (m.heap r).decls.getD i default with
    | .gen tok specs =>
      match specs.getD j default with
      | .typeSpec nm (.structType fields) =>
        hwrite m r
          ⟨(m.heap r).pkgName,
            (m.heap r).decls.set i
              (.gen tok (specs.set j (.typeSpec nm (.structType (F fields)))))⟩
      | _ => m
    | _ => m

/-- `findStruct`: its `fields` when the struct exists (first hit in file
order, TYPE GenDecls only). -/
def structFieldsAtLoc (m : Mem) (S : String) (t : TemplateH) : Option (List GoField) :=
  match findStructLoc m S t.files with
  | none => none
  | some (r, i, j) =>
    match (m.heap r).decls.getD i default with
    | .gen _ specs =>
      match specs.getD j default with
      | .typeSpec _ (.structType fields) => some fields
      | _ => none
    | _ => none

/-- `findFunction`: a receiver-less FuncDecl named `n` in some file. -/
def fileHasFunction (n : String) (f : GoFile) : Bool :=
  f.decls.any fun d =>
    match d with
    | .funcDecl nm none _ _ _ => decide (nm = n)
    | _ => false

/-- `findVariable` / `findConstant`: a VAR/CONST GenDecl declaring `n`. -/
def fileHasValueDecl (tok : GoTok) (n : String) (f : GoFile) : Bool :=
  f.decls.any fun d =>
    match d with
    | .gen tk specs =>
      decide (tk = tok) && specs.any (fun sp =>
        match sp with
        | .valueSpec names _ _ => names.any (fun m2 => decide (m2 = n))
        | _ => false)
    | _ => false

/-- `findType`: a TYPE GenDecl with a TypeSpec named `n` (struct or not). -/
def fileHasTypeDecl (n : String) (f : GoFile) : Bool :=
  f.decls.any fun d =>
    match d with
    | .gen .ttype specs =>
      specs.any (fun sp =>
        match sp with
        | .typeSpec nm _ => decide (nm = n)
        | _ => false)
    | _ => false

/-- `findStruct ≠ nil` per file (TYPE GenDecl, struct-typed TypeSpec). -/
def fileHasStructTY (S : String) (f : GoFile) : Bool :=
  f.decls.any (isStructDeclNamed S)

def thHasStruct (m : Mem) (t : TemplateH) (S : String) : Bool :=
  t.files.any (fun p => fileHasStructTY S (m.heap p.2))

def thHasFunction (m : Mem) (t : TemplateH) (n : String) : Bool :=
  t.files.any (fun p => fileHasFunction n (m.heap p.2))

def thHasValueDecl (m : Mem) (t : TemplateH) (tok : GoTok) (n : String) : Bool :=
  t.files.any (fun p => fileHasValueDecl tok n (m.heap p.2))

def thHasTypeDecl (m : Mem) (t : TemplateH) (n : String) : Bool :=
  t.files.any (fun p => fileHasTypeDecl n (m.heap p.2))

/-- `Template.RenameStruct` (template/rename.go ll. 12-25): existence check,
clone, ident rename on the clone. -/
def thRenameStruct (m : Mem) (t : TemplateH) (old new : String) :
    Except String (TemplateH × Mem) :=
  if thHasStruct m t old then
    .ok ((cloneTemplate m t).1,
      mutateAll (renameIdentFile old new) (cloneTemplate m t).2 (cloneTemplate m t).1)
  else .error ("struct " ++ old ++ " not found")

/-- `Template.RenameFunction`. -/
def thRenameFunction (m : Mem) (t : TemplateH) (old new : String) :
    Except String (TemplateH × Mem) :=
  if thHasFunction m t old then
    .ok ((cloneTemplate m t).1,
      mutateAll (renameIdentFile old new) (cloneTemplate m t).2 (cloneTemplate m t).1)
  else .error ("function " ++ old ++ " not found")

/-- `Template.RenameVariable`. -/
def thRenameVariable (m : Mem) (t : TemplateH) (old new : String) :
    Except String (TemplateH × Mem) :=
  if thHasValueDecl m t .tvar old then
    .ok ((cloneTemplate m t).1,
      mutateAll (renameIdentFile old new) (cloneTemplate m t).2 (cloneTemplate m t).1)
  else .error ("variable " ++ old ++ " not found")

/-- `Template.RenameConstant`. -/
def thRenameConstant (m : Mem) (t : TemplateH) (old new : String) :
    Except String (TemplateH × Mem) :=
  if thHasValueDecl m t .tconst old then
    .ok ((cloneTemplate m t).1,
      mutateAll (renameIdentFile old new) (cloneTemplate m t).2 (cloneTemplate m t).1)
  else .error ("constant " ++ old ++ " not found")

/-- `Template.RenameType`. -/
def thRenameType (m : Mem) (t : TemplateH) (old new : String) :
    Except String (TemplateH × Mem) :=
  if thHasTypeDecl m t old then
    .ok ((cloneTemplate m t).1,
      mutateAll (renameIdentFile old new) (cloneTemplate m t).2 (cloneTemplate m t).1)
  else .error ("type " ++ old ++ " not found")

/-- `Template.RenameStructField` (template/rename.go ll. 29-90): existence
and field checks on the source; clone; field/selector rename walk on every
clone file; then the type/annotation update on the struct the clone's
`findStructGenDecl` finds. -/
def thRenameStructField (m : Mem) (t : TemplateH) (structName oldFieldName : String)
    (newField : StructField) : Except String (TemplateH × Mem) :=
  match structFieldsAtLoc m structName t with
  | none => .error ("struct " ++ structName ++ " not found")
  | some fields =>
    if fields.any (fun fl => fl.names.any (fun m2 => decide (m2 = oldFieldName))) then
      .ok ((cloneTemplate m t).1, updStructFieldsAt
        (mutateAll (tmplFieldRenameFile structName oldFieldName newField.name)
          (cloneTemplate m t).2 (cloneTemplate m t).1)
        (cloneTemplate m t).1 structName (fun fs => fs.map (fun fl =>
        if fl.names.any (fun m3 => decide (m3 = newField.name)) then
          { names := fl.names
            ty := if newField.ty = "" then fl.ty else parseTypeExpr newField.ty
            tag := if newField.ann = "" then fl.tag else some (normalizeAnn newField.ann) }
        else fl)))
    else .error ("field " ++ oldFieldName ++ " not found in struct " ++ structName)

/-- `Template.AddStructField` (part_005 ll. 12-70). -/
def thAddStructField (m : Mem) (t : TemplateH) (structName : String)
    (field : StructField) : Except String (TemplateH × Mem) :=
  match structFieldsAtLoc m structName t with
  | none => .error ("struct " ++ structName ++ " not found")
  | some fields =>
    if fields.any (fun fl => fl.names.any (fun m2 => decide (m2 = field.name))) then
      .error ("field " ++ field.name ++ " already exists in struct " ++ structName)
    else
      if (findStructLoc (cloneTemplate m t).2 structName
          (cloneTemplate m t).1.files).isSome then
        .ok ((cloneTemplate m t).1, updStructFieldsAt (cloneTemplate m t).2
          (cloneTemplate m t).1 structName (fun fs => fs ++
          [{ names := [field.name], ty := parseTypeExpr field.ty,
             tag := if field.ann = "" then none else some (normalizeAnn field.ann) }]))
      else .error "failed to find struct in cloned template"

/-- `Template.RemoveStructField` (part_005 ll. 73-135). -/
def thRemoveStructField (m : Mem) (t : TemplateH) (structName : String)
    (field : StructField) : Except String (TemplateH × Mem) :=
  match structFieldsAtLoc m structName t with
  | none => .error ("struct " ++ structName ++ " not found")
  | some fields =>
    if fields.any (fun fl => fl.names.any (fun m2 => decide (m2 = field.name))) then
      if (findStructLoc (cloneTemplate m t).2 structName
          (cloneTemplate m t).1.files).isSome then
        .ok ((cloneTemplate m t).1, updStructFieldsAt (cloneTemplate m t).2
          (cloneTemplate m t).1 structName (fun fs =>
          fs.filter (fun fl => !(fl.names.any (fun m2 => decide (m2 = field.name))))))
      else .error "failed to find struct in cloned template"
    else .error ("field " ++ field.name ++ " not found in struct " ++ structName)

/-- One concrete file with a struct, a function, a variable, a constant and
a plain type, so that each transformation family can succeed. -/
def c5file : GoFile :=
  ⟨"main",
    [ .gen .ttype [.typeSpec "S" (.structType [⟨["A"], .ident "int", none⟩])]
    , .gen .tvar [.valueSpec ["v"] (some (.ident "int")) []]
    , .gen .tconst [.valueSpec ["c"] none [.basic "1"]]
    , .gen .ttype [.typeSpec "T" (.aliasTy (.ident "int"))]
    , .funcDecl "f" none [] [] [] ]⟩

def c5Mem : Mem := ⟨fun _ => c5file, 1⟩

def c5T : TemplateH := ⟨[("a.go", 0)]⟩

def c5res : TemplateH × Mem :=
  ((cloneTemplate c5Mem c5T).1,
    mutateAll (renameIdentFile "S" "S2") (cloneTemplate c5Mem c5T).2
      (cloneTemplate c5Mem c5T).1)

/-! ## Theorems -/

theorem updateField_names (f : GoField) (e : StructField) :
    (updateField f e).names = f.names := rfl

theorem mkEnsureField_names (e : StructField) :
    (mkEnsureField e).names = [e.name] := rfl

theorem fieldNames_append (l₁ l₂ : List GoField) :
    fieldNames (l₁ ++ l₂) = fieldNames l₁ ++ fieldNames l₂ := by
  simp [fieldNames]

theorem fieldNames_set_of_names_eq (l : List GoField) (i : Nat) (f : GoField)
    (h : f.names = (l.getD i default).names) :
    fieldNames (l.set i f) = fieldNames l := by
  induction l generalizing i with
  | nil => simp [List.set]
  | cons hd tl ih =>
    cases i with
    | zero =>
      have h' : f.names = hd.names := by simpa using h
      simp [List.set, fieldNames, h']
    | succ j =>
      have h' := ih j (by simpa using h)
      simp only [List.set, fieldNames, List.flatMap_cons] at *
      rw [h']

/-- Membership in the names of the ensure loop's result: exactly the base
names together with the ensured names (updates never change names; appends
only add an ensured name; map hits mean the name was already in the base). -/
theorem mem_fieldNames_ensurePhase (base : List GoField) (acc : List GoField)
    (E : List StructField) (hbase : ∀ n, n ∈ fieldNames base → n ∈ fieldNames acc) :
    ∀ n, n ∈ fieldNames (ensurePhase base acc E) ↔
      n ∈ fieldNames acc ∨ n ∈ E.map (·.name) := by
  induction E generalizing acc with
  | nil => intro n; simp [ensurePhase]
  | cons e rest ih =>
    intro n
    cases hidx : lastIdxWithName base e.name with
    | some i =>
      have hnames : (updateField (acc.getD i default) e).names = (acc.getD i default).names :=
        updateField_names _ _
      have hset : fieldNames (acc.set i (updateField (acc.getD i default) e)) = fieldNames acc :=
        fieldNames_set_of_names_eq _ _ _ hnames
      have hmem : e.name ∈ fieldNames acc := by
        apply hbase
        -- the map hit means some field of `base` declares `e.name`
        unfold lastIdxWithName at hidx
        have hdec := List.find?_some hidx
        have hi : e.name ∈ (base.getD i default).names := of_decide_eq_true hdec
        have hmemIdx : i ∈ (List.range base.length).reverse := List.mem_of_find?_eq_some hidx
        have hilt : i < base.length := List.mem_range.mp (List.mem_reverse.mp hmemIdx)
        have hfield : base.getD i default ∈ base := by
          rw [List.getD_eq_getElem base default hilt]
          exact List.getElem_mem hilt
        exact List.mem_flatMap.mpr ⟨_, hfield, hi⟩
      rw [ensurePhase, hidx]
      rw [ih _ (by intro m hm; rw [hset]; exact hbase m hm)]
      rw [hset]
      simp only [List.map_cons, List.mem_cons]
      constructor
      · rintro (h | h)
        · exact Or.inl h
        · exact Or.inr (Or.inr h)
      · rintro (h | h | h)
        · exact Or.inl h
        · exact Or.inl (h ▸ hmem)
        · exact Or.inr h
    | none =>
      rw [ensurePhase, hidx]
      have hacc : ∀ m, m ∈ fieldNames base → m ∈ fieldNames (acc ++ [mkEnsureField e]) := by
        intro m hm
        rw [fieldNames_append]
        exact List.mem_append.mpr (Or.inl (hbase m hm))
      rw [ih _ hacc]
      rw [fieldNames_append]
      simp only [fieldNames, List.flatMap_cons, List.flatMap_nil, List.append_nil,
        mkEnsureField_names, List.map_cons, List.mem_append, List.mem_singleton,
        List.mem_cons]
      tauto

/-- Membership in the names surviving the deletion loop, for structs whose
fields each declare a single name (the shape the merge engine itself
produces): a name survives iff it was declared and is not listed in
DeleteFields. -/
theorem mem_fieldNames_filter_del (fields0 : List GoField) (dels : List StructField)
    (hsingle : ∀ f ∈ fields0, ∃ nm, f.names = [nm]) :
    ∀ n, n ∈ fieldNames (fields0.filter (fun f => ! fieldMarkedForDeletion dels f)) ↔
      (n ∈ fieldNames fields0 ∧ n ∉ dels.map (·.name)) := by
  induction fields0 with
  | nil => intro n; simp [fieldNames]
  | cons f tl ih =>
    intro n
    obtain ⟨nm, hnm⟩ := hsingle f (List.mem_cons_self f tl)
    have ihtl := ih (fun g hg => hsingle g (List.mem_cons_of_mem f hg))
    have hmarked : fieldMarkedForDeletion dels f = true ↔ nm ∈ dels.map (·.name) := by
      unfold fieldMarkedForDeletion
      rw [hnm]
      simp [List.any_eq_true, List.mem_map]
    by_cases hm : fieldMarkedForDeletion dels f = true
    · have hnmd : nm ∈ dels.map (·.name) := hmarked.mp hm
      rw [List.filter_cons_of_neg (by simp [hm])]
      rw [ihtl n]
      simp only [fieldNames, List.flatMap_cons, List.mem_append, hnm,
        List.mem_singleton]
      constructor
      · rintro ⟨h1, h2⟩; exact ⟨Or.inr h1, h2⟩
      · rintro ⟨h1 | h1, h2⟩
        · exact absurd (h1 ▸ hnmd) h2
        · exact ⟨h1, h2⟩
    · have hnmd : nm ∉ dels.map (·.name) := fun hc => hm (hmarked.mpr hc)
      rw [List.filter_cons_of_pos (by simp [hm])]
      simp only [fieldNames, List.flatMap_cons, List.mem_append, hnm,
        List.mem_singleton]
      rw [show (tl.filter (fun f => ! fieldMarkedForDeletion dels f)).flatMap (·.names)
            = fieldNames (tl.filter (fun f => ! fieldMarkedForDeletion dels f)) from rfl,
        ihtl n]
      constructor
      · rintro (h1 | ⟨h1, h2⟩)
        · exact ⟨Or.inl h1, h1 ▸ hnmd⟩
        · exact ⟨Or.inr h1, h2⟩
      · rintro ⟨h1 | h1, h2⟩
        · exact Or.inl h1
        · exact Or.inr ⟨h1, h2⟩

/-- Membership in the full merge result, in terms of the deletion/clear
phase. -/
theorem mem_fieldNames_modifyStructFields (fields0 : List GoField) (s : structDef) :
    ∀ n, n ∈ fieldNames (modifyStructFields fields0 s) ↔
      (n ∈ fieldNames (if s.deleteFields ≠ [] then
          fields0.filter (fun f => ! fieldMarkedForDeletion s.deleteFields f)
        else if ¬ s.preserveExisting then []
        else fields0) ∨ n ∈ ensureNames s) := by
  intro n
  unfold modifyStructFields
  exact mem_fieldNames_ensurePhase _ _ _ (fun _ h => h) n

/-- C1 (counterexample): the claimed law `result = (existing ∪ EnsureFields)
− DeleteFields` and the claim "every field named in DeleteFields is removed
from the result" both fail when a field name is listed in EnsureFields and
DeleteFields at once: `modifyStruct` deletes before it ensures, so the field
is re-added.  Concretely, struct `S { A int }` merged with
`EnsureFields=[A], DeleteFields=[A], PreserveExisting=true` keeps field `A`
even though `A ∈ DeleteFields` demands its removal. -/
theorem modifyStruct_overlap_counterexample :
    "A" ∈ deleteNames ⟨"S", [⟨"A", "int", ""⟩], [⟨"A", "int", ""⟩], true⟩ ∧
    "A" ∈ fieldNames (modifyStructFields [⟨["A"], GoExpr.ident "int", none⟩]
      ⟨"S", [⟨"A", "int", ""⟩], [⟨"A", "int", ""⟩], true⟩) := by
  constructor
  · decide
  · decide

/-- C1 (amended): for structs whose fields each declare a single name, and
when no name is listed in EnsureFields and DeleteFields at once, the struct
merge satisfies the claimed set equations: with `PreserveExisting=true` the
resulting field-name set is `(existing ∪ EnsureFields) − DeleteFields`; with
`PreserveExisting=false` and no DeleteFields it is exactly the EnsureFields
names; and every DeleteFields name is absent from the result regardless of
the PreserveExisting flag.  (Without the disjointness proviso, a name in
both lists survives — see the counterexample.) -/
theorem modifyStruct_merge_semantics (fields0 : List GoField) (s : structDef)
    (hsingle : ∀ f ∈ fields0, ∃ nm, f.names = [nm])
    (hdisj : ∀ n, n ∈ ensureNames s → n ∉ deleteNames s) :
    (s.preserveExisting = true →
      ∀ n, n ∈ fieldNames (modifyStructFields fields0 s) ↔
        ((n ∈ fieldNames fields0 ∨ n ∈ ensureNames s) ∧ n ∉ deleteNames s))
    ∧ (s.preserveExisting = false → s.deleteFields = [] →
        ∀ n, n ∈ fieldNames (modifyStructFields fields0 s) ↔ n ∈ ensureNames s)
    ∧ (∀ n, n ∈ deleteNames s → n ∉ fieldNames (modifyStructFields fields0 s)) := by
  have hmem := mem_fieldNames_modifyStructFields fields0 s
  by_cases hD : s.deleteFields = []
  · have hdel : deleteNames s = [] := by simp [deleteNames, hD]
    refine ⟨?_, ?_, ?_⟩
    · intro hpres n
      rw [hmem n]
      rw [if_neg (by simp [hD]), if_neg (by simp [hpres])]
      simp [hdel]
    · intro hpres _ n
      rw [hmem n]
      rw [if_neg (by simp [hD]), if_pos (by simp [hpres])]
      simp [fieldNames]
    · intro n hn
      rw [hdel] at hn
      exact absurd hn (List.not_mem_nil n)
  · have hfilter := mem_fieldNames_filter_del fields0 s.deleteFields hsingle
    have hres : ∀ n, n ∈ fieldNames (modifyStructFields fields0 s) ↔
        ((n ∈ fieldNames fields0 ∧ n ∉ deleteNames s) ∨ n ∈ ensureNames s) := by
      intro n
      rw [hmem n, if_pos (by simp [hD])]
      rw [hfilter n]
      rfl
    refine ⟨?_, ?_, ?_⟩
    · intro _ n
      rw [hres n]
      have := hdisj n
      tauto
    · intro _ hD'
      exact absurd hD' hD
    · intro n hn
      rw [hres n]
      rintro (⟨_, h2⟩ | h)
      · exact h2 hn
      · exact hdisj n h hn

/-- C1 (witness): the amended merge law at a concrete instance: struct
`S { A int }` merged with `EnsureFields=[B], DeleteFields=[A],
PreserveExisting=true` ends with `B` present and `A` absent. -/
theorem modifyStruct_merge_semantics_witness :
    "B" ∈ fieldNames (modifyStructFields [⟨["A"], GoExpr.ident "int", none⟩]
      ⟨"S", [⟨"B", "int", ""⟩], [⟨"A", "int", ""⟩], true⟩) ∧
    "A" ∉ fieldNames (modifyStructFields [⟨["A"], GoExpr.ident "int", none⟩]
      ⟨"S", [⟨"B", "int", ""⟩], [⟨"A", "int", ""⟩], true⟩) := by
  have h := modifyStruct_merge_semantics [⟨["A"], GoExpr.ident "int", none⟩]
    ⟨"S", [⟨"B", "int", ""⟩], [⟨"A", "int", ""⟩], true⟩
    (by
      intro f hf
      rw [List.mem_singleton] at hf
      exact ⟨"A", by rw [hf]⟩)
    (by decide)
  refine ⟨(h.1 rfl "B").mpr (by decide), ?_⟩
  exact h.2.2 "A" (by decide)

/-! ### Store algebra -/

theorem fsLookup_write {α : Type} (st : FsStore α) (p : String) (c : α) (q : String) :
    fsLookup (fsWrite st p c) q = if q = p then some c else fsLookup st q := by
  induction st with
  | nil =>
    by_cases h : q = p
    · simp [fsWrite, fsLookup, h]
    · have h' : ¬ (p = q) := fun hh => h hh.symm
      simp [fsWrite, fsLookup, h, h']
  | cons e rest ih =>
    by_cases hep : e.1 = p
    · by_cases hq : q = p
      · simp [fsWrite, hep, fsLookup, hq]
      · have h' : ¬ (p = q) := fun hh => hq hh.symm
        have he' : ¬ (e.1 = q) := by rw [hep]; exact h'
        simp [fsWrite, hep, fsLookup, hq, h', he']
    · by_cases heq : e.1 = q
      · have hqp : ¬ (q = p) := fun hh => hep (by rw [heq, hh])
        simp [fsWrite, hep, fsLookup, heq, hqp]
      · simp [fsWrite, hep, fsLookup, heq, ih]

theorem fsLookup_erase {α : Type} (st : FsStore α) (p : String) (q : String) :
    fsLookup (fsErase st p) q = if q = p then none else fsLookup st q := by
  induction st with
  | nil => by_cases h : q = p <;> simp [fsErase, fsLookup, h]
  | cons e rest ih =>
    by_cases hep : e.1 = p
    · by_cases hq : q = p
      · subst hq
        simp only [fsErase, if_pos hep]
        simpa using ih
      · have hpq : ¬ (p = q) := fun hh => hq hh.symm
        simp [fsErase, hep, fsLookup, ih, hq, hpq]
    · by_cases heq : e.1 = q
      · have hqp : ¬ (q = p) := fun hh => hep (by rw [heq, hh])
        simp [fsErase, hep, fsLookup, heq, hqp]
      · simp [fsErase, hep, fsLookup, heq, ih]

theorem fsRename_of_lookup {α : Type} (st : FsStore α) (src dst : String) (c : α)
    (h : fsLookup st src = some c) :
    fsRename st src dst = some (fsErase (fsWrite st dst c) src) := by
  simp [fsRename, h]

/-- A path never equals itself with the ".backup" suffix appended. -/
theorem backup_ne_self (s : String) : s ++ ".backup" ≠ s := by
  intro h
  have hl := congrArg String.length h
  rw [String.length_append] at hl
  have h7 : ".backup".length = 7 := rfl
  omega

/-- Rollback lemma: with every earlier step succeeding and the final rename
failing, the protocol puts the original content back, drops the temp file and
the backup, and reports the error. -/
theorem applyChanges_rollback_lemma {α : Type} (tempPath : String) (emptyContent : α)
    (st : FsStore α) (filename : String) (newContent oldContent : α)
    (hexists : fsLookup st filename = some oldContent)
    (htemp1 : tempPath ≠ filename)
    (htemp2 : tempPath ≠ filename ++ ".backup") :
    (applyChanges ⟨false, false, false, false, true, false⟩ (some true) tempPath emptyContent
        st filename newContent true).1 = .error "failed to apply changes" ∧
    fsLookup (applyChanges ⟨false, false, false, false, true, false⟩ (some true) tempPath
        emptyContent st filename newContent true).2.1 filename = some oldContent ∧
    fsLookup (applyChanges ⟨false, false, false, false, true, false⟩ (some true) tempPath
        emptyContent st filename newContent true).2.1 tempPath = none ∧
    fsLookup (applyChanges ⟨false, false, false, false, true, false⟩ (some true) tempPath
        emptyContent st filename newContent true).2.1 (filename ++ ".backup") = none := by
  have h1' : ¬ (filename = tempPath) := fun h => htemp1 h.symm
  have hbf : ¬ ((filename ++ ".backup") = filename) := backup_ne_self filename
  have hbf' : ¬ (filename = filename ++ ".backup") := fun h => hbf h.symm
  have h2' : ¬ ((filename ++ ".backup") = tempPath) := fun h => htemp2 h.symm
  by_cases hdir : (dirOf filename ≠ "" ∧ dirOf filename ≠ ".") <;>
    simp [applyChanges, hdir, fsRenameOp, fsRename, fsLookup_write, fsLookup_erase,
      htemp1, htemp2, h1', hbf, hbf', h2', hexists]

/-- Success lemma: with every step succeeding and the change accepted, the
target holds the new content and neither temp nor backup remains. -/
theorem applyChanges_success_lemma {α : Type} (tempPath : String) (emptyContent : α)
    (st : FsStore α) (filename : String) (newContent oldContent : α)
    (hexists : fsLookup st filename = some oldContent)
    (htemp1 : tempPath ≠ filename)
    (htemp2 : tempPath ≠ filename ++ ".backup") :
    (applyChanges .allSucceed (some true) tempPath emptyContent
        st filename newContent true).1 = .ok () ∧
    fsLookup (applyChanges .allSucceed (some true) tempPath emptyContent
        st filename newContent true).2.1 filename = some newContent ∧
    fsLookup (applyChanges .allSucceed (some true) tempPath emptyContent
        st filename newContent true).2.1 tempPath = none ∧
    fsLookup (applyChanges .allSucceed (some true) tempPath emptyContent
        st filename newContent true).2.1 (filename ++ ".backup") = none := by
  have h1' : ¬ (filename = tempPath) := fun h => htemp1 h.symm
  have hbf : ¬ ((filename ++ ".backup") = filename) := backup_ne_self filename
  have hbf' : ¬ (filename = filename ++ ".backup") := fun h => hbf h.symm
  have h2' : ¬ ((filename ++ ".backup") = tempPath) := fun h => htemp2 h.symm
  by_cases hdir : (dirOf filename ≠ "" ∧ dirOf filename ≠ ".") <;>
    simp [applyChanges, FailPlan.allSucceed, hdir, fsRenameOp, fsRename, fsLookup_write,
      fsLookup_erase, htemp1, htemp2, h1', hbf, hbf', h2', hexists]

/-- General guarantee lemma: whatever fallible step is forced to fail (as
long as the rollback rename itself is not sabotaged) and whatever the
callback answers, the target ends holding either the pre-change or the
post-change content and no backup file remains. -/
theorem applyChanges_guarantee_lemma {α : Type} (plan : FailPlan) (accept? : Option Bool)
    (tempPath : String) (emptyContent : α)
    (st : FsStore α) (filename : String) (newContent oldContent : α)
    (hexists : fsLookup st filename = some oldContent)
    (hnobackup : fsLookup st (filename ++ ".backup") = none)
    (htemp1 : tempPath ≠ filename)
    (htemp2 : tempPath ≠ filename ++ ".backup")
    (hrestore : plan.failRenameRestore = false) :
    (fsLookup (applyChanges plan accept? tempPath emptyContent st filename newContent
        true).2.1 filename = some oldContent ∨
     fsLookup (applyChanges plan accept? tempPath emptyContent st filename newContent
        true).2.1 filename = some newContent) ∧
    fsLookup (applyChanges plan accept? tempPath emptyContent st filename newContent
        true).2.1 (filename ++ ".backup") = none := by
  have h1' : ¬ (filename = tempPath) := fun h => htemp1 h.symm
  have hbf : ¬ ((filename ++ ".backup") = filename) := backup_ne_self filename
  have hbf' : ¬ (filename = filename ++ ".backup") := fun h => hbf h.symm
  have h2' : ¬ ((filename ++ ".backup") = tempPath) := fun h => htemp2 h.symm
  obtain ⟨m, t, w, rb, rf, rr⟩ := plan
  simp only [FailPlan.failRenameRestore] at hrestore
  subst hrestore
  cases m <;> cases t <;> cases w <;> cases rb <;> cases rf <;>
    rcases accept? with _ | b <;> try cases b
  all_goals
    by_cases hdir : (dirOf filename ≠ "" ∧ dirOf filename ≠ ".") <;>
      simp [applyChanges, hdir, fsRenameOp, fsRename, fsLookup_write, fsLookup_erase,
        htemp1, htemp2, h1', hbf, hbf', h2', hexists, hnobackup]

/-- C2: Safe Apply Protocol atomicity for an existing target.  Provided the
temp path is fresh (distinct from the target and its backup path), no stale
backup file pre-exists, and the rollback rename itself is not among the
forced failures: (i) on every terminal path the target holds either the
pre-change or the post-change content and no backup remains; (ii) if exactly
the final rename onto the target fails, the backup is restored (target =
original bytes), the temp file is removed and the error propagates; (iii) on
the all-success accepted path the target holds the new content and the
backup and temp files are removed. -/
theorem safeApply_atomicity {α : Type} (plan : FailPlan) (accept? : Option Bool)
    (tempPath : String) (emptyContent : α)
    (st : FsStore α) (filename : String) (newContent oldContent : α)
    (hexists : fsLookup st filename = some oldContent)
    (hnobackup : fsLookup st (filename ++ ".backup") = none)
    (htemp1 : tempPath ≠ filename)
    (htemp2 : tempPath ≠ filename ++ ".backup")
    (hrestore : plan.failRenameRestore = false) :
    ((fsLookup (applyChanges plan accept? tempPath emptyContent st filename newContent
        true).2.1 filename = some oldContent ∨
      fsLookup (applyChanges plan accept? tempPath emptyContent st filename newContent
        true).2.1 filename = some newContent) ∧
     fsLookup (applyChanges plan accept? tempPath emptyContent st filename newContent
        true).2.1 (filename ++ ".backup") = none)
    ∧ (plan.failMkdir = false → plan.failTemp = false → plan.failWriteTemp = false →
        plan.failRenameBackup = false → plan.failRenameFinal = true → accept? = some true →
        (applyChanges plan accept? tempPath emptyContent st filename newContent true).1
            = .error "failed to apply changes" ∧
        fsLookup (applyChanges plan accept? tempPath emptyContent st filename newContent
            true).2.1 filename = some oldContent ∧
        fsLookup (applyChanges plan accept? tempPath emptyContent st filename newContent
            true).2.1 tempPath = none ∧
        fsLookup (applyChanges plan accept? tempPath emptyContent st filename newContent
            true).2.1 (filename ++ ".backup") = none)
    ∧ (plan = .allSucceed → accept? = some true →
        (applyChanges plan accept? tempPath emptyContent st filename newContent true).1
            = .ok () ∧
        fsLookup (applyChanges plan accept? tempPath emptyContent st filename newContent
            true).2.1 filename = some newContent ∧
        fsLookup (applyChanges plan accept? tempPath emptyContent st filename newContent
            true).2.1 tempPath = none ∧
        fsLookup (applyChanges plan accept? tempPath emptyContent st filename newContent
            true).2.1 (filename ++ ".backup") = none) := by
  refine ⟨applyChanges_guarantee_lemma plan accept? tempPath emptyContent st filename
    newContent oldContent hexists hnobackup htemp1 htemp2 hrestore, ?_, ?_⟩
  · intro hm ht hw hrb hrf hacc
    obtain ⟨m, t, w, rb, rf, rr⟩ := plan
    have hm' : m = false := hm
    have ht' : t = false := ht
    have hw' : w = false := hw
    have hrb' : rb = false := hrb
    have hrf' : rf = true := hrf
    have hrr' : rr = false := hrestore
    subst hm' ht' hw' hrb' hrf' hrr' hacc
    exact applyChanges_rollback_lemma tempPath emptyContent st filename newContent
      oldContent hexists htemp1 htemp2
  · intro hplan hacc
    subst hplan hacc
    exact applyChanges_success_lemma tempPath emptyContent st filename newContent
      oldContent hexists htemp1 htemp2

/-- C2 (witness): a concrete run where the final rename is forced to fail:
the target keeps its original content, the temp and backup are gone, and the
error propagates. -/
theorem safeApply_atomicity_witness :
    (applyChanges (⟨false, false, false, false, true, false⟩ : FailPlan) (some true)
        ".gogo-1.go" "" [("f.go", "old")] "f.go" "new" true).1
      = .error "failed to apply changes" ∧
    fsLookup (applyChanges (⟨false, false, false, false, true, false⟩ : FailPlan) (some true)
        ".gogo-1.go" "" [("f.go", "old")] "f.go" "new" true).2.1 "f.go" = some "old" ∧
    fsLookup (applyChanges (⟨false, false, false, false, true, false⟩ : FailPlan) (some true)
        ".gogo-1.go" "" [("f.go", "old")] "f.go" "new" true).2.1 ".gogo-1.go" = none := by
  have h := safeApply_atomicity (⟨false, false, false, false, true, false⟩ : FailPlan)
    (some true) ".gogo-1.go" "" [("f.go", "old")] "f.go" "new" "old"
    (by decide) (by decide) (by decide) (by decide) rfl
  have h2 := h.2.1 rfl rfl rfl rfl rfl rfl
  exact ⟨h2.1, h2.2.1, h2.2.2.1⟩

/-- C3: a false verdict from the conflict callback removes the temp file,
leaves the whole store (in particular the target file) unchanged, and
returns success, not an error. -/
theorem safeApply_reject_silent {α : Type} (plan : FailPlan)
    (tempPath : String) (emptyContent : α) (st : FsStore α)
    (filename : String) (newContent : α) (fileExists : Bool)
    (hm : plan.failMkdir = false) (ht : plan.failTemp = false)
    (hw : plan.failWriteTemp = false)
    (htempfresh : fsLookup st tempPath = none) :
    (applyChanges plan (some false) tempPath emptyContent st filename newContent
        fileExists).1 = .ok () ∧
    ∀ p, fsLookup (applyChanges plan (some false) tempPath emptyContent st filename
        newContent fileExists).2.1 p = fsLookup st p := by
  obtain ⟨m, t, w, rb, rf, rr⟩ := plan
  have hm' : m = false := hm
  have ht' : t = false := ht
  have hw' : w = false := hw
  subst hm' ht' hw'
  constructor
  · by_cases hdir : (dirOf filename ≠ "" ∧ dirOf filename ≠ ".") <;>
      simp [applyChanges, hdir]
  · intro p
    by_cases hp : p = tempPath
    · subst hp
      by_cases hdir : (dirOf filename ≠ "" ∧ dirOf filename ≠ ".") <;>
        simp [applyChanges, hdir, fsLookup_erase, htempfresh]
    · by_cases hdir : (dirOf filename ≠ "" ∧ dirOf filename ≠ ".") <;>
        simp [applyChanges, hdir, fsLookup_erase, fsLookup_write, hp]

/-- C3 (witness): a concrete rejected apply: success result and untouched
store. -/
theorem safeApply_reject_silent_witness :
    (applyChanges FailPlan.allSucceed (some false) ".gogo-1.go" ""
        [("f.go", "old")] "f.go" "new" true).1 = .ok () ∧
    fsLookup (applyChanges FailPlan.allSucceed (some false) ".gogo-1.go" ""
        [("f.go", "old")] "f.go" "new" true).2.1 "f.go" = some "old" ∧
    fsLookup (applyChanges FailPlan.allSucceed (some false) ".gogo-1.go" ""
        [("f.go", "old")] "f.go" "new" true).2.1 ".gogo-1.go" = none := by
  have h := safeApply_reject_silent FailPlan.allSucceed ".gogo-1.go" ""
    [("f.go", "old")] "f.go" "new" true rfl rfl rfl (by decide)
  exact ⟨h.1, by rw [h.2 "f.go"]; decide, by rw [h.2 ".gogo-1.go"]; decide⟩

/-- C9: for each of the six per-kind option records, supplying both the
structured form and the raw Content string — or neither — yields a
validation error before any storage access: no Stat, ReadFile or write
event is emitted and the store is untouched. -/
theorem declSpec_validation_before_storage :
    (∀ (plan : FailPlan) (accept? : Option Bool) (tempPath pkg : String)
        (st : FsStore GoFile) (opts : StructOpts),
      ((opts.fields.length > 0 ∧ opts.content ≠ "") ∨
       (opts.fields.length = 0 ∧ opts.content = "")) →
      ∃ msg, ProjectStruct plan accept? tempPath pkg st opts = (.error msg, st, []))
    ∧ (∀ (modifyM : Option GoFile → MethodOpts → String → Except String GoFile)
        (plan : FailPlan) (accept? : Option Bool) (tempPath pkg : String)
        (st : FsStore GoFile) (opts : MethodOpts),
      (((opts.params.length > 0 ∨ opts.returnType ≠ "" ∨ opts.body ≠ "") ∧
          opts.content ≠ "") ∨
       (¬ (opts.params.length > 0 ∨ opts.returnType ≠ "" ∨ opts.body ≠ "") ∧
          opts.content = "")) →
      ∃ msg, ProjectMethod modifyM plan accept? tempPath pkg st opts = (.error msg, st, []))
    ∧ (∀ (modifyF : Option GoFile → FunctionOpts → String → Except String GoFile)
        (plan : FailPlan) (accept? : Option Bool) (tempPath pkg : String)
        (st : FsStore GoFile) (opts : FunctionOpts),
      (((opts.params.length > 0 ∨ opts.returnType ≠ "" ∨ opts.body ≠ "") ∧
          opts.content ≠ "") ∨
       (¬ (opts.params.length > 0 ∨ opts.returnType ≠ "" ∨ opts.body ≠ "") ∧
          opts.content = "")) →
      ∃ msg, ProjectFunction modifyF plan accept? tempPath pkg st opts = (.error msg, st, []))
    ∧ (∀ (modifyV : Option GoFile → VariableOpts → String → Except String GoFile)
        (plan : FailPlan) (accept? : Option Bool) (tempPath pkg : String)
        (st : FsStore GoFile) (opts : VariableOpts),
      ((opts.vars.length > 0 ∧ opts.content ≠ "") ∨
       (opts.vars.length = 0 ∧ opts.content = "")) →
      ∃ msg, ProjectVariable modifyV plan accept? tempPath pkg st opts = (.error msg, st, []))
    ∧ (∀ (modifyC : Option GoFile → ConstantOpts → String → Except String GoFile)
        (plan : FailPlan) (accept? : Option Bool) (tempPath pkg : String)
        (st : FsStore GoFile) (opts : ConstantOpts),
      ((opts.constants.length > 0 ∧ opts.content ≠ "") ∨
       (opts.constants.length = 0 ∧ opts.content = "")) →
      ∃ msg, ProjectConstant modifyC plan accept? tempPath pkg st opts = (.error msg, st, []))
    ∧ (∀ (modifyT : Option GoFile → TypeOpts → String → Except String GoFile)
        (plan : FailPlan) (accept? : Option Bool) (tempPath pkg : String)
        (st : FsStore GoFile) (opts : TypeOpts),
      ((opts.types.length > 0 ∧ opts.content ≠ "") ∨
       (opts.types.length = 0 ∧ opts.content = "")) →
      ∃ msg, ProjectType modifyT plan accept? tempPath pkg st opts = (.error msg, st, [])) := by
  refine ⟨?_, ?_, ?_, ?_, ?_, ?_⟩
  · intro plan accept? tempPath pkg st opts h
    rcases h with ⟨h1, h2⟩ | ⟨h1, h2⟩
    · exact ⟨"Fields and Content are mutually exclusive - provide only one",
        by simp [ProjectStruct, h1, h2]⟩
    · exact ⟨"must provide either Fields or Content", by simp [ProjectStruct, h1, h2]⟩
  · intro modifyM plan accept? tempPath pkg st opts h
    rcases h with ⟨h1, h2⟩ | ⟨h1, h2⟩
    · exact ⟨"Parameters/ReturnType/Body and Content are mutually exclusive - provide only one approach",
        by simp [ProjectMethod, h1, h2]⟩
    · exact ⟨"must provide either Parameters/ReturnType/Body or Content",
        by simp [ProjectMethod, h1, h2]⟩
  · intro modifyF plan accept? tempPath pkg st opts h
    rcases h with ⟨h1, h2⟩ | ⟨h1, h2⟩
    · exact ⟨"Parameters/ReturnType/Body and Content are mutually exclusive - provide only one approach",
        by simp [ProjectFunction, h1, h2]⟩
    · exact ⟨"must provide either Parameters/ReturnType/Body or Content",
        by simp [ProjectFunction, h1, h2]⟩
  · intro modifyV plan accept? tempPath pkg st opts h
    rcases h with ⟨h1, h2⟩ | ⟨h1, h2⟩
    · exact ⟨"Variables and Content are mutually exclusive - provide only one",
        by simp [ProjectVariable, h1, h2]⟩
    · exact ⟨"must provide either Variables or Content", by simp [ProjectVariable, h1, h2]⟩
  · intro modifyC plan accept? tempPath pkg st opts h
    rcases h with ⟨h1, h2⟩ | ⟨h1, h2⟩
    · exact ⟨"Constants and Content are mutually exclusive - provide only one",
        by simp [ProjectConstant, h1, h2]⟩
    · exact ⟨"must provide either Constants or Content", by simp [ProjectConstant, h1, h2]⟩
  · intro modifyT plan accept? tempPath pkg st opts h
    rcases h with ⟨h1, h2⟩ | ⟨h1, h2⟩
    · exact ⟨"Types and Content are mutually exclusive - provide only one",
        by simp [ProjectType, h1, h2]⟩
    · exact ⟨"must provide either Types or Content", by simp [ProjectType, h1, h2]⟩

/-- C9 (witness): concrete invalid option records for all six kinds: the
result is a validation error with an empty storage-event trace and an
untouched store. -/
theorem declSpec_validation_before_storage_witness :
    (ProjectStruct .allSucceed none ".t" "main" []
        ⟨"f.go", "S", [⟨"A", "int", ""⟩], "A int", [], false⟩).2.2 = [] ∧
    (ProjectMethod (fun _ _ _ => .ok default) .allSucceed none ".t" "main" []
        ⟨"f.go", "M", "s", "S", [], "", "", ""⟩).2.2 = [] ∧
    (ProjectFunction (fun _ _ _ => .ok default) .allSucceed none ".t" "main" []
        ⟨"f.go", "F", [], "int", "", "() int { return 0 }"⟩).2.2 = [] ∧
    (ProjectVariable (fun _ _ _ => .ok default) .allSucceed none ".t" "main" []
        ⟨"f.go", [], ""⟩).2.2 = [] ∧
    (ProjectConstant (fun _ _ _ => .ok default) .allSucceed none ".t" "main" []
        ⟨"f.go", [⟨"K", "int", "1"⟩], "const K = 1"⟩).2.2 = [] ∧
    (ProjectType (fun _ _ _ => .ok default) .allSucceed none ".t" "main" []
        ⟨"f.go", [], ""⟩).2.2 = [] := by
  obtain ⟨hS, hM, hF, hV, hC, hT⟩ := declSpec_validation_before_storage
  obtain ⟨m1, e1⟩ := hS .allSucceed none ".t" "main" []
    ⟨"f.go", "S", [⟨"A", "int", ""⟩], "A int", [], false⟩ (Or.inl (by simp))
  obtain ⟨m2, e2⟩ := hM (fun _ _ _ => .ok default) .allSucceed none ".t" "main" []
    ⟨"f.go", "M", "s", "S", [], "", "", ""⟩ (Or.inr (by simp))
  obtain ⟨m3, e3⟩ := hF (fun _ _ _ => .ok default) .allSucceed none ".t" "main" []
    ⟨"f.go", "F", [], "int", "", "() int { return 0 }"⟩ (Or.inl (by simp))
  obtain ⟨m4, e4⟩ := hV (fun _ _ _ => .ok default) .allSucceed none ".t" "main" []
    ⟨"f.go", [], ""⟩ (Or.inr (by simp))
  obtain ⟨m5, e5⟩ := hC (fun _ _ _ => .ok default) .allSucceed none ".t" "main" []
    ⟨"f.go", [⟨"K", "int", "1"⟩], "const K = 1"⟩ (Or.inl (by simp))
  obtain ⟨m6, e6⟩ := hT (fun _ _ _ => .ok default) .allSucceed none ".t" "main" []
    ⟨"f.go", [], ""⟩ (Or.inr (by simp))
  exact ⟨by rw [e1], by rw [e2], by rw [e3], by rw [e4], by rw [e5], by rw [e6]⟩

/-! ### Idempotence of the struct merge

The ensure loop decomposes into its update part (confined to the positions
of the field list the `existingFields` map was built from) and its append
part.  On a struct whose field names are unique and single per field, and
for a spec whose EnsureFields names are pairwise distinct and disjoint from
its DeleteFields, re-running the merge is the identity. -/

theorem set_getD_self {β : Type} [Inhabited β] (l : List β) (i : Nat) :
    l.set i (l.getD i default) = l := by
  induction l generalizing i with
  | nil => simp [List.set]
  | cons hd tl ih =>
    cases i with
    | zero => simp [List.set]
    | succ j =>
      have hstep : (hd :: tl).set (j + 1) ((hd :: tl).getD (j + 1) default) =
          hd :: tl.set j (tl.getD j default) := rfl
      rw [hstep, ih j]

theorem lastIdx_some_mem (l : List GoField) (n : String) (i : Nat)
    (h : lastIdxWithName l n = some i) :
    i < l.length ∧ n ∈ (l.getD i default).names := by
  unfold lastIdxWithName at h
  have hdec := List.find?_some h
  have hmemIdx : i ∈ (List.range l.length).reverse := List.mem_of_find?_eq_some h
  exact ⟨List.mem_range.mp (List.mem_reverse.mp hmemIdx), of_decide_eq_true hdec⟩

theorem lastIdx_none_iff (l : List GoField) (n : String) :
    lastIdxWithName l n = none ↔ n ∉ fieldNames l := by
  unfold lastIdxWithName
  rw [List.find?_eq_none]
  constructor
  · intro h hmem
    rcases List.mem_flatMap.mp hmem with ⟨f, hf, hn⟩
    rcases List.mem_iff_getElem.mp hf with ⟨i, hi, hget⟩
    have : i ∈ (List.range l.length).reverse := by
      rw [List.mem_reverse]; exact List.mem_range.mpr hi
    have := h i this
    apply this
    apply decide_eq_true
    rw [List.getD_eq_getElem l default hi, hget]
    exact hn
  · intro h i hi
    intro hdec
    apply h
    have hd := of_decide_eq_true hdec
    have hilen : i < l.length := List.mem_range.mp (List.mem_reverse.mp hi)
    refine List.mem_flatMap.mpr ⟨l.getD i default, ?_, hd⟩
    rw [List.getD_eq_getElem l default hilen]
    exact List.getElem_mem hilen

theorem applyUpds_cons_some (base acc : List GoField) (e : StructField)
    (rest : List StructField) (i : Nat) (h : lastIdxWithName base e.name = some i) :
    applyUpds base acc (e :: rest) =
      applyUpds base (acc.set i (updateField (acc.getD i default) e)) rest := by
  rw [applyUpds, h]

theorem applyUpds_cons_none (base acc : List GoField) (e : StructField)
    (rest : List StructField) (h : lastIdxWithName base e.name = none) :
    applyUpds base acc (e :: rest) = applyUpds base acc rest := by
  rw [applyUpds, h]

theorem ensurePhase_cons_some (base acc : List GoField) (e : StructField)
    (rest : List StructField) (i : Nat) (h : lastIdxWithName base e.name = some i) :
    ensurePhase base acc (e :: rest) =
      ensurePhase base (acc.set i (updateField (acc.getD i default) e)) rest := by
  rw [ensurePhase, h]

theorem ensurePhase_cons_none (base acc : List GoField) (e : StructField)
    (rest : List StructField) (h : lastIdxWithName base e.name = none) :
    ensurePhase base acc (e :: rest) = ensurePhase base (acc ++ [mkEnsureField e]) rest := by
  rw [ensurePhase, h]

theorem applyUpds_length (base : List GoField) (E : List StructField)
    (acc : List GoField) : (applyUpds base acc E).length = acc.length := by
  induction E generalizing acc with
  | nil => rfl
  | cons e rest ih =>
    cases h : lastIdxWithName base e.name with
    | some i =>
      rw [applyUpds_cons_some base acc e rest i h, ih]
      simp
    | none =>
      rw [applyUpds_cons_none base acc e rest h]
      exact ih acc

theorem applyUpds_append (base : List GoField) (E : List StructField)
    (acc tail : List GoField) (hlen : base.length ≤ acc.length) :
    applyUpds base (acc ++ tail) E = applyUpds base acc E ++ tail := by
  induction E generalizing acc with
  | nil => rfl
  | cons e rest ih =>
    cases h : lastIdxWithName base e.name with
    | some i =>
      have hi : i < base.length := (lastIdx_some_mem base e.name i h).1
      have hia : i < acc.length := lt_of_lt_of_le hi hlen
      rw [applyUpds_cons_some base (acc ++ tail) e rest i h,
        applyUpds_cons_some base acc e rest i h]
      rw [List.getD_append _ _ _ _ hia]
      rw [List.set_append_left _ _ hia]
      exact ih (acc.set i (updateField (acc.getD i default) e)) (by simpa using hlen)
    | none =>
      rw [applyUpds_cons_none base (acc ++ tail) e rest h,
        applyUpds_cons_none base acc e rest h]
      exact ih acc hlen

/-- The ensure loop = its update part followed by the appended fields for
the ensure entries absent from the `existingFields` map, in spec order. -/
theorem ensurePhase_decomp (base : List GoField) (E : List StructField)
    (acc : List GoField) (hlen : base.length ≤ acc.length) :
    ensurePhase base acc E = applyUpds base acc E ++
      (E.filter (fun e => (lastIdxWithName base e.name).isNone)).map mkEnsureField := by
  induction E generalizing acc with
  | nil => simp [ensurePhase, applyUpds]
  | cons e rest ih =>
    cases h : lastIdxWithName base e.name with
    | some i =>
      rw [ensurePhase_cons_some base acc e rest i h, applyUpds_cons_some base acc e rest i h]
      rw [ih _ (by simpa using hlen)]
      rw [List.filter_cons_of_neg (by simp [h])]
    | none =>
      rw [ensurePhase_cons_none base acc e rest h, applyUpds_cons_none base acc e rest h]
      rw [ih _ (le_trans hlen (by simp))]
      rw [applyUpds_append base rest acc [mkEnsureField e] hlen]
      rw [List.filter_cons_of_pos (by simp [h])]
      simp

theorem foldl_updateField_names (E : List StructField) (f : GoField) :
    (E.foldl updateField f).names = f.names := by
  induction E generalizing f with
  | nil => rfl
  | cons e rest ih => rw [List.foldl_cons, ih, updateField_names]

theorem getD_set_self {β : Type} [Inhabited β] (l : List β) (i : Nat) (x : β)
    (h : i < l.length) : (l.set i x).getD i default = x := by
  induction l generalizing i with
  | nil => simp at h
  | cons hd tl ih =>
    cases i with
    | zero => rfl
    | succ j => exact ih j (by simpa using h)

theorem getD_set_ne {β : Type} [Inhabited β] (l : List β) (i j : Nat) (x : β)
    (h : i ≠ j) : (l.set i x).getD j default = l.getD j default := by
  induction l generalizing i j with
  | nil => simp [List.set]
  | cons hd tl ih =>
    cases i with
    | zero =>
      cases j with
      | zero => exact absurd rfl h
      | succ k => rfl
    | succ i' =>
      cases j with
      | zero => rfl
      | succ k => exact ih i' k (fun hh => h (by rw [hh]))

/-- Pointwise view of the update part: position `j` receives exactly the
updates of the entries whose map hit is `j`, in order. -/
theorem applyUpds_getD (base : List GoField) (E : List StructField)
    (acc : List GoField) (j : Nat) (hlen : base.length ≤ acc.length) :
    (applyUpds base acc E).getD j default =
      (E.filter (fun e => lastIdxWithName base e.name = some j)).foldl updateField
        (acc.getD j default) := by
  induction E generalizing acc with
  | nil => rfl
  | cons e rest ih =>
    cases h : lastIdxWithName base e.name with
    | some i =>
      rw [applyUpds_cons_some base acc e rest i h]
      have hia : i < acc.length := lt_of_lt_of_le (lastIdx_some_mem base e.name i h).1 hlen
      by_cases hij : i = j
      · subst hij
        rw [ih _ (by simpa using hlen)]
        rw [getD_set_self acc i _ hia]
        rw [List.filter_cons_of_pos (by simp [h]), List.foldl_cons]
      · rw [ih _ (by simpa using hlen)]
        rw [getD_set_ne acc i j _ hij]
        rw [List.filter_cons_of_neg (by simp [h, hij])]
    | none =>
      rw [applyUpds_cons_none base acc e rest h]
      rw [ih _ hlen]
      rw [List.filter_cons_of_neg (by simp [h])]

/-- Names at every position are untouched by the update part. -/
theorem applyUpds_names (base : List GoField) (E : List StructField)
    (acc : List GoField) (j : Nat) (hlen : base.length ≤ acc.length) :
    ((applyUpds base acc E).getD j default).names = (acc.getD j default).names := by
  rw [applyUpds_getD base E acc j hlen, foldl_updateField_names]

theorem updateField_idem (f : GoField) (e : StructField) :
    updateField (updateField f e) e = updateField f e := by
  unfold updateField
  by_cases h : e.ann ≠ "" <;> simp [h]

theorem updateField_mkEnsureField (e : StructField) :
    updateField (mkEnsureField e) e = mkEnsureField e := by
  unfold updateField mkEnsureField
  by_cases h : e.ann ≠ "" <;> simp [h]

/-- Fixpoint: if every ensure entry's map hit already carries its update's
result, the update pass is the identity. -/
theorem applyUpds_fixpoint (M : List GoField) (E : List StructField)
    (hstab : ∀ e ∈ E, ∀ i, lastIdxWithName M e.name = some i →
      updateField (M.getD i default) e = M.getD i default) :
    applyUpds M M E = M := by
  induction E with
  | nil => rfl
  | cons e rest ih =>
    cases h : lastIdxWithName M e.name with
    | some i =>
      rw [applyUpds_cons_some M M e rest i h]
      rw [hstab e (List.mem_cons_self e rest) i h]
      rw [set_getD_self]
      exact ih (fun e' he' i' h' => hstab e' (List.mem_cons_of_mem e he') i' h')
    | none =>
      rw [applyUpds_cons_none M M e rest h]
      exact ih (fun e' he' i' h' => hstab e' (List.mem_cons_of_mem e he') i' h')

theorem getD_mem {β : Type} [Inhabited β] (l : List β) (i : Nat) (h : i < l.length) :
    l.getD i default ∈ l := by
  rw [List.getD_eq_getElem l default h]
  exact List.getElem_mem h

theorem flatMap_sublist {β γ : Type} (f : β → List γ) {l₁ l₂ : List β}
    (h : l₁.Sublist l₂) : (l₁.flatMap f).Sublist (l₂.flatMap f) := by
  induction h with
  | slnil => simp
  | cons a _ ih =>
    rw [List.flatMap_cons]
    exact ih.trans (List.sublist_append_right _ _)
  | cons₂ a _ ih =>
    rw [List.flatMap_cons, List.flatMap_cons]
    exact List.Sublist.append (List.Sublist.refl _) ih

/-- Deletion marking depends only on the declared names. -/
theorem marked_congr (dels : List StructField) (f g : GoField)
    (h : f.names = g.names) :
    fieldMarkedForDeletion dels f = fieldMarkedForDeletion dels g := by
  unfold fieldMarkedForDeletion
  rw [h]

/-- With unique field names, a name determines its field position. -/
theorem nodup_names_unique_idx (l : List GoField) (hnodup : (fieldNames l).Nodup)
    (n : String) : ∀ i j, i < l.length → j < l.length →
      n ∈ (l.getD i default).names → n ∈ (l.getD j default).names → i = j := by
  induction l with
  | nil => intro i j hi _ _ _; simp at hi
  | cons hd tl ih =>
    have hnodup' : (fieldNames tl).Nodup := by
      have : (hd.names ++ fieldNames tl).Nodup := by
        simpa [fieldNames] using hnodup
      exact this.of_append_right
    have hdisj : ∀ m, m ∈ hd.names → m ∉ fieldNames tl := by
      have : (hd.names ++ fieldNames tl).Nodup := by
        simpa [fieldNames] using hnodup
      intro m hm hmem
      exact (List.disjoint_of_nodup_append this) hm hmem
    intro i j hi hj hni hnj
    cases i with
    | zero =>
      cases j with
      | zero => rfl
      | succ j' =>
        exfalso
        apply hdisj n hni
        refine List.mem_flatMap.mpr ⟨tl.getD j' default, ?_, hnj⟩
        exact getD_mem tl j' (by simpa using hj)
    | succ i' =>
      cases j with
      | zero =>
        exfalso
        apply hdisj n hnj
        refine List.mem_flatMap.mpr ⟨tl.getD i' default, ?_, hni⟩
        exact getD_mem tl i' (by simpa using hi)
      | succ j' =>
        have := ih hnodup' i' j' (by simpa using hi) (by simpa using hj) hni hnj
        omega

/-- With pairwise distinct names a filter that forces one name keeps exactly
the one entry carrying it. -/
theorem filter_eq_singleton_of_nodup (E : List StructField) (p : StructField → Bool)
    (hnodup : (E.map (·.name)).Nodup) (e : StructField) (he : e ∈ E)
    (hpe : p e = true) (hname : ∀ e' ∈ E, p e' = true → e'.name = e.name) :
    E.filter p = [e] := by
  induction E with
  | nil => simp at he
  | cons hd tl ih =>
    have hnodup' : (tl.map (·.name)).Nodup := by
      simpa using hnodup.of_cons
    rcases List.mem_cons.mp he with heq | hmem
    · subst heq
      rw [List.filter_cons_of_pos hpe]
      have htl : tl.filter p = [] := by
        rw [List.filter_eq_nil_iff]
        intro e' he' hpe'
        have hn : e'.name = e.name := hname e' (List.mem_cons_of_mem e he') hpe'
        have hmm : e.name ∈ tl.map (·.name) := List.mem_map.mpr ⟨e', he', hn⟩
        have h0 : (e.name :: tl.map (·.name)).Nodup := by simpa using hnodup
        exact (List.nodup_cons.mp h0).1 hmm
      rw [htl]
    · have hhd : p hd = false := by
        by_contra hc
        have hphd : p hd = true := by
          cases h : p hd
          · exact absurd h hc
          · rfl
        have hn : hd.name = e.name := hname hd (List.mem_cons_self hd tl) hphd
        have : e.name ∈ tl.map (·.name) := List.mem_map.mpr ⟨e, hmem, rfl⟩
        have h0 : (hd.name :: tl.map (·.name)).Nodup := by simpa using hnodup
        exact (List.nodup_cons.mp h0).1 (hn ▸ this)
      rw [List.filter_cons_of_neg (by simp [hhd])]
      exact ih hnodup' hmem (fun e' he' hp' => hname e' (List.mem_cons_of_mem hd he') hp')

theorem modifyStructFields_eq (fields0 : List GoField) (s : structDef) :
    modifyStructFields fields0 s =
      ensurePhase (afterDelete fields0 s) (afterDelete fields0 s) s.ensureFields := rfl

/-- Stability: on a struct with unique single names and a spec with pairwise
distinct ensure names, every ensure entry's map hit in the merge result
already carries its update's result. -/
theorem ensurePhase_stability (B : List GoField) (E : List StructField)
    (hsingleB : ∀ f ∈ B, ∃ nm, f.names = [nm])
    (hnodupB : (fieldNames B).Nodup)
    (hnodupE : (E.map (·.name)).Nodup) :
    ∀ e ∈ E, ∀ i, lastIdxWithName (ensurePhase B B E) e.name = some i →
      updateField ((ensurePhase B B E).getD i default) e =
        (ensurePhase B B E).getD i default := by
  intro e he i hlast
  have hdecomp : ensurePhase B B E = applyUpds B B E ++
      (E.filter (fun e' => (lastIdxWithName B e'.name).isNone)).map mkEnsureField :=
    ensurePhase_decomp B E B le_rfl
  have hUlen : (applyUpds B B E).length = B.length := applyUpds_length B E B
  obtain ⟨hiLt, hni⟩ := lastIdx_some_mem (ensurePhase B B E) e.name i hlast
  by_cases hiB : i < B.length
  · -- position inside the update region
    have hgetU : (ensurePhase B B E).getD i default = (applyUpds B B E).getD i default := by
      rw [hdecomp]
      exact List.getD_append _ _ _ _ (by rw [hUlen]; exact hiB)
    have hnames : ((applyUpds B B E).getD i default).names = (B.getD i default).names :=
      applyUpds_names B E B i le_rfl
    have hniB : e.name ∈ (B.getD i default).names := by
      rw [hgetU, hnames] at hni
      exact hni
    obtain ⟨nm, hnm⟩ := hsingleB (B.getD i default) (getD_mem B i hiB)
    have hcond : lastIdxWithName B e.name = some i := by
      have hmemB : e.name ∈ fieldNames B :=
        List.mem_flatMap.mpr ⟨_, getD_mem B i hiB, hniB⟩
      cases hl : lastIdxWithName B e.name with
      | none => exact absurd hmemB ((lastIdx_none_iff B e.name).mp hl)
      | some i' =>
        obtain ⟨hi', hni'⟩ := lastIdx_some_mem B e.name i' hl
        rw [nodup_names_unique_idx B hnodupB e.name i' i hi' hiB hni' hniB]
    have hfold := applyUpds_getD B E B i le_rfl
    have hfilter : E.filter (fun e' => decide (lastIdxWithName B e'.name = some i)) = [e] := by
      apply filter_eq_singleton_of_nodup E _ hnodupE e he
      · simp [hcond]
      · intro e' he' hp'
        have hcond' : lastIdxWithName B e'.name = some i := of_decide_eq_true hp'
        obtain ⟨_, hni'⟩ := lastIdx_some_mem B e'.name i hcond'
        rw [hnm] at hni' hniB
        have h1 : e'.name = nm := by simpa using hni'
        have h2 : e.name = nm := by simpa using hniB
        rw [h1, h2]
    rw [hgetU, hfold, hfilter]
    rw [List.foldl_cons, List.foldl_nil]
    exact updateField_idem _ e
  · -- position inside the appended region
    push_neg at hiB
    have hgetApp : (ensurePhase B B E).getD i default =
        ((E.filter (fun e' => (lastIdxWithName B e'.name).isNone)).map
          mkEnsureField).getD (i - (applyUpds B B E).length) default := by
      rw [hdecomp]
      exact List.getD_append_right _ _ _ _ (by rw [hUlen]; exact hiB)
    have hlen2 : i - (applyUpds B B E).length <
        ((E.filter (fun e' => (lastIdxWithName B e'.name).isNone)).map
          mkEnsureField).length := by
      rw [hdecomp, List.length_append] at hiLt
      omega
    have happmem := getD_mem _ _ hlen2
    obtain ⟨e'', he''sub, he''eq⟩ := List.mem_map.mp happmem
    have he''E : e'' ∈ E := List.mem_of_mem_filter he''sub
    have hname'' : e''.name = e.name := by
      rw [hgetApp, ← he''eq] at hni
      have hmem1 : e.name ∈ [e''.name] := by simpa [mkEnsureField] using hni
      have : e.name = e''.name := by simpa using hmem1
      exact this.symm
    have heq'' : e'' = e := List.inj_on_of_nodup_map hnodupE he''E he hname''
    rw [hgetApp, ← he''eq, heq'']
    exact updateField_mkEnsureField e

/-- Idempotence of the struct merge: on a struct whose fields declare one
name each with no duplicates, for a preserving spec whose EnsureFields names
are pairwise distinct and disjoint from its DeleteFields, running the merge
twice equals running it once. -/
theorem modifyStructFields_idem (L : List GoField) (s : structDef)
    (hpres : s.preserveExisting = true)
    (hsingle : ∀ f ∈ L, ∃ nm, f.names = [nm])
    (hnodupL : (fieldNames L).Nodup)
    (hnodupE : (ensureNames s).Nodup)
    (hdisj : ∀ n, n ∈ ensureNames s → n ∉ deleteNames s) :
    modifyStructFields (modifyStructFields L s) s = modifyStructFields L s := by
  have hsub : (afterDelete L s).Sublist L := by
    unfold afterDelete
    by_cases hD : s.deleteFields ≠ []
    · rw [if_pos hD]
      exact List.filter_sublist L
    · rw [if_neg hD, if_neg (by simp [hpres])]
  have hsingleB : ∀ f ∈ afterDelete L s, ∃ nm, f.names = [nm] :=
    fun f hf => hsingle f (hsub.subset hf)
  have hnodupB : (fieldNames (afterDelete L s)).Nodup :=
    hnodupL.sublist (flatMap_sublist _ hsub)
  have hL1names : ∀ n, n ∈ ensureNames s → n ∈ fieldNames (modifyStructFields L s) :=
    fun n hn => (mem_fieldNames_modifyStructFields L s n).mpr (Or.inr hn)
  -- step (a): the delete/clear phase is the identity on the merge result
  have hAD : afterDelete (modifyStructFields L s) s = modifyStructFields L s := by
    unfold afterDelete
    by_cases hD : s.deleteFields ≠ []
    · rw [if_pos hD]
      have hADfilter : afterDelete L s =
          L.filter (fun f => ! fieldMarkedForDeletion s.deleteFields f) := by
        unfold afterDelete
        rw [if_pos hD]
      have hALL : ∀ b ∈ afterDelete L s,
          fieldMarkedForDeletion s.deleteFields b = false := by
        intro b hb
        rw [hADfilter] at hb
        have := List.of_mem_filter hb
        simpa using this
      apply List.filter_eq_self.mpr
      intro g hg
      rw [modifyStructFields_eq,
        ensurePhase_decomp (afterDelete L s) s.ensureFields (afterDelete L s) le_rfl] at hg
      rcases List.mem_append.mp hg with hgU | hgApp
      · rcases List.mem_iff_getElem.mp hgU with ⟨k, hk, hgk⟩
        have hkB : k < (afterDelete L s).length := by
          rw [applyUpds_length] at hk
          exact hk
        have hgD : (applyUpds (afterDelete L s) (afterDelete L s) s.ensureFields).getD
            k default = g := by
          rw [List.getD_eq_getElem _ _ hk, hgk]
        have hnames : g.names = ((afterDelete L s).getD k default).names := by
          rw [← hgD]
          exact applyUpds_names (afterDelete L s) s.ensureFields (afterDelete L s) k le_rfl
        have hbunmarked := hALL _ (getD_mem (afterDelete L s) k hkB)
        rw [marked_congr s.deleteFields g ((afterDelete L s).getD k default) hnames]
        rw [hbunmarked]
        rfl
      · obtain ⟨e'', hsub'', heq''⟩ := List.mem_map.mp hgApp
        have he''E : e'' ∈ s.ensureFields := List.mem_of_mem_filter hsub''
        have hnotdel : e''.name ∉ deleteNames s :=
          hdisj e''.name (List.mem_map.mpr ⟨e'', he''E, rfl⟩)
        have hmk : fieldMarkedForDeletion s.deleteFields g = false := by
          rw [← heq'']
          unfold fieldMarkedForDeletion mkEnsureField
          simp only [List.any_cons, List.any_nil, Bool.or_false]
          rw [List.any_eq_false]
          intro d hd
          simp only [decide_eq_true_eq]
          intro hcontra
          exact hnotdel (List.mem_map.mpr ⟨d, hd, hcontra⟩)
        rw [hmk]
        rfl
    · rw [if_neg hD, if_neg (by simp [hpres])]
  -- step (b): the ensure loop is a fixpoint on the merge result
  rw [modifyStructFields_eq (modifyStructFields L s) s, hAD]
  rw [ensurePhase_decomp _ _ _ le_rfl]
  have hfilterNil : (s.ensureFields.filter
      (fun e' => (lastIdxWithName (modifyStructFields L s) e'.name).isNone)) = [] := by
    rw [List.filter_eq_nil_iff]
    intro e he hcontra
    have hnone : lastIdxWithName (modifyStructFields L s) e.name = none := by
      cases h : lastIdxWithName (modifyStructFields L s) e.name with
      | none => rfl
      | some i => rw [h] at hcontra; simp at hcontra
    exact (lastIdx_none_iff _ _).mp hnone
      (hL1names e.name (List.mem_map.mpr ⟨e, he, rfl⟩))
  rw [hfilterNil]
  simp only [List.map_nil, List.append_nil]
  rw [modifyStructFields_eq L s]
  exact applyUpds_fixpoint _ _
    (ensurePhase_stability (afterDelete L s) s.ensureFields hsingleB hnodupB hnodupE)

/-! ### Lifting idempotence to declarations and files -/

theorem lastIdx_nil (n : String) : lastIdxWithName [] n = none := rfl

/-- Merging into an empty field list produces exactly the ensure fields. -/
theorem modifyStructFields_nil (s : structDef) :
    modifyStructFields [] s = s.ensureFields.map mkEnsureField := by
  have hAD : afterDelete [] s = [] := by
    unfold afterDelete
    by_cases hD : s.deleteFields ≠ []
    · rw [if_pos hD]
      rfl
    · rw [if_neg hD]
      by_cases hp : ¬ s.preserveExisting
      · rw [if_pos hp]
      · rw [if_neg hp]
  rw [modifyStructFields_eq, hAD]
  rw [ensurePhase_decomp [] s.ensureFields [] le_rfl]
  have hupds : applyUpds [] [] s.ensureFields = [] := by
    induction s.ensureFields with
    | nil => rfl
    | cons e rest ih => rw [applyUpds_cons_none [] [] e rest (lastIdx_nil e.name)]; exact ih
  have hfil : s.ensureFields.filter
      (fun e' => (lastIdxWithName [] e'.name).isNone) = s.ensureFields := by
    apply List.filter_eq_self.mpr
    intro a _
    rw [lastIdx_nil a.name]
    rfl
  rw [hupds, hfil]
  rfl

theorem any_congr_mem {β : Type} (l : List β) (p q : β → Bool)
    (h : ∀ a ∈ l, p a = q a) : l.any p = l.any q := by
  induction l with
  | nil => rfl
  | cons hd tl ih =>
    simp only [List.any_cons]
    rw [h hd (List.mem_cons_self hd tl),
      ih (fun a ha => h a (List.mem_cons_of_mem hd ha))]

/-- The per-spec action keeps the name and structness of every TypeSpec. -/
theorem specIsStructNamed_modifyTypeSpec (nm : String) (s : structDef) (sp : GoSpec) :
    specIsStructNamed nm (modifyTypeSpec s sp) = specIsStructNamed nm sp := by
  cases sp with
  | valueSpec a b c => rfl
  | typeSpec n ty =>
    cases ty with
    | aliasTy e => rfl
    | structType fields =>
      simp only [modifyTypeSpec]
      by_cases hn : n = s.name
      · rw [if_pos hn]
        rfl
      · rw [if_neg hn]

/-- `modifyStruct` keeps the name and structness of every TypeSpec. -/
theorem isStructDeclNamed_modifyStruct (nm : String) (d : GoDecl) (s : structDef) :
    isStructDeclNamed nm (modifyStruct d s) = isStructDeclNamed nm d := by
  cases d with
  | funcDecl a b c e f => rfl
  | gen tok specs =>
    cases tok with
    | tvar => rfl
    | tconst => rfl
    | ttype =>
      show (specs.map (modifyTypeSpec s)).any (specIsStructNamed nm) =
        specs.any (specIsStructNamed nm)
      rw [List.any_map]
      exact any_congr_mem specs _ _
        (fun sp _ => specIsStructNamed_modifyTypeSpec nm s sp)

theorem findIdx?_set_pred_eq {β : Type} [Inhabited β] (l : List β) (p : β → Bool)
    (i : Nat) (x : β) (h : p x = p (l.getD i default)) :
    (l.set i x).findIdx? p = l.findIdx? p := by
  induction l generalizing i with
  | nil => simp [List.set]
  | cons a tl ih =>
    cases i with
    | zero =>
      have h' : p x = p a := h
      simp [List.set, List.findIdx?_cons, h']
    | succ j =>
      have h' : p x = p (tl.getD j default) := h
      simp [List.set, List.findIdx?_cons, List.findIdx?_succ, ih j h']

theorem findIdx?_lt_length {β : Type} (l : List β) (p : β → Bool) (i : Nat)
    (h : l.findIdx? p = some i) : i < l.length := by
  induction l generalizing i with
  | nil => simp [List.findIdx?] at h
  | cons a tl ih =>
    rw [List.findIdx?_cons] at h
    by_cases hp : p a = true
    · rw [if_pos hp] at h
      cases h
      simp
    · rw [if_neg hp, List.findIdx?_succ] at h
      rcases Option.map_eq_some'.mp h with ⟨j, hj, hij⟩
      have := ih j hj
      simp only [List.length_cons]
      omega

theorem findIdx?_append_of_none {β : Type} (l₁ l₂ : List β) (p : β → Bool)
    (h : l₁.findIdx? p = none) :
    (l₁ ++ l₂).findIdx? p = (l₂.findIdx? p).map (· + l₁.length) := by
  induction l₁ with
  | nil => simp
  | cons a tl ih =>
    rw [List.findIdx?_cons] at h
    by_cases hp : p a = true
    · rw [if_pos hp] at h
      cases h
    · rw [if_neg hp, List.findIdx?_succ] at h
      have htl : tl.findIdx? p = none := by
        cases hc : tl.findIdx? p with
        | none => rfl
        | some j => rw [hc] at h; simp at h
      rw [List.cons_append, List.findIdx?_cons, if_neg hp, List.findIdx?_succ, ih htl]
      rw [Option.map_map]
      cases l₂.findIdx? p with
      | none => rfl
      | some j =>
        simp only [Option.map_some', Function.comp, List.length_cons]
        congr 1

theorem fieldsWF_single (fields : List GoField) (h : fieldsWF fields = true) :
    ∀ fl ∈ fields, ∃ nm, fl.names = [nm] := by
  intro fl hfl
  have h1 := (Bool.and_eq_true _ _).mp h |>.1
  have := List.all_eq_true.mp h1 fl hfl
  have hlen : fl.names.length = 1 := by simpa using this
  rcases List.length_eq_one.mp hlen with ⟨a, ha⟩
  exact ⟨a, ha⟩

theorem fieldsWF_nodup (fields : List GoField) (h : fieldsWF fields = true) :
    (fieldNames fields).Nodup := by
  have h2 := (Bool.and_eq_true _ _).mp h |>.2
  exact of_decide_eq_true h2

/-- Spec-level idempotence. -/
theorem modifyTypeSpec_idem (sp : GoSpec) (s : structDef)
    (hpres : s.preserveExisting = true)
    (hnodupE : (ensureNames s).Nodup)
    (hdisj : ∀ n, n ∈ ensureNames s → n ∉ deleteNames s)
    (hwf : ∀ fields, sp = GoSpec.typeSpec s.name (GoTypeDef.structType fields) →
      fieldsWF fields = true) :
    modifyTypeSpec s (modifyTypeSpec s sp) = modifyTypeSpec s sp := by
  cases sp with
  | valueSpec a b c => rfl
  | typeSpec n ty =>
    cases ty with
    | aliasTy e => rfl
    | structType fields =>
      by_cases hn : n = s.name
      · subst hn
        have hwff := hwf fields rfl
        have hstep : modifyTypeSpec s (GoSpec.typeSpec s.name
            (GoTypeDef.structType fields)) = GoSpec.typeSpec s.name
            (GoTypeDef.structType (modifyStructFields fields s)) := by
          simp [modifyTypeSpec]
        rw [hstep]
        have hstep2 : modifyTypeSpec s (GoSpec.typeSpec s.name
            (GoTypeDef.structType (modifyStructFields fields s))) = GoSpec.typeSpec s.name
            (GoTypeDef.structType (modifyStructFields (modifyStructFields fields s) s)) := by
          simp [modifyTypeSpec]
        rw [hstep2]
        rw [modifyStructFields_idem fields s hpres (fieldsWF_single fields hwff)
          (fieldsWF_nodup fields hwff) hnodupE hdisj]
      · have hstep : modifyTypeSpec s (GoSpec.typeSpec n (GoTypeDef.structType fields)) =
            GoSpec.typeSpec n (GoTypeDef.structType fields) := by
          simp only [modifyTypeSpec]
          rw [if_neg hn]
        rw [hstep, hstep]

/-- Declaration-level idempotence. -/
theorem modifyStruct_idem (d : GoDecl) (s : structDef)
    (hpres : s.preserveExisting = true)
    (hnodupE : (ensureNames s).Nodup)
    (hdisj : ∀ n, n ∈ ensureNames s → n ∉ deleteNames s)
    (hwf : ∀ specs, d = GoDecl.gen GoTok.ttype specs →
      ∀ sp ∈ specs, ∀ fields, sp = GoSpec.typeSpec s.name (GoTypeDef.structType fields) →
        fieldsWF fields = true) :
    modifyStruct (modifyStruct d s) s = modifyStruct d s := by
  cases d with
  | funcDecl a b c e f => rfl
  | gen tok specs =>
    cases tok with
    | tvar => rfl
    | tconst => rfl
    | ttype =>
      show GoDecl.gen GoTok.ttype ((specs.map (modifyTypeSpec s)).map (modifyTypeSpec s)) =
        GoDecl.gen GoTok.ttype (specs.map (modifyTypeSpec s))
      rw [List.map_map]
      congr 1
      apply List.map_congr_left
      intro sp hsp
      exact modifyTypeSpec_idem sp s hpres hnodupE hdisj
        (fun fields heq => hwf specs rfl sp hsp fields heq)

theorem modifyExistingFile_none (f : GoFile) (s : structDef)
    (h : findOrCreateStructIdx f.decls s.name = none) :
    modifyExistingFile f s = { f with decls := f.decls ++ [createStructDecl s] } := by
  unfold modifyExistingFile
  rw [h]

theorem modifyExistingFile_some (f : GoFile) (s : structDef) (i : Nat)
    (h : findOrCreateStructIdx f.decls s.name = some i) :
    modifyExistingFile f s =
      { f with decls := f.decls.set i (modifyStruct (f.decls.getD i default) s) } := by
  unfold modifyExistingFile
  rw [h]

theorem isStructDeclNamed_createStructDecl (s : structDef) :
    isStructDeclNamed s.name (createStructDecl s) = true := by
  simp [createStructDecl, isStructDeclNamed, specIsStructNamed]

/-- Re-merging the freshly created struct declaration changes nothing. -/
theorem modifyStruct_createStructDecl (s : structDef)
    (hpres : s.preserveExisting = true)
    (hnodupE : (ensureNames s).Nodup)
    (hdisj : ∀ n, n ∈ ensureNames s → n ∉ deleteNames s) :
    modifyStruct (createStructDecl s) s = createStructDecl s := by
  have hfields : modifyStructFields (s.ensureFields.map mkEnsureField) s =
      s.ensureFields.map mkEnsureField := by
    rw [← modifyStructFields_nil s]
    exact modifyStructFields_idem [] s hpres
      (fun f hf => absurd hf (List.not_mem_nil f)) List.nodup_nil hnodupE hdisj
  show GoDecl.gen GoTok.ttype
      ([GoSpec.typeSpec s.name (GoTypeDef.structType (s.ensureFields.map mkEnsureField))].map
        (modifyTypeSpec s)) = createStructDecl s
  simp only [List.map_cons, List.map_nil]
  have : modifyTypeSpec s (GoSpec.typeSpec s.name
      (GoTypeDef.structType (s.ensureFields.map mkEnsureField))) =
      GoSpec.typeSpec s.name
        (GoTypeDef.structType (modifyStructFields (s.ensureFields.map mkEnsureField) s)) := by
    simp [modifyTypeSpec]
  rw [this, hfields]
  rfl

theorem fileStructWF_spec (f : GoFile) (nm : String) (hwf : fileStructWF f nm = true) :
    ∀ d ∈ f.decls, ∀ specs, d = GoDecl.gen GoTok.ttype specs →
      ∀ sp ∈ specs, ∀ fields, sp = GoSpec.typeSpec nm (GoTypeDef.structType fields) →
        fieldsWF fields = true := by
  intro d hd specs hdeq sp hsp fields hspeq
  have h1 := List.all_eq_true.mp hwf d hd
  subst hdeq
  have h2 := List.all_eq_true.mp h1 sp hsp
  subst hspeq
  simpa using h2

/-- File-level idempotence of the merge. -/
theorem modifyExistingFile_idem (f : GoFile) (s : structDef)
    (hpres : s.preserveExisting = true)
    (hnodupE : (ensureNames s).Nodup)
    (hdisj : ∀ n, n ∈ ensureNames s → n ∉ deleteNames s)
    (hwf : fileStructWF f s.name = true) :
    modifyExistingFile (modifyExistingFile f s) s = modifyExistingFile f s := by
  cases hfind : findOrCreateStructIdx f.decls s.name with
  | none =>
    rw [modifyExistingFile_none f s hfind]
    have hfind2 : findOrCreateStructIdx (f.decls ++ [createStructDecl s]) s.name =
        some f.decls.length := by
      unfold findOrCreateStructIdx at hfind ⊢
      rw [findIdx?_append_of_none _ _ _ hfind]
      rw [List.findIdx?_cons, if_pos (isStructDeclNamed_createStructDecl s)]
      simp
    rw [modifyExistingFile_some _ s f.decls.length hfind2]
    have hget : (f.decls ++ [createStructDecl s]).getD f.decls.length default =
        createStructDecl s := by
      rw [List.getD_append_right _ _ _ _ le_rfl]
      simp
    rw [hget, modifyStruct_createStructDecl s hpres hnodupE hdisj]
    have hset : (f.decls ++ [createStructDecl s]).set f.decls.length (createStructDecl s) =
        f.decls ++ [createStructDecl s] := by
      have := set_getD_self (f.decls ++ [createStructDecl s]) f.decls.length
      rw [hget] at this
      exact this
    rw [hset]
  | some i =>
    have hlen : i < f.decls.length := findIdx?_lt_length _ _ _ hfind
    rw [modifyExistingFile_some f s i hfind]
    have hfind2 : findOrCreateStructIdx
        (f.decls.set i (modifyStruct (f.decls.getD i default) s)) s.name = some i := by
      unfold findOrCreateStructIdx at hfind ⊢
      rw [findIdx?_set_pred_eq _ _ _ _
        (isStructDeclNamed_modifyStruct s.name (f.decls.getD i default) s)]
      exact hfind
    rw [modifyExistingFile_some _ s i hfind2]
    have hget : (f.decls.set i (modifyStruct (f.decls.getD i default) s)).getD i default =
        modifyStruct (f.decls.getD i default) s :=
      getD_set_self f.decls i _ hlen
    rw [hget]
    rw [modifyStruct_idem (f.decls.getD i default) s hpres hnodupE hdisj
      (fun specs hdeq sp hsp fields hspeq =>
        fileStructWF_spec f s.name hwf _ (getD_mem f.decls i hlen) specs hdeq sp hsp
          fields hspeq)]
    rw [List.set_set]

/-- Pipeline-level idempotence: feeding the merge result back in (as the
modified file now on disk) reproduces it exactly. -/
theorem modifyStructInFile_idem (old : Option GoFile) (s : structDef) (pkg : String)
    (hpres : s.preserveExisting = true)
    (hnodupE : (ensureNames s).Nodup)
    (hdisj : ∀ n, n ∈ ensureNames s → n ∉ deleteNames s)
    (hwf : ∀ f, old = some f → fileStructWF f s.name = true) :
    modifyStructInFile (some (modifyStructInFile old s pkg)) s pkg =
      modifyStructInFile old s pkg := by
  cases old with
  | some f => exact modifyExistingFile_idem f s hpres hnodupE hdisj (hwf f rfl)
  | none =>
    show modifyExistingFile (createNewFileWithStruct s pkg) s = createNewFileWithStruct s pkg
    have hfind : findOrCreateStructIdx (createNewFileWithStruct s pkg).decls s.name
        = some 0 := by
      show findOrCreateStructIdx [createStructDecl s] s.name = some 0
      unfold findOrCreateStructIdx
      rw [List.findIdx?_cons, if_pos (isStructDeclNamed_createStructDecl s)]
    rw [modifyExistingFile_some _ s 0 hfind]
    have hd : (createNewFileWithStruct s pkg).decls.getD 0 default = createStructDecl s :=
      rfl
    rw [hd, modifyStruct_createStructDecl s hpres hnodupE hdisj]
    rfl

/-- `Project.Struct` with valid options, an existing file and equal bytes:
the no-changes short circuit — success, untouched store, and the trace stops
after Stat and ReadFile. -/
theorem ProjectStruct_noChanges (plan : FailPlan) (accept? : Option Bool)
    (tempPath pkg : String) (st : FsStore GoFile) (opts : StructOpts) (f : GoFile)
    (hv1 : ¬ (opts.fields.length > 0 ∧ opts.content ≠ ""))
    (hv2 : ¬ (opts.fields.length = 0 ∧ opts.content = ""))
    (hv3 : ¬ (opts.filename = "")) (hv4 : ¬ (opts.name = ""))
    (hold : fsLookup st opts.filename = some f)
    (heq : modifyStructInFile (some f) (structDefOf opts) pkg = f) :
    ProjectStruct plan accept? tempPath pkg st opts =
      (.ok (), st, [.statE opts.filename, .readE opts.filename]) := by
  unfold ProjectStruct
  rw [if_neg hv1, if_neg hv2, if_neg hv3, if_neg hv4]
  simp only [hold, heq, Option.isSome_some, if_pos, and_true, if_true]
  simp

/-- `Project.Struct` with valid options, an existing file and differing bytes:
the apply path. -/
theorem ProjectStruct_apply (plan : FailPlan) (accept? : Option Bool)
    (tempPath pkg : String) (st : FsStore GoFile) (opts : StructOpts) (f : GoFile)
    (hv1 : ¬ (opts.fields.length > 0 ∧ opts.content ≠ ""))
    (hv2 : ¬ (opts.fields.length = 0 ∧ opts.content = ""))
    (hv3 : ¬ (opts.filename = "")) (hv4 : ¬ (opts.name = ""))
    (hold : fsLookup st opts.filename = some f)
    (hneq : modifyStructInFile (some f) (structDefOf opts) pkg ≠ f) :
    ProjectStruct plan accept? tempPath pkg st opts =
      ((applyChanges plan accept? tempPath default st opts.filename
          (modifyStructInFile (some f) (structDefOf opts) pkg) true).1,
       (applyChanges plan accept? tempPath default st opts.filename
          (modifyStructInFile (some f) (structDefOf opts) pkg) true).2.1,
       [.statE opts.filename, .readE opts.filename] ++
         (applyChanges plan accept? tempPath default st opts.filename
          (modifyStructInFile (some f) (structDefOf opts) pkg) true).2.2) := by
  unfold ProjectStruct
  rw [if_neg hv1, if_neg hv2, if_neg hv3, if_neg hv4]
  simp only [hold, Option.isSome_some, if_true]
  rw [if_neg (by simp only [Option.some.injEq, true_and]; exact fun h => hneq h.symm)]
  simp

/-- `Project.Struct` with valid options and no existing file: the create
path. -/
theorem ProjectStruct_create (plan : FailPlan) (accept? : Option Bool)
    (tempPath pkg : String) (st : FsStore GoFile) (opts : StructOpts)
    (hv1 : ¬ (opts.fields.length > 0 ∧ opts.content ≠ ""))
    (hv2 : ¬ (opts.fields.length = 0 ∧ opts.content = ""))
    (hv3 : ¬ (opts.filename = "")) (hv4 : ¬ (opts.name = ""))
    (hold : fsLookup st opts.filename = none) :
    ProjectStruct plan accept? tempPath pkg st opts =
      ((applyChanges plan accept? tempPath default st opts.filename
          (modifyStructInFile none (structDefOf opts) pkg) false).1,
       (applyChanges plan accept? tempPath default st opts.filename
          (modifyStructInFile none (structDefOf opts) pkg) false).2.1,
       [.statE opts.filename] ++
         (applyChanges plan accept? tempPath default st opts.filename
          (modifyStructInFile none (structDefOf opts) pkg) false).2.2) := by
  unfold ProjectStruct
  rw [if_neg hv1, if_neg hv2, if_neg hv3, if_neg hv4]
  simp only [hold, Option.isSome_none, if_false]
  simp

/-- Create-branch success of the Safe Apply Protocol. -/
theorem applyChanges_create_lemma {α : Type} (tempPath : String) (emptyContent : α)
    (st : FsStore α) (filename : String) (newContent : α)
    (htemp1 : tempPath ≠ filename) :
    (applyChanges .allSucceed (some true) tempPath emptyContent st filename
        newContent false).1 = .ok () ∧
    fsLookup (applyChanges .allSucceed (some true) tempPath emptyContent st filename
        newContent false).2.1 filename = some newContent := by
  have h1' : ¬ (filename = tempPath) := fun h => htemp1 h.symm
  by_cases hdir : (dirOf filename ≠ "" ∧ dirOf filename ≠ ".") <;>
    simp [applyChanges, FailPlan.allSucceed, hdir, fsRenameOp, fsRename, fsLookup_write,
      fsLookup_erase, htemp1, h1']

/-- C4 (counterexample): the idempotence half of the claim fails when a
field name is listed in both EnsureFields and DeleteFields.  Applying the
spec `Ensure=[A,B], Delete=[A], PreserveExisting=true` to `S { A int }`
yields field order `[A, B]`; the second identical call deletes `A`, re-adds
it at the end (`[B, A]`), so the rendered bytes differ and the second call
runs the full apply machinery again — its storage trace contains the
TempFile event instead of stopping at Stat/ReadFile. -/
theorem struct_idempotence_counterexample :
    FsEvent.tempE "." ∈
      (ProjectStruct .allSucceed (some true) ".gogo-1.go" "main"
        (ProjectStruct .allSucceed (some true) ".gogo-1.go" "main"
          [("m.go", ⟨"main", [.gen .ttype
            [.typeSpec "S" (.structType [⟨["A"], .ident "int", none⟩])]]⟩)]
          ⟨"m.go", "S", [⟨"A", "int", ""⟩, ⟨"B", "int", ""⟩], "",
            [⟨"A", "int", ""⟩], true⟩).2.1
        ⟨"m.go", "S", [⟨"A", "int", ""⟩, ⟨"B", "int", ""⟩], "",
          [⟨"A", "int", ""⟩], true⟩).2.2 := by
  decide

/-- C4 (amended): the equality short-circuit holds exactly as claimed: when
the freshly produced content equals the existing file content, `Project.Struct`
reports success with no temp file, no conflict callback and no rename — its
storage trace is exactly Stat then ReadFile and the store is untouched.
The idempotence half holds for every spec with `PreserveExisting=true` whose
EnsureFields names are pairwise distinct and name no DeleteFields entry
(and whose target struct declares unique single names per field, as every
engine-produced struct does): the second identical call short-circuits to
the no-changes result.  Without the disjointness proviso the second call
re-applies — see the counterexample. -/
theorem struct_short_circuit_and_idempotence :
    (∀ (plan : FailPlan) (accept? : Option Bool) (tempPath pkg : String)
        (st : FsStore GoFile) (opts : StructOpts) (f : GoFile),
      ¬ (opts.fields.length > 0 ∧ opts.content ≠ "") →
      ¬ (opts.fields.length = 0 ∧ opts.content = "") →
      ¬ (opts.filename = "") → ¬ (opts.name = "") →
      fsLookup st opts.filename = some f →
      modifyStructInFile (some f) (structDefOf opts) pkg = f →
      ProjectStruct plan accept? tempPath pkg st opts =
        (.ok (), st, [.statE opts.filename, .readE opts.filename]))
    ∧ (∀ (tempPath pkg : String) (st : FsStore GoFile) (opts : StructOpts),
      ¬ (opts.fields.length > 0 ∧ opts.content ≠ "") →
      ¬ (opts.fields.length = 0 ∧ opts.content = "") →
      ¬ (opts.filename = "") → ¬ (opts.name = "") →
      (structDefOf opts).preserveExisting = true →
      (ensureNames (structDefOf opts)).Nodup →
      (∀ n, n ∈ ensureNames (structDefOf opts) → n ∉ deleteNames (structDefOf opts)) →
      (∀ f, fsLookup st opts.filename = some f →
        fileStructWF f (structDefOf opts).name = true) →
      tempPath ≠ opts.filename →
      tempPath ≠ opts.filename ++ ".backup" →
      ProjectStruct .allSucceed (some true) tempPath pkg
          ((ProjectStruct .allSucceed (some true) tempPath pkg st opts).2.1) opts =
        (.ok (), (ProjectStruct .allSucceed (some true) tempPath pkg st opts).2.1,
          [.statE opts.filename, .readE opts.filename])) := by
  constructor
  · intro plan accept? tempPath pkg st opts f hv1 hv2 hv3 hv4 hold heq
    exact ProjectStruct_noChanges plan accept? tempPath pkg st opts f hv1 hv2 hv3 hv4
      hold heq
  · intro tempPath pkg st opts hv1 hv2 hv3 hv4 hpres hnodupE hdisj hwf htemp1 htemp2
    cases hold : fsLookup st opts.filename with
    | none =>
      rw [ProjectStruct_create .allSucceed (some true) tempPath pkg st opts
        hv1 hv2 hv3 hv4 hold]
      have hcr := applyChanges_create_lemma tempPath (default : GoFile) st opts.filename
        (modifyStructInFile none (structDefOf opts) pkg) htemp1
      have heq2 := modifyStructInFile_idem none (structDefOf opts) pkg hpres hnodupE hdisj
        (fun f' h => Option.noConfusion h)
      exact ProjectStruct_noChanges .allSucceed (some true) tempPath pkg _ opts _
        hv1 hv2 hv3 hv4 hcr.2 heq2
    | some f =>
      by_cases heq : modifyStructInFile (some f) (structDefOf opts) pkg = f
      · have h1 := ProjectStruct_noChanges .allSucceed (some true) tempPath pkg st opts f
          hv1 hv2 hv3 hv4 hold heq
        rw [h1]
        exact ProjectStruct_noChanges .allSucceed (some true) tempPath pkg st opts f
          hv1 hv2 hv3 hv4 hold heq
      · rw [ProjectStruct_apply .allSucceed (some true) tempPath pkg st opts f
          hv1 hv2 hv3 hv4 hold heq]
        have hsucc := applyChanges_success_lemma tempPath (default : GoFile) st
          opts.filename (modifyStructInFile (some f) (structDefOf opts) pkg) f hold
          htemp1 htemp2
        have heq2 := modifyStructInFile_idem (some f) (structDefOf opts) pkg hpres
          hnodupE hdisj (fun f' h => by
            have hff : f = f' := by injection h
            rw [← hff]
            exact hwf f hold)
        exact ProjectStruct_noChanges .allSucceed (some true) tempPath pkg _ opts _
          hv1 hv2 hv3 hv4 hsucc.2.1 heq2

/-- C4 (witness): reapplying the spec `Ensure=[B int], PreserveExisting=true`
to a file holding `S { A int }` short-circuits on the second call: success
and a storage trace of exactly Stat and ReadFile. -/
theorem struct_short_circuit_and_idempotence_witness :
    ProjectStruct .allSucceed (some true) ".gogo-1.go" "main"
        ((ProjectStruct .allSucceed (some true) ".gogo-1.go" "main"
          [("m.go", ⟨"main", [.gen .ttype
            [.typeSpec "S" (.structType [⟨["A"], .ident "int", none⟩])]]⟩)]
          ⟨"m.go", "S", [⟨"B", "int", ""⟩], "", [], true⟩).2.1)
        ⟨"m.go", "S", [⟨"B", "int", ""⟩], "", [], true⟩ =
      (.ok (), (ProjectStruct .allSucceed (some true) ".gogo-1.go" "main"
          [("m.go", ⟨"main", [.gen .ttype
            [.typeSpec "S" (.structType [⟨["A"], .ident "int", none⟩])]]⟩)]
          ⟨"m.go", "S", [⟨"B", "int", ""⟩], "", [], true⟩).2.1,
        [.statE "m.go", .readE "m.go"]) := by
  have h := struct_short_circuit_and_idempotence.2 ".gogo-1.go" "main"
    [("m.go", ⟨"main", [.gen .ttype
      [.typeSpec "S" (.structType [⟨["A"], .ident "int", none⟩])]]⟩)]
    ⟨"m.go", "S", [⟨"B", "int", ""⟩], "", [], true⟩
    (by decide) (by decide) (by decide) (by decide) (by decide) (by decide)
    (by decide)
    (by
      intro f h
      have h0 : fsLookup [("m.go", (⟨"main", [.gen .ttype
          [.typeSpec "S" (.structType [⟨["A"], .ident "int", none⟩])]]⟩ : GoFile))]
          "m.go" = some (⟨"main", [.gen .ttype
          [.typeSpec "S" (.structType [⟨["A"], .ident "int", none⟩])]]⟩ : GoFile) := by
        decide
      rw [h0] at h
      have hf : (⟨"main", [.gen .ttype
          [.typeSpec "S" (.structType [⟨["A"], .ident "int", none⟩])]]⟩ : GoFile) = f := by
        injection h
      rw [← hf]
      decide)
    (by decide) (by decide)
  exact h

theorem structDefOf_name (opts : StructOpts) : (structDefOf opts).name = opts.name := by
  unfold structDefOf
  by_cases h : opts.content ≠ ""
  · rw [if_pos h]
  · rw [if_neg h]

theorem specStructNames_modifyTypeSpec_superset (s : structDef) (sp : GoSpec)
    (hdel : s.deleteFields = []) (hpres : s.preserveExisting = true) :
    ∀ n, n ∈ specStructNames s.name sp →
      n ∈ specStructNames s.name (modifyTypeSpec s sp) := by
  intro n hn
  cases sp with
  | valueSpec a b c => simpa [specStructNames] using hn
  | typeSpec nm ty =>
    cases ty with
    | aliasTy e => simpa [specStructNames] using hn
    | structType fs =>
      by_cases hnm : nm = s.name
      · subst hnm
        have hstep : modifyTypeSpec s (GoSpec.typeSpec s.name (GoTypeDef.structType fs)) =
            GoSpec.typeSpec s.name (GoTypeDef.structType (modifyStructFields fs s)) := by
          simp [modifyTypeSpec]
        rw [hstep]
        have hn' : n ∈ fieldNames fs := by
          simpa [specStructNames] using hn
        have hmem := (mem_fieldNames_modifyStructFields fs s n).mpr
        simp only [specStructNames, if_pos rfl]
        apply hmem
        left
        rw [if_neg (by simp [hdel]), if_neg (by simp [hpres])]
        exact hn'
      · have hstep : modifyTypeSpec s (GoSpec.typeSpec nm (GoTypeDef.structType fs)) =
            GoSpec.typeSpec nm (GoTypeDef.structType fs) := by
          simp only [modifyTypeSpec]
          rw [if_neg hnm]
        rw [hstep]
        exact hn

theorem structSpecsNames_modifyStruct_superset (s : structDef) (d : GoDecl)
    (hdel : s.deleteFields = []) (hpres : s.preserveExisting = true) :
    ∀ n, n ∈ structSpecsNames s.name d →
      n ∈ structSpecsNames s.name (modifyStruct d s) := by
  intro n hn
  cases d with
  | funcDecl a b c e f => simpa [structSpecsNames] using hn
  | gen tok specs =>
    cases tok with
    | tvar => simpa [structSpecsNames] using hn
    | tconst => simpa [structSpecsNames] using hn
    | ttype =>
      have hn' : n ∈ specs.flatMap (specStructNames s.name) := hn
      rcases List.mem_flatMap.mp hn' with ⟨sp, hsp, hnsp⟩
      show n ∈ (specs.map (modifyTypeSpec s)).flatMap (specStructNames s.name)
      refine List.mem_flatMap.mpr ⟨modifyTypeSpec s sp, List.mem_map.mpr ⟨sp, hsp, rfl⟩, ?_⟩
      exact specStructNames_modifyTypeSpec_superset s sp hdel hpres n hnsp

/-- C10: the Content form of `Project.Struct` forces `PreserveExisting = true`
with no deletions, so it never removes an existing field of the target
struct: every declared field name of the struct survives the merge. -/
theorem contentForm_preserves_existing_fields (opts : StructOpts) (f : GoFile)
    (pkg : String) (hcontent : opts.content ≠ "") :
    (structDefOf opts).preserveExisting = true ∧
    (structDefOf opts).deleteFields = [] ∧
    (∀ n, n ∈ structNamesOf f opts.name →
      n ∈ structNamesOf (modifyStructInFile (some f) (structDefOf opts) pkg)
        opts.name) := by
  have hform : structDefOf opts =
      { name := opts.name
        ensureFields := parseFieldsString opts.content
        deleteFields := []
        preserveExisting := true } := by
    unfold structDefOf
    rw [if_pos hcontent]
  refine ⟨by rw [hform], by rw [hform], ?_⟩
  intro n hn
  have hname : (structDefOf opts).name = opts.name := structDefOf_name opts
  have hdel : (structDefOf opts).deleteFields = [] := by rw [hform]
  have hpres : (structDefOf opts).preserveExisting = true := by rw [hform]
  show n ∈ structNamesOf (modifyExistingFile f (structDefOf opts)) opts.name
  cases hfind : findOrCreateStructIdx f.decls opts.name with
  | none =>
    rw [show structNamesOf f opts.name = [] from by unfold structNamesOf; rw [hfind]] at hn
    exact absurd hn (List.not_mem_nil n)
  | some i =>
    rw [show structNamesOf f opts.name =
      structSpecsNames opts.name (f.decls.getD i default) from by
        unfold structNamesOf; rw [hfind]] at hn
    have hlen : i < f.decls.length := findIdx?_lt_length _ _ _ hfind
    have hfind' : findOrCreateStructIdx f.decls (structDefOf opts).name = some i := by
      rw [hname]
      exact hfind
    rw [modifyExistingFile_some f (structDefOf opts) i hfind']
    have hfind2 : findOrCreateStructIdx
        (f.decls.set i (modifyStruct (f.decls.getD i default) (structDefOf opts)))
        opts.name = some i := by
      unfold findOrCreateStructIdx at hfind ⊢
      rw [findIdx?_set_pred_eq _ _ _ _
        (isStructDeclNamed_modifyStruct opts.name (f.decls.getD i default)
          (structDefOf opts))]
      exact hfind
    have hres : ∀ (g : GoFile),
        g.decls = f.decls.set i (modifyStruct (f.decls.getD i default) (structDefOf opts)) →
        structNamesOf g opts.name = structSpecsNames opts.name
          (modifyStruct (f.decls.getD i default) (structDefOf opts)) := by
      intro g hg
      unfold structNamesOf
      rw [hg, hfind2]
      show structSpecsNames opts.name
        ((f.decls.set i (modifyStruct (f.decls.getD i default)
          (structDefOf opts))).getD i default) = _
      rw [getD_set_self f.decls i _ hlen]
    rw [hres _ rfl]
    have hsup := structSpecsNames_modifyStruct_superset (structDefOf opts)
      (f.decls.getD i default) hdel hpres n
    rw [hname] at hsup
    exact hsup hn

/-- C10 (witness): content form `"B int"` applied to `S { A int }` keeps
field `A`. -/
theorem contentForm_preserves_existing_fields_witness :
    ((structDefOf ⟨"m.go", "S", [], "B int", [], false⟩).preserveExisting = true) ∧
    "A" ∈ structNamesOf
      (modifyStructInFile (some ⟨"main", [.gen .ttype
        [.typeSpec "S" (.structType [⟨["A"], .ident "int", none⟩])]]⟩)
        (structDefOf ⟨"m.go", "S", [], "B int", [], false⟩) "main") "S" := by
  have h := contentForm_preserves_existing_fields ⟨"m.go", "S", [], "B int", [], false⟩
    ⟨"main", [.gen .ttype [.typeSpec "S" (.structType [⟨["A"], .ident "int", none⟩])]]⟩
    "main" (by decide)
  exact ⟨h.1, h.2.2 "A" (by decide)⟩

theorem renameName_count (old new : String) (h : old ≠ new) (n : String) :
    (if renameName old new n = old then 1 else 0) = 0 := by
  unfold renameName
  by_cases hn : n = old
  · rw [if_pos hn, if_neg (fun hc => h hc.symm)]
  · rw [if_neg hn, if_neg hn]

mutual

theorem countRenameExpr (old new : String) (h : old ≠ new) :
    ∀ e, countIdentExpr old (renameExpr old new e) = 0
  | .ident n => by
    simp only [renameExpr, countIdentExpr]
    exact renameName_count old new h n
  | .basic v => rfl
  | .sel x s => by
    simp only [renameExpr, countIdentExpr]
    rw [countRenameExpr old new h x, renameName_count old new h s]
  | .star x => by
    simp only [renameExpr, countIdentExpr]
    exact countRenameExpr old new h x
  | .kv k v => by
    simp only [renameExpr, countIdentExpr]
    rw [countRenameExpr old new h k, countRenameExpr old new h v]
  | .call fn args => by
    simp only [renameExpr, countIdentExpr]
    rw [countRenameExpr old new h fn, countRenameExprs old new h args]
  | .lit t elts => by
    simp only [renameExpr, countIdentExpr]
    rw [countRenameExpr old new h t, countRenameExprs old new h elts]

theorem countRenameExprs (old new : String) (h : old ≠ new) :
    ∀ es, countIdentExprs old (renameExprs old new es) = 0
  | .nil => rfl
  | .cons hd tl => by
    simp only [renameExprs, countIdentExprs]
    rw [countRenameExpr old new h hd, countRenameExprs old new h tl]

end

theorem sum_map_zero {β : Type} (l : List β) (g : β → Nat) (h : ∀ x ∈ l, g x = 0) :
    (l.map g).sum = 0 := by
  induction l with
  | nil => rfl
  | cons hd tl ih =>
    simp only [List.map_cons, List.sum_cons]
    rw [h hd (List.mem_cons_self hd tl), ih (fun x hx => h x (List.mem_cons_of_mem hd hx))]

theorem countRenameStmt (old new : String) (h : old ≠ new) (st : GoStmt) :
    countIdentStmt old (renameStmt old new st) = 0 := by
  cases st with
  | exprStmt e =>
    simp only [renameStmt, countIdentStmt]
    exact countRenameExpr old new h e
  | ret rs =>
    simp only [renameStmt, countIdentStmt, List.map_map, Function.comp_def]
    exact sum_map_zero rs _ (fun x _ => countRenameExpr old new h x)
  | assign lhs rhs =>
    simp only [renameStmt, countIdentStmt, List.map_map, Function.comp_def]
    rw [sum_map_zero lhs _ (fun x _ => countRenameExpr old new h x),
      sum_map_zero rhs _ (fun x _ => countRenameExpr old new h x)]

theorem countRenameField (old new : String) (h : old ≠ new) (fl : GoField) :
    countIdentField old (renameField old new fl) = 0 := by
  unfold countIdentField renameField
  simp only [List.map_map, Function.comp_def]
  rw [sum_map_zero fl.names _ (fun x _ => renameName_count old new h x),
    countRenameExpr old new h fl.ty]

theorem countRenameTypeDef (old new : String) (h : old ≠ new) (td : GoTypeDef) :
    countIdentTypeDef old (renameTypeDef old new td) = 0 := by
  cases td with
  | structType fields =>
    simp only [renameTypeDef, countIdentTypeDef, List.map_map, Function.comp_def]
    exact sum_map_zero fields _ (fun x _ => countRenameField old new h x)
  | aliasTy e =>
    simp only [renameTypeDef, countIdentTypeDef]
    exact countRenameExpr old new h e

theorem countRenameSpec (old new : String) (h : old ≠ new) (sp : GoSpec) :
    countIdentSpec old (renameSpec old new sp) = 0 := by
  cases sp with
  | typeSpec m ty =>
    simp only [renameSpec, countIdentSpec]
    rw [renameName_count old new h m, countRenameTypeDef old new h ty]
  | valueSpec names tyOpt values =>
    simp only [renameSpec, countIdentSpec, List.map_map, Function.comp_def]
    rw [sum_map_zero names _ (fun x _ => renameName_count old new h x),
      sum_map_zero values _ (fun x _ => countRenameExpr old new h x)]
    cases tyOpt with
    | none => rfl
    | some e =>
      simp only [Option.map_some']
      rw [countRenameExpr old new h e]

theorem countRenameDecl (old new : String) (h : old ≠ new) (d : GoDecl) :
    countIdentDecl old (renameDecl old new d) = 0 := by
  cases d with
  | gen tok specs =>
    simp only [renameDecl, countIdentDecl, List.map_map, Function.comp_def]
    exact sum_map_zero specs _ (fun x _ => countRenameSpec old new h x)
  | funcDecl m recv params results body =>
    simp only [renameDecl, countIdentDecl, List.map_map, Function.comp_def]
    rw [renameName_count old new h m,
      sum_map_zero params _ (fun x _ => countRenameField old new h x),
      sum_map_zero results _ (fun x _ => countRenameField old new h x),
      sum_map_zero body _ (fun x _ => countRenameStmt old new h x)]
    cases recv with
    | none => rfl
    | some fl =>
      simp only [Option.map_some']
      rw [countRenameField old new h fl]

/-- After the ident pass no slot is spelled `old` any more. -/
theorem countRenameFile (old new : String) (h : old ≠ new) (f : GoFile) :
    countIdentFile old (renameIdentFile old new f) = 0 := by
  unfold countIdentFile renameIdentFile
  simp only [List.map_map, Function.comp_def]
  rw [renameName_count old new h f.pkgName,
    sum_map_zero f.decls _ (fun x _ => countRenameDecl old new h x)]

/-- **C8**: removal of a still-called method is claimed to leave the method
with its body replaced by a default-returning stub and "no other declaration
of that method".  The code's called branch APPENDS the stub without removing
the original: on `c8File` (method `Get` of `S` returning `string`, called in
`useIt`) the result contains TWO declarations matching the method — the
untouched original among them — so the file declares `Get` twice, which is
not compilable Go.  The unreferenced branch does delete outright as claimed.
This is a divergence of the code from both the spec and the evident intent
(the stub exists exactly to keep the file consistent), i.e. a code bug. -/
theorem removeMethod_called_duplicates_decl :
    (∃ g, RemoveMethod "S" "Get" c8File = .ok g ∧
      (g.decls.filter (isMethodOf "S" "Get")).length = 2 ∧
      GoDecl.funcDecl "Get" (some ⟨["s"], .ident "S", none⟩) []
          [⟨[], .ident "string", none⟩] [.ret [.basic "\x22hi\x22"]] ∈ g.decls ∧
      GoDecl.funcDecl "Get" (some ⟨["s"], .ident "S", none⟩) []
          [⟨[], .ident "string", none⟩]
          [.ret [.basic "\x22HELLO, WORLD!\x22"]] ∈ g.decls) ∧
    (∃ g, RemoveMethod "S" "Get" c8FileUnref = .ok g ∧
      (g.decls.filter (isMethodOf "S" "Get")).length = 0) := by
  exact ⟨⟨_, rfl, by decide, by decide, by decide⟩, ⟨_, rfl, by decide⟩⟩

theorem countDeclSlotSpec_le (old new : String) (h : old ≠ new) (sp : GoSpec) :
    countIdentSpec old (declSlotSpec old new sp) ≤ countIdentSpec old sp := by
  cases sp with
  | typeSpec n ty =>
    simp only [declSlotSpec, countIdentSpec]
    exact Nat.add_le_add (by rw [renameName_count old new h n]; exact Nat.zero_le _)
      (Nat.le_refl _)
  | valueSpec names tyOpt values =>
    simp only [declSlotSpec, countIdentSpec, List.map_map, Function.comp_def]
    refine Nat.add_le_add (Nat.add_le_add ?_ (Nat.le_refl _)) (Nat.le_refl _)
    rw [sum_map_zero names _ (fun x _ => renameName_count old new h x)]
    exact Nat.zero_le _

theorem countDeclSlotDecl_le (old new : String) (h : old ≠ new) (d : GoDecl) :
    countIdentDecl old (declSlotDecl old new d) ≤ countIdentDecl old d := by
  cases d with
  | gen tok specs =>
    simp only [declSlotDecl, countIdentDecl, List.map_map, Function.comp_def]
    exact List.sum_le_sum (fun x _ => countDeclSlotSpec_le old new h x)
  | funcDecl n recv params results body =>
    simp only [declSlotDecl, countIdentDecl]
    refine Nat.add_le_add (Nat.add_le_add (Nat.add_le_add (Nat.add_le_add ?_
      (Nat.le_refl _)) (Nat.le_refl _)) (Nat.le_refl _)) (Nat.le_refl _)
    rw [renameName_count old new h n]
    exact Nat.zero_le _

theorem countDeclSlotFile_le (old new : String) (h : old ≠ new) (f : GoFile) :
    countIdentFile old (declSlotFile old new f) ≤ countIdentFile old f := by
  simp only [declSlotFile, countIdentFile, List.map_map, Function.comp_def]
  exact Nat.add_le_add (Nat.le_refl _)
    (List.sum_le_sum (fun x _ => countDeclSlotDecl_le old new h x))

/-- **C6**: after a successful rename from `old` to `new` (`old ≠ new`), the
resulting trees hold zero ident occurrences spelled `old` — in particular
zero occurrences bound to the renamed declaration.  Both engines satisfy
this: the template `renameIdentifier` walk rewrites every ident slot of
every walked file; `Code.Rename` (success = a declaration of `old` exists,
the `hasDeclNamed` hypothesis) runs that same ident pass and then the
declaration pass, which cannot reintroduce `old`. -/
theorem rename_leaves_no_old_ident (old new : String) (h : old ≠ new) (f : GoFile)
    (hdecl : hasDeclNamed old f = true) :
    countIdentFile old (renameIdentFile old new f) = 0 ∧
    countIdentFile old (codeRename old new f) = 0 := by
  refine ⟨countRenameFile old new h f, ?_⟩
  unfold codeRename
  rw [hdecl, if_pos rfl]
  have hle := countDeclSlotFile_le old new h (renameIdentFile old new f)
  rw [countRenameFile old new h f] at hle
  exact Nat.le_zero.mp hle

/-- A run of `rename_leaves_no_old_ident` on a file declaring and using a
type `A`. -/
theorem rename_leaves_no_old_ident_witness :
    ("A" : String) ≠ "B" ∧
    hasDeclNamed "A"
      ⟨"main", [.gen .ttype [.typeSpec "A" (.structType [⟨["X"], .ident "int", none⟩])],
        .gen .tvar [.valueSpec ["v"] (some (.ident "A")) []]]⟩ = true ∧
    (countIdentFile "A" (renameIdentFile "A" "B"
      ⟨"main", [.gen .ttype [.typeSpec "A" (.structType [⟨["X"], .ident "int", none⟩])],
        .gen .tvar [.valueSpec ["v"] (some (.ident "A")) []]]⟩) = 0 ∧
    countIdentFile "A" (codeRename "A" "B"
      ⟨"main", [.gen .ttype [.typeSpec "A" (.structType [⟨["X"], .ident "int", none⟩])],
        .gen .tvar [.valueSpec ["v"] (some (.ident "A")) []]]⟩) = 0) :=
  ⟨by decide, by decide, rename_leaves_no_old_ident "A" "B" (by decide) _ (by decide)⟩

/-! ### Generic list bookkeeping for the scoping proofs -/

theorem sum_map_congr {β : Type} (l : List β) (g h : β → Nat)
    (hgh : ∀ x ∈ l, g x = h x) : (l.map g).sum = (l.map h).sum := by
  induction l with
  | nil => rfl
  | cons hd tl ih =>
    simp only [List.map_cons, List.sum_cons]
    rw [hgh hd (List.mem_cons_self hd tl),
      ih (fun x hx => hgh x (List.mem_cons_of_mem hd hx))]

theorem sum_map_set_lt {β : Type} [Inhabited β] (l : List β) (i : Nat) (x : β)
    (g : β → Nat) (hi : i < l.length) (hlt : g x < g (l.getD i default)) :
    ((l.set i x).map g).sum < (l.map g).sum := by
  induction l generalizing i with
  | nil => simp at hi
  | cons hd tl ih =>
    cases i with
    | zero =>
      simp only [List.set, List.map_cons, List.sum_cons]
      simp only [List.getD_cons_zero] at hlt
      omega
    | succ k =>
      simp only [List.set, List.map_cons, List.sum_cons]
      simp only [List.getD_cons_succ] at hlt
      have := ih k (by simpa using Nat.lt_of_succ_lt_succ hi) hlt
      omega

theorem flatMap_set_eq {β γ : Type} [Inhabited β] (l : List β) (i : Nat) (x : β)
    (g : β → List γ) (hg : g x = g (l.getD i default)) :
    (l.set i x).flatMap g = l.flatMap g := by
  induction l generalizing i with
  | nil => simp
  | cons hd tl ih =>
    cases i with
    | zero =>
      simp only [List.set, List.flatMap_cons]
      rw [hg]
      simp
    | succ k =>
      simp only [List.set, List.flatMap_cons]
      simp only [List.getD_cons_succ] at hg
      rw [ih k hg]

theorem flatMap_map_comm {β γ : Type} (l : List β) (t : β → β) (g : β → List γ)
    (w : γ → γ) (h : ∀ a ∈ l, g (t a) = (g a).map w) :
    (l.map t).flatMap g = (l.flatMap g).map w := by
  induction l with
  | nil => rfl
  | cons hd tl ih =>
    simp only [List.map_cons, List.flatMap_cons, List.map_append]
    rw [h hd (List.mem_cons_self hd tl),
      ih (fun a ha => h a (List.mem_cons_of_mem hd ha))]

theorem findIdx?_getD {β : Type} [Inhabited β] (l : List β) (p : β → Bool) (i : Nat)
    (h : l.findIdx? p = some i) : p (l.getD i default) = true := by
  induction l generalizing i with
  | nil => simp [List.findIdx?] at h
  | cons a tl ih =>
    rw [List.findIdx?_cons] at h
    by_cases hp : p a = true
    · rw [if_pos hp] at h
      cases h
      simpa using hp
    · rw [if_neg hp, List.findIdx?_succ] at h
      rcases Option.map_eq_some'.mp h with ⟨j, hj, hij⟩
      subst hij
      simpa using ih j hj

/-! ### Expression-level facts about the two reference walks -/

mutual

theorem countSelSlot_fieldRef (old new : String) (h : old ≠ new) :
    ∀ e, countSelSlotExpr old (fieldRefRenameExpr old new e) = 0
  | .ident n => rfl
  | .basic v => rfl
  | .sel x s => by
    simp only [fieldRefRenameExpr, countSelSlotExpr]
    rw [countSelSlot_fieldRef old new h x, renameName_count old new h s]
  | .star x => by
    simp only [fieldRefRenameExpr, countSelSlotExpr]
    exact countSelSlot_fieldRef old new h x
  | .kv k v => by
    have hk := countSelSlot_fieldRef old new h k
    have hv := countSelSlot_fieldRef old new h v
    cases k <;> simp only [fieldRefRenameExpr, countSelSlotExpr] at * <;> omega
  | .call fn args => by
    simp only [fieldRefRenameExpr, countSelSlotExpr]
    rw [countSelSlot_fieldRef old new h fn, countSelSlot_fieldRefs old new h args]
  | .lit t elts => by
    simp only [fieldRefRenameExpr, countSelSlotExpr]
    rw [countSelSlot_fieldRef old new h t, countSelSlot_fieldRefs old new h elts]

theorem countSelSlot_fieldRefs (old new : String) (h : old ≠ new) :
    ∀ es, countSelSlotExprs old (fieldRefRenameExprs old new es) = 0
  | .nil => rfl
  | .cons hd tl => by
    simp only [fieldRefRenameExprs, countSelSlotExprs]
    rw [countSelSlot_fieldRef old new h hd, countSelSlot_fieldRefs old new h tl]

end

/-- The reference walk maps KeyValueExprs to KeyValueExprs. -/
theorem fieldRefRename_kv_shape (old new : String) (k v : GoExpr) :
    ∃ k' v', fieldRefRenameExpr old new (.kv k v) = .kv k' v' := by
  cases k <;> exact ⟨_, _, rfl⟩

mutual

theorem countKvKey_fieldRef (old new : String) (h : old ≠ new) :
    ∀ e, countKvKeyExpr old (fieldRefRenameExpr old new e) = 0
  | .ident n => rfl
  | .basic v => rfl
  | .sel x s => by
    simp only [fieldRefRenameExpr, countKvKeyExpr]
    exact countKvKey_fieldRef old new h x
  | .star x => by
    simp only [fieldRefRenameExpr, countKvKeyExpr]
    exact countKvKey_fieldRef old new h x
  | .kv k v => by
    have hv := countKvKey_fieldRef old new h v
    cases k with
    | ident m =>
      simp only [fieldRefRenameExpr, countKvKeyExpr]
      rw [renameName_count old new h m, hv]
    | basic _ => simp only [fieldRefRenameExpr, countKvKeyExpr]; omega
    | sel x s =>
      have hk := countKvKey_fieldRef old new h (GoExpr.sel x s)
      simp only [fieldRefRenameExpr, countKvKeyExpr] at *
      omega
    | star x =>
      have hk := countKvKey_fieldRef old new h (GoExpr.star x)
      simp only [fieldRefRenameExpr, countKvKeyExpr] at *
      omega
    | kv k2 v2 =>
      have hk := countKvKey_fieldRef old new h (GoExpr.kv k2 v2)
      obtain ⟨k', v', hkv⟩ := fieldRefRename_kv_shape old new k2 v2
      rw [hkv] at hk
      simp only [fieldRefRenameExpr, hkv, countKvKeyExpr] at *
      omega
    | call fn args =>
      have hk := countKvKey_fieldRef old new h (GoExpr.call fn args)
      simp only [fieldRefRenameExpr, countKvKeyExpr] at *
      omega
    | lit t elts =>
      have hk := countKvKey_fieldRef old new h (GoExpr.lit t elts)
      simp only [fieldRefRenameExpr, countKvKeyExpr] at *
      omega
  | .call fn args => by
    simp only [fieldRefRenameExpr, countKvKeyExpr]
    rw [countKvKey_fieldRef old new h fn, countKvKey_fieldRefs old new h args]
  | .lit t elts => by
    simp only [fieldRefRenameExpr, countKvKeyExpr]
    rw [countKvKey_fieldRef old new h t, countKvKey_fieldRefs old new h elts]

theorem countKvKey_fieldRefs (old new : String) (h : old ≠ new) :
    ∀ es, countKvKeyExprs old (fieldRefRenameExprs old new es) = 0
  | .nil => rfl
  | .cons hd tl => by
    simp only [fieldRefRenameExprs, countKvKeyExprs]
    rw [countKvKey_fieldRef old new h hd, countKvKey_fieldRefs old new h tl]

end

mutual

theorem countPlainIdent_fieldRef (old new n : String) :
    ∀ e, countPlainIdentExpr n (fieldRefRenameExpr old new e) = countPlainIdentExpr n e
  | .ident m => rfl
  | .basic v => rfl
  | .sel x s => by
    simp only [fieldRefRenameExpr, countPlainIdentExpr]
    exact countPlainIdent_fieldRef old new n x
  | .star x => by
    simp only [fieldRefRenameExpr, countPlainIdentExpr]
    exact countPlainIdent_fieldRef old new n x
  | .kv k v => by
    have hv := countPlainIdent_fieldRef old new n v
    cases k with
    | ident m => simp only [fieldRefRenameExpr, countPlainIdentExpr]; omega
    | basic _ => simp only [fieldRefRenameExpr, countPlainIdentExpr]; omega
    | sel x s =>
      have hk := countPlainIdent_fieldRef old new n (GoExpr.sel x s)
      simp only [fieldRefRenameExpr, countPlainIdentExpr] at *
      omega
    | star x =>
      have hk := countPlainIdent_fieldRef old new n (GoExpr.star x)
      simp only [fieldRefRenameExpr, countPlainIdentExpr] at *
      omega
    | kv k2 v2 =>
      have hk := countPlainIdent_fieldRef old new n (GoExpr.kv k2 v2)
      obtain ⟨k', v', hkv⟩ := fieldRefRename_kv_shape old new k2 v2
      rw [hkv] at hk
      simp only [fieldRefRenameExpr, hkv, countPlainIdentExpr] at *
      omega
    | call fn args =>
      have hk := countPlainIdent_fieldRef old new n (GoExpr.call fn args)
      simp only [fieldRefRenameExpr, countPlainIdentExpr] at *
      omega
    | lit t elts =>
      have hk := countPlainIdent_fieldRef old new n (GoExpr.lit t elts)
      simp only [fieldRefRenameExpr, countPlainIdentExpr] at *
      omega
  | .call fn args => by
    simp only [fieldRefRenameExpr, countPlainIdentExpr]
    rw [countPlainIdent_fieldRef old new n fn, countPlainIdent_fieldRefs old new n args]
  | .lit t elts => by
    simp only [fieldRefRenameExpr, countPlainIdentExpr]
    rw [countPlainIdent_fieldRef old new n t, countPlainIdent_fieldRefs old new n elts]

theorem countPlainIdent_fieldRefs (old new n : String) :
    ∀ es, countPlainIdentExprs n (fieldRefRenameExprs old new es) = countPlainIdentExprs n es
  | .nil => rfl
  | .cons hd tl => by
    simp only [fieldRefRenameExprs, countPlainIdentExprs]
    rw [countPlainIdent_fieldRef old new n hd, countPlainIdent_fieldRefs old new n tl]

end

mutual

theorem countSelSlot_selRename (old new : String) (h : old ≠ new) :
    ∀ e, countSelSlotExpr old (selRenameExpr old new e) = 0
  | .ident n => rfl
  | .basic v => rfl
  | .sel x s => by
    simp only [selRenameExpr, countSelSlotExpr]
    rw [countSelSlot_selRename old new h x, renameName_count old new h s]
  | .star x => by
    simp only [selRenameExpr, countSelSlotExpr]
    exact countSelSlot_selRename old new h x
  | .kv k v => by
    simp only [selRenameExpr, countSelSlotExpr]
    rw [countSelSlot_selRename old new h k, countSelSlot_selRename old new h v]
  | .call fn args => by
    simp only [selRenameExpr, countSelSlotExpr]
    rw [countSelSlot_selRename old new h fn, countSelSlot_selRenames old new h args]
  | .lit t elts => by
    simp only [selRenameExpr, countSelSlotExpr]
    rw [countSelSlot_selRename old new h t, countSelSlot_selRenames old new h elts]

theorem countSelSlot_selRenames (old new : String) (h : old ≠ new) :
    ∀ es, countSelSlotExprs old (selRenameExprs old new es) = 0
  | .nil => rfl
  | .cons hd tl => by
    simp only [selRenameExprs, countSelSlotExprs]
    rw [countSelSlot_selRename old new h hd, countSelSlot_selRenames old new h tl]

end

mutual

theorem countKvKey_selRename (old new n : String) :
    ∀ e, countKvKeyExpr n (selRenameExpr old new e) = countKvKeyExpr n e
  | .ident m => rfl
  | .basic v => rfl
  | .sel x s => by
    simp only [selRenameExpr, countKvKeyExpr]
    exact countKvKey_selRename old new n x
  | .star x => by
    simp only [selRenameExpr, countKvKeyExpr]
    exact countKvKey_selRename old new n x
  | .kv k v => by
    have hv := countKvKey_selRename old new n v
    cases k with
    | ident m => simp only [selRenameExpr, countKvKeyExpr]; omega
    | basic _ => simp only [selRenameExpr, countKvKeyExpr]; omega
    | sel x s =>
      have hk := countKvKey_selRename old new n (GoExpr.sel x s)
      simp only [selRenameExpr, countKvKeyExpr] at *
      omega
    | star x =>
      have hk := countKvKey_selRename old new n (GoExpr.star x)
      simp only [selRenameExpr, countKvKeyExpr] at *
      omega
    | kv k2 v2 =>
      have hk := countKvKey_selRename old new n (GoExpr.kv k2 v2)
      simp only [selRenameExpr, countKvKeyExpr] at *
      omega
    | call fn args =>
      have hk := countKvKey_selRename old new n (GoExpr.call fn args)
      simp only [selRenameExpr, countKvKeyExpr] at *
      omega
    | lit t elts =>
      have hk := countKvKey_selRename old new n (GoExpr.lit t elts)
      simp only [selRenameExpr, countKvKeyExpr] at *
      omega
  | .call fn args => by
    simp only [selRenameExpr, countKvKeyExpr]
    rw [countKvKey_selRename old new n fn, countKvKey_selRenames old new n args]
  | .lit t elts => by
    simp only [selRenameExpr, countKvKeyExpr]
    rw [countKvKey_selRename old new n t, countKvKey_selRenames old new n elts]

theorem countKvKey_selRenames (old new n : String) :
    ∀ es, countKvKeyExprs n (selRenameExprs old new es) = countKvKeyExprs n es
  | .nil => rfl
  | .cons hd tl => by
    simp only [selRenameExprs, countKvKeyExprs]
    rw [countKvKey_selRename old new n hd, countKvKey_selRenames old new n tl]

end

/-! ### Slot lists through the two walks -/

theorem exprSlots_fieldRefStmt (old new : String) (st : GoStmt) :
    exprSlotsStmt (fieldRefRenameStmt old new st) =
      (exprSlotsStmt st).map (fieldRefRenameExpr old new) := by
  cases st <;> simp [fieldRefRenameStmt, exprSlotsStmt]

theorem exprSlots_fieldRefField (old new : String) (fl : GoField) :
    exprSlotsField (fieldRefRenameField old new fl) =
      (exprSlotsField fl).map (fieldRefRenameExpr old new) := rfl

theorem exprSlots_fieldRefSpec (old new : String) (sp : GoSpec) :
    exprSlotsSpec (fieldRefRenameSpec old new sp) =
      (exprSlotsSpec sp).map (fieldRefRenameExpr old new) := by
  cases sp with
  | typeSpec n ty =>
    cases ty with
    | structType fields =>
      simp only [fieldRefRenameSpec, exprSlotsSpec]
      exact flatMap_map_comm fields _ _ _
        (fun a _ => exprSlots_fieldRefField old new a)
    | aliasTy e => simp [fieldRefRenameSpec, exprSlotsSpec]
  | valueSpec names tyOpt values =>
    cases tyOpt <;> simp [fieldRefRenameSpec, exprSlotsSpec]

theorem exprSlots_fieldRefDecl (old new : String) (d : GoDecl) :
    exprSlotsDecl (fieldRefRenameDecl old new d) =
      (exprSlotsDecl d).map (fieldRefRenameExpr old new) := by
  cases d with
  | gen tok specs =>
    simp only [fieldRefRenameDecl, exprSlotsDecl]
    exact flatMap_map_comm specs _ _ _ (fun a _ => exprSlots_fieldRefSpec old new a)
  | funcDecl n recv params results body =>
    simp only [fieldRefRenameDecl, exprSlotsDecl, List.map_append]
    rw [flatMap_map_comm body _ _ _ (fun a _ => exprSlots_fieldRefStmt old new a)]
    have hfields : (recv.map (fieldRefRenameField old new)).toList ++
        params.map (fieldRefRenameField old new) ++
        results.map (fieldRefRenameField old new) =
        (recv.toList ++ params ++ results).map (fieldRefRenameField old new) := by
      cases recv <;> simp
    rw [hfields,
      flatMap_map_comm (recv.toList ++ params ++ results) _ _ _
        (fun a _ => exprSlots_fieldRefField old new a)]

theorem exprSlots_fieldRefFile (old new : String) (f : GoFile) :
    exprSlotsFile (fieldRefRenameFile old new f) =
      (exprSlotsFile f).map (fieldRefRenameExpr old new) := by
  simp only [fieldRefRenameFile, exprSlotsFile]
  exact flatMap_map_comm f.decls _ _ _ (fun a _ => exprSlots_fieldRefDecl old new a)

theorem exprSlots_selStmt (old new : String) (st : GoStmt) :
    exprSlotsStmt (selRenameStmt old new st) =
      (exprSlotsStmt st).map (selRenameExpr old new) := by
  cases st <;> simp [selRenameStmt, exprSlotsStmt]

theorem exprSlots_selField (old new : String) (fl : GoField) :
    exprSlotsField (selRenameField old new fl) =
      (exprSlotsField fl).map (selRenameExpr old new) := rfl

theorem exprSlots_tmplSpec (S old new : String) (sp : GoSpec) :
    exprSlotsSpec (tmplFieldRenameSpec S old new sp) =
      (exprSlotsSpec sp).map (selRenameExpr old new) := by
  cases sp with
  | typeSpec n ty =>
    cases ty with
    | structType fields =>
      simp only [tmplFieldRenameSpec, exprSlotsSpec]
      exact flatMap_map_comm fields _ _ _ (fun a _ => rfl)
    | aliasTy e => simp [tmplFieldRenameSpec, exprSlotsSpec]
  | valueSpec names tyOpt values =>
    cases tyOpt <;> simp [tmplFieldRenameSpec, exprSlotsSpec]

theorem exprSlots_tmplDecl (S old new : String) (d : GoDecl) :
    exprSlotsDecl (tmplFieldRenameDecl S old new d) =
      (exprSlotsDecl d).map (selRenameExpr old new) := by
  cases d with
  | gen tok specs =>
    simp only [tmplFieldRenameDecl, exprSlotsDecl]
    exact flatMap_map_comm specs _ _ _ (fun a _ => exprSlots_tmplSpec S old new a)
  | funcDecl n recv params results body =>
    simp only [tmplFieldRenameDecl, exprSlotsDecl, List.map_append]
    rw [flatMap_map_comm body _ _ _ (fun a _ => exprSlots_selStmt old new a)]
    have hfields : (recv.map (selRenameField old new)).toList ++
        params.map (selRenameField old new) ++
        results.map (selRenameField old new) =
        (recv.toList ++ params ++ results).map (selRenameField old new) := by
      cases recv <;> simp
    rw [hfields,
      flatMap_map_comm (recv.toList ++ params ++ results) _ _ _
        (fun a _ => exprSlots_selField old new a)]

theorem exprSlots_tmplFile (S old new : String) (f : GoFile) :
    exprSlotsFile (tmplFieldRenameFile S old new f) =
      (exprSlotsFile f).map (selRenameExpr old new) := by
  simp only [tmplFieldRenameFile, exprSlotsFile]
  exact flatMap_map_comm f.decls _ _ _ (fun a _ => exprSlots_tmplDecl S old new a)

/-! ### File-level counting corollaries -/

theorem countSelSlotFile_fieldRef (old new : String) (h : old ≠ new) (g : GoFile) :
    countSelSlotFile old (fieldRefRenameFile old new g) = 0 := by
  unfold countSelSlotFile
  rw [exprSlots_fieldRefFile, List.map_map]
  exact sum_map_zero _ _ (fun x _ => countSelSlot_fieldRef old new h x)

theorem countKvKeyFile_fieldRef (old new : String) (h : old ≠ new) (g : GoFile) :
    countKvKeyFile old (fieldRefRenameFile old new g) = 0 := by
  unfold countKvKeyFile
  rw [exprSlots_fieldRefFile, List.map_map]
  exact sum_map_zero _ _ (fun x _ => countKvKey_fieldRef old new h x)

theorem countPlainIdentFile_fieldRef (old new n : String) (g : GoFile) :
    countPlainIdentFile n (fieldRefRenameFile old new g) = countPlainIdentFile n g := by
  unfold countPlainIdentFile
  rw [exprSlots_fieldRefFile, List.map_map]
  exact sum_map_congr _ _ _ (fun x _ => countPlainIdent_fieldRef old new n x)

theorem countSelSlotFile_tmpl (S old new : String) (h : old ≠ new) (g : GoFile) :
    countSelSlotFile old (tmplFieldRenameFile S old new g) = 0 := by
  unfold countSelSlotFile
  rw [exprSlots_tmplFile, List.map_map]
  exact sum_map_zero _ _ (fun x _ => countSelSlot_selRename old new h x)

theorem countKvKeyFile_tmpl (S old new n : String) (g : GoFile) :
    countKvKeyFile n (tmplFieldRenameFile S old new g) = countKvKeyFile n g := by
  unfold countKvKeyFile
  rw [exprSlots_tmplFile, List.map_map]
  exact sum_map_congr _ _ _ (fun x _ => countKvKey_selRename old new n x)

/-! ### The declaration-site phase -/

theorem replaceFirst_snd (old new : String) (l : List String) :
    (replaceFirst old new l).2 = l.any (fun m => decide (m = old)) := by
  induction l with
  | nil => rfl
  | cons n rest ih =>
    simp only [replaceFirst, List.any_cons]
    by_cases hn : n = old
    · rw [if_pos hn]
      simp [hn]
    · rw [if_neg hn]
      simp only [decide_eq_true_eq]
      rw [ih]
      simp [hn]

theorem renameFieldDeclNames_snd (old new : String) (fields : List GoField) :
    (renameFieldDeclNames old new fields).2 =
      fields.any (fun fl => fl.names.any (fun m => decide (m = old))) := by
  induction fields with
  | nil => rfl
  | cons fl rest ih =>
    simp only [renameFieldDeclNames, List.any_cons]
    rw [replaceFirst_snd, ih]

theorem renameStructFieldsInSpec_snd (old new : String) (sp : GoSpec) :
    (renameStructFieldsInSpec old new sp).2 = structHasFieldNamed old sp := by
  cases sp with
  | typeSpec n ty =>
    cases ty with
    | structType fields =>
      simp only [renameStructFieldsInSpec, structHasFieldNamed]
      exact renameFieldDeclNames_snd old new fields
    | aliasTy e => rfl
  | valueSpec names tyOpt values => rfl

theorem renameFieldDeclNames_tys (old new : String) (fields : List GoField) :
    (renameFieldDeclNames old new fields).1.flatMap exprSlotsField =
      fields.flatMap exprSlotsField := by
  induction fields with
  | nil => rfl
  | cons fl rest ih =>
    simp only [renameFieldDeclNames, List.flatMap_cons]
    rw [ih]
    rfl

theorem renameStructFieldsInSpec_slots (old new : String) (sp : GoSpec) :
    exprSlotsSpec (renameStructFieldsInSpec old new sp).1 = exprSlotsSpec sp := by
  cases sp with
  | typeSpec n ty =>
    cases ty with
    | structType fields =>
      simp only [renameStructFieldsInSpec, exprSlotsSpec]
      exact renameFieldDeclNames_tys old new fields
    | aliasTy e => rfl
  | valueSpec names tyOpt values => rfl

theorem replaceFirst_false (old new : String) (l : List String)
    (h : (replaceFirst old new l).2 = false) : (replaceFirst old new l).1 = l := by
  induction l with
  | nil => rfl
  | cons n rest ih =>
    simp only [replaceFirst] at h ⊢
    by_cases hn : n = old
    · rw [if_pos hn] at h
      cases h
    · rw [if_neg hn] at h ⊢
      rw [ih h]

theorem replaceFirst_lt (old new : String) (hne : old ≠ new) (l : List String)
    (h : (replaceFirst old new l).2 = true) :
    countNameSlots old (replaceFirst old new l).1 < countNameSlots old l := by
  induction l with
  | nil => cases h
  | cons n rest ih =>
    simp only [replaceFirst] at h ⊢
    by_cases hn : n = old
    · rw [if_pos hn]
      simp only [countNameSlots, List.map_cons, List.sum_cons]
      rw [if_neg (fun hc => hne hc.symm), if_pos hn]
      omega
    · rw [if_neg hn] at h ⊢
      simp only [countNameSlots, List.map_cons, List.sum_cons]
      have := ih h
      unfold countNameSlots at this
      omega

theorem replaceFirst_le (old new : String) (hne : old ≠ new) (l : List String) :
    countNameSlots old (replaceFirst old new l).1 ≤ countNameSlots old l := by
  cases hfl : (replaceFirst old new l).2 with
  | true => exact Nat.le_of_lt (replaceFirst_lt old new hne l hfl)
  | false => rw [replaceFirst_false old new l hfl]

theorem renameFieldDeclNames_le (old new : String) (hne : old ≠ new)
    (fields : List GoField) :
    ((renameFieldDeclNames old new fields).1.map
      (fun fl => countNameSlots old fl.names)).sum ≤
      (fields.map (fun fl => countNameSlots old fl.names)).sum := by
  induction fields with
  | nil => exact Nat.le_refl _
  | cons fl rest ih =>
    simp only [renameFieldDeclNames, List.map_cons, List.sum_cons]
    exact Nat.add_le_add (replaceFirst_le old new hne fl.names) ih

theorem renameFieldDeclNames_lt (old new : String) (hne : old ≠ new)
    (fields : List GoField) (h : (renameFieldDeclNames old new fields).2 = true) :
    ((renameFieldDeclNames old new fields).1.map
      (fun fl => countNameSlots old fl.names)).sum <
      (fields.map (fun fl => countNameSlots old fl.names)).sum := by
  induction fields with
  | nil => cases h
  | cons fl rest ih =>
    simp only [renameFieldDeclNames, List.map_cons, List.sum_cons]
    simp only [renameFieldDeclNames, Bool.or_eq_true] at h
    rcases h with h | h
    · exact Nat.add_lt_add_of_lt_of_le (replaceFirst_lt old new hne fl.names h)
        (renameFieldDeclNames_le old new hne rest)
    · exact Nat.add_lt_add_of_le_of_lt (replaceFirst_le old new hne fl.names) (ih h)

theorem renameStructFieldsInSpec_lt (old new : String) (hne : old ≠ new) (sp : GoSpec)
    (h : structHasFieldNamed old sp = true) :
    countFieldNamesSpec old (renameStructFieldsInSpec old new sp).1 <
      countFieldNamesSpec old sp := by
  cases sp with
  | typeSpec n ty =>
    cases ty with
    | structType fields =>
      simp only [renameStructFieldsInSpec, countFieldNamesSpec]
      refine renameFieldDeclNames_lt old new hne fields ?_
      rw [renameFieldDeclNames_snd]
      exact h
    | aliasTy e => cases h
  | valueSpec names tyOpt values => cases h

/-! ### The reference pass leaves declaration-site names alone -/

theorem countFieldNames_fieldRefSpec (old new n : String) (sp : GoSpec) :
    countFieldNamesSpec n (fieldRefRenameSpec old new sp) = countFieldNamesSpec n sp := by
  cases sp with
  | typeSpec m ty =>
    cases ty with
    | structType fields =>
      simp only [fieldRefRenameSpec, countFieldNamesSpec, List.map_map]
      exact sum_map_congr _ _ _ (fun x _ => rfl)
    | aliasTy e => rfl
  | valueSpec names tyOpt values => rfl

theorem countFieldNames_fieldRefDecl (old new n : String) (d : GoDecl) :
    countFieldNamesDecl n (fieldRefRenameDecl old new d) = countFieldNamesDecl n d := by
  cases d with
  | gen tok specs =>
    simp only [fieldRefRenameDecl, countFieldNamesDecl, List.map_map]
    exact sum_map_congr _ _ _ (fun x _ => countFieldNames_fieldRefSpec old new n x)
  | funcDecl _ _ _ _ _ => rfl

theorem countFieldNames_fieldRefFile (old new n : String) (g : GoFile) :
    countStructFieldNamesFile n (fieldRefRenameFile old new g) =
      countStructFieldNamesFile n g := by
  simp only [fieldRefRenameFile, countStructFieldNamesFile, List.map_map]
  exact sum_map_congr _ _ _ (fun x _ => countFieldNames_fieldRefDecl old new n x)

/-- **C7 (counterexample)**: the claim restricts composite-literal key renames
to literals "whose literal's type matches S".  `Code.FieldRename` has no such
check: on `c7File` the key `old` of the `T{old: 1}` literal — `T`, not `S`,
and `T` is not even declared — is renamed to `new` along with the field
declaration inside `S`. -/
theorem fieldRename_litkey_counterexample :
    FieldRename "S" "old" "new" c7File =
      { pkgName := "main"
        decls :=
          [ .gen .ttype [.typeSpec "S" (.structType [⟨["new"], .ident "int", none⟩])]
          , .gen .tvar [.valueSpec ["x"] none
              [.lit (.ident "T") (.cons (.kv (.ident "new") (.basic "1")) .nil)]] ] } := by
  decide

/-- **C7 (amended)**: when `Code.FieldRename` performs a rename
(struct `S` found with a field named `old`; `old ≠ new`), the rewrite is:
the declaration site inside `S` (strictly fewer field-name slots spelled
`old` remain), every selector slot spelled `old` (zero remain, type-blind as
claimed), and every composite-literal ident key spelled `old` (zero remain) —
the latter with NO check that the literal's type matches `S`, contrary to the
claim; all other ident occurrences are untouched.  The template engine's
`renameStructFieldIdentifier` diverges on the literal-key clause in the other
direction: it rewrites selector slots but never any composite-literal key. -/
theorem fieldRename_scoping (f : GoFile) (S old new : String) (hne : old ≠ new)
    (hp : fieldRenamePerformed S old f = true) :
    countStructFieldNamesFile old (FieldRename S old new f) <
      countStructFieldNamesFile old f ∧
    countSelSlotFile old (FieldRename S old new f) = 0 ∧
    countKvKeyFile old (FieldRename S old new f) = 0 ∧
    (∀ n, countPlainIdentFile n (FieldRename S old new f) = countPlainIdentFile n f) ∧
    (∀ g, countSelSlotFile old (tmplFieldRenameFile S old new g) = 0) ∧
    (∀ n g, countKvKeyFile n (tmplFieldRenameFile S old new g) = countKvKeyFile n g) := by
  unfold fieldRenamePerformed at hp
  cases hfind : findStructDeclSpec f.decls S with
  | none => simp [hfind] at hp
  | some ij =>
    obtain ⟨i, j⟩ := ij
    simp only [hfind] at hp
    cases hd : f.decls.getD i default with
    | funcDecl nm recv params results body =>
      simp only [hd] at hp
      exact absurd hp (by decide)
    | gen tok specs =>
      simp only [hd] at hp
      -- bounds from the two findIdx? searches inside findStructDeclSpec
      have hbounds : i < f.decls.length ∧ j < specs.length := by
        unfold findStructDeclSpec at hfind
        cases hfi : f.decls.findIdx? (declHasStructNamed S) with
        | none => simp [hfi] at hfind
        | some i0 =>
          simp only [hfi] at hfind
          cases hd0 : f.decls.getD i0 default with
          | funcDecl _ _ _ _ _ =>
            simp only [hd0] at hfind
            exact Option.noConfusion hfind
          | gen tok0 specs0 =>
            simp only [hd0] at hfind
            cases hfj : specs0.findIdx? (specIsStructNamed S) with
            | none => simp [hfj] at hfind
            | some j0 =>
              simp only [hfj, Option.some.injEq, Prod.mk.injEq] at hfind
              obtain ⟨h1, h2⟩ := hfind
              subst h1
              subst h2
              rw [hd] at hd0
              injection hd0 with htok hspecs
              refine ⟨findIdx?_lt_length _ _ _ hfi, ?_⟩
              rw [hspecs]
              exact findIdx?_lt_length _ _ _ hfj
      have hflag : (renameStructFieldsInSpec old new (specs.getD j default)).2 = true := by
        rw [renameStructFieldsInSpec_snd]
        exact hp
      have hres : FieldRename S old new f =
          fieldRefRenameFile old new
            { f with decls := f.decls.set i (.gen tok (specs.set j
                (renameStructFieldsInSpec old new (specs.getD j default)).1)) } := by
        simp only [FieldRename, hfind, hd, hflag, if_true]
      refine ⟨?_, ?_, ?_, ?_, ?_, ?_⟩
      · rw [hres, countFieldNames_fieldRefFile]
        unfold countStructFieldNamesFile
        refine sum_map_set_lt f.decls i _ _ hbounds.1 ?_
        rw [hd]
        simp only [countFieldNamesDecl]
        refine sum_map_set_lt specs j _ _ hbounds.2 ?_
        exact renameStructFieldsInSpec_lt old new hne _ hp
      · rw [hres]
        exact countSelSlotFile_fieldRef old new hne _
      · rw [hres]
        exact countKvKeyFile_fieldRef old new hne _
      · intro n
        rw [hres, countPlainIdentFile_fieldRef]
        unfold countPlainIdentFile exprSlotsFile
        have hslots : (f.decls.set i (.gen tok (specs.set j
            (renameStructFieldsInSpec old new (specs.getD j default)).1))).flatMap
              exprSlotsDecl = f.decls.flatMap exprSlotsDecl := by
          refine flatMap_set_eq f.decls i _ _ ?_
          rw [hd]
          simp only [exprSlotsDecl]
          refine flatMap_set_eq specs j _ _ ?_
          exact renameStructFieldsInSpec_slots old new _
        rw [hslots]
      · intro g
        exact countSelSlotFile_tmpl S old new hne g
      · intro n g
        exact countKvKeyFile_tmpl S old new n g

/-- An application of `fieldRename_scoping` at `c7File`. -/
theorem fieldRename_scoping_witness :
    ("old" : String) ≠ "new" ∧ fieldRenamePerformed "S" "old" c7File = true ∧
    (countStructFieldNamesFile "old" (FieldRename "S" "old" "new" c7File) <
      countStructFieldNamesFile "old" c7File ∧
    countSelSlotFile "old" (FieldRename "S" "old" "new" c7File) = 0 ∧
    countKvKeyFile "old" (FieldRename "S" "old" "new" c7File) = 0 ∧
    (∀ n, countPlainIdentFile n (FieldRename "S" "old" "new" c7File) =
      countPlainIdentFile n c7File) ∧
    (∀ g, countSelSlotFile "old" (tmplFieldRenameFile "S" "old" "new" g) = 0) ∧
    (∀ n g, countKvKeyFile n (tmplFieldRenameFile "S" "old" "new" g) =
      countKvKeyFile n g)) :=
  ⟨by decide, by decide, fieldRename_scoping c7File "S" "old" "new" (by decide) (by decide)⟩

/-! ### Frame lemmas: clones occupy fresh references, mutations stay on them -/

theorem map_congr_mem {β γ : Type} (l : List β) (g h : β → γ)
    (hgh : ∀ x ∈ l, g x = h x) : l.map g = l.map h := by
  induction l with
  | nil => rfl
  | cons hd tl ih =>
    simp only [List.map_cons]
    rw [hgh hd (List.mem_cons_self hd tl),
      ih (fun x hx => hgh x (List.mem_cons_of_mem hd hx))]

theorem cloneFiles_heap_lt (fs : List (String × Nat)) :
    ∀ (heap : Nat → GoFile) (next r : Nat), r < next →
      (cloneFiles heap next fs).2.1 r = heap r := by
  induction fs with
  | nil => intro heap next r _; rfl
  | cons p rest ih =>
    intro heap next r hr
    simp only [cloneFiles]
    rw [ih _ (next + 1) r (Nat.lt_succ_of_lt hr)]
    rw [if_neg (Nat.ne_of_lt hr)]

theorem cloneFiles_refs_ge (fs : List (String × Nat)) :
    ∀ (heap : Nat → GoFile) (next : Nat) (q : String × Nat),
      q ∈ (cloneFiles heap next fs).1 → next ≤ q.2 := by
  induction fs with
  | nil => intro heap next q hq; simp [cloneFiles] at hq
  | cons p rest ih =>
    intro heap next q hq
    simp only [cloneFiles, List.mem_cons] at hq
    rcases hq with hq | hq
    · rw [hq]
    · exact Nat.le_of_succ_le (ih _ (next + 1) q hq)

theorem mutateFiles_heap_preserved (F : GoFile → GoFile) (fs : List (String × Nat)) :
    ∀ (m : Mem) (r : Nat), (∀ p ∈ fs, r ≠ p.2) →
      (mutateFiles F m fs).heap r = m.heap r := by
  induction fs with
  | nil => intro m r _; rfl
  | cons p rest ih =>
    intro m r h
    simp only [mutateFiles]
    rw [ih _ r (fun q hq => h q (List.mem_cons_of_mem p hq))]
    simp only [hwrite]
    rw [if_neg (h p (List.mem_cons_self p rest))]

theorem findStructLoc_ref_mem (m : Mem) (S : String) (fs : List (String × Nat))
    (r : Nat) (i j : Nat) (h : findStructLoc m S fs = some (r, i, j)) :
    ∃ fn, (fn, r) ∈ fs := by
  induction fs with
  | nil => simp [findStructLoc] at h
  | cons p rest ih =>
    simp only [findStructLoc] at h
    cases hfi : fileFindStructIdx S (m.heap p.2) with
    | some ij =>
      rw [hfi] at h
      obtain ⟨i0, j0⟩ := ij
      simp only [Option.some.injEq, Prod.mk.injEq] at h
      exact ⟨p.1, by rw [← h.1]; exact List.mem_cons_self p rest⟩
    | none =>
      rw [hfi] at h
      obtain ⟨fn, hfn⟩ := ih h
      exact ⟨fn, List.mem_cons_of_mem p hfn⟩

theorem updStruct_heap_preserved (m : Mem) (t : TemplateH) (S : String)
    (F : List GoField → List GoField) (r : Nat) (h : ∀ p ∈ t.files, r ≠ p.2) :
    (updStructFieldsAt m t S F).heap r = m.heap r := by
  cases hloc : findStructLoc m S t.files with
  | none => simp only [updStructFieldsAt, hloc]
  | some rij =>
    obtain ⟨r0, i, j⟩ := rij
    obtain ⟨fn, hfn⟩ := findStructLoc_ref_mem m S t.files r0 i j hloc
    have hr0 : r ≠ r0 := h (fn, r0) hfn
    cases hd : (m.heap r0).decls.getD i default with
    | funcDecl nm2 recv params results body => simp only [updStructFieldsAt, hloc, hd]
    | gen tok specs =>
      cases hsp : specs.getD j default with
      | valueSpec names tyOpt values => simp only [updStructFieldsAt, hloc, hd, hsp]
      | typeSpec nm ty =>
        cases ty with
        | aliasTy e => simp only [updStructFieldsAt, hloc, hd, hsp]
        | structType fields =>
          simp only [updStructFieldsAt, hloc, hd, hsp, hwrite]
          rw [if_neg hr0]

theorem render_preserved (m : Mem) (t : TemplateH) (m2 : Mem) (hwf : THWF m t)
    (hpres : ∀ r, r < m.next → m2.heap r = m.heap r) :
    renderTH m2 t = renderTH m t := by
  unfold renderTH
  exact map_congr_mem t.files _ _
    (fun p hp => by rw [hpres p.2 (hwf p hp)])

/-- Shared conclusion of the five clone-then-ident-rename transformations. -/
theorem frame_conclusion_mutate (m : Mem) (t : TemplateH) (hwf : THWF m t)
    (F : GoFile → GoFile) :
    renderTH (mutateAll F (cloneTemplate m t).2 (cloneTemplate m t).1) t =
      renderTH m t ∧
    (∀ p ∈ t.files, ∀ q ∈ (cloneTemplate m t).1.files, p.2 ≠ q.2) := by
  have hrefs : ∀ q ∈ (cloneTemplate m t).1.files, m.next ≤ q.2 :=
    fun q hq => cloneFiles_refs_ge t.files m.heap m.next q hq
  constructor
  · refine render_preserved m t _ hwf (fun r hr => ?_)
    rw [mutateAll, mutateFiles_heap_preserved F _ _ r
      (fun p hp => Nat.ne_of_lt (Nat.lt_of_lt_of_le hr (hrefs p hp)))]
    exact cloneFiles_heap_lt t.files m.heap m.next r hr
  · intro p hp q hq
    exact Nat.ne_of_lt (Nat.lt_of_lt_of_le (hwf p hp) (hrefs q hq))

/-- Shared conclusion of the struct-field transformations (clone, optional
per-file walk, then the found-struct update). -/
theorem frame_conclusion_upd (m : Mem) (t : TemplateH) (hwf : THWF m t)
    (F : GoFile → GoFile) (S : String) (G : List GoField → List GoField) :
    renderTH (updStructFieldsAt
        (mutateAll F (cloneTemplate m t).2 (cloneTemplate m t).1)
        (cloneTemplate m t).1 S G) t = renderTH m t ∧
    (∀ p ∈ t.files, ∀ q ∈ (cloneTemplate m t).1.files, p.2 ≠ q.2) := by
  have hrefs : ∀ q ∈ (cloneTemplate m t).1.files, m.next ≤ q.2 :=
    fun q hq => cloneFiles_refs_ge t.files m.heap m.next q hq
  constructor
  · refine render_preserved m t _ hwf (fun r hr => ?_)
    rw [updStruct_heap_preserved _ _ S G r
      (fun p hp => Nat.ne_of_lt (Nat.lt_of_lt_of_le hr (hrefs p hp)))]
    rw [mutateAll, mutateFiles_heap_preserved F _ _ r
      (fun p hp => Nat.ne_of_lt (Nat.lt_of_lt_of_le hr (hrefs p hp)))]
    exact cloneFiles_heap_lt t.files m.heap m.next r hr
  · intro p hp q hq
    exact Nat.ne_of_lt (Nat.lt_of_lt_of_le (hwf p hp) (hrefs q hq))

/-- The same conclusion for the identity walk (AddStructField and
RemoveStructField update the clone without a preceding per-file walk). -/
theorem frame_conclusion_upd_only (m : Mem) (t : TemplateH) (hwf : THWF m t)
    (S : String) (G : List GoField → List GoField) :
    renderTH (updStructFieldsAt (cloneTemplate m t).2 (cloneTemplate m t).1 S G) t =
      renderTH m t ∧
    (∀ p ∈ t.files, ∀ q ∈ (cloneTemplate m t).1.files, p.2 ≠ q.2) := by
  have hrefs : ∀ q ∈ (cloneTemplate m t).1.files, m.next ≤ q.2 :=
    fun q hq => cloneFiles_refs_ge t.files m.heap m.next q hq
  constructor
  · refine render_preserved m t _ hwf (fun r hr => ?_)
    rw [updStruct_heap_preserved _ _ S G r
      (fun p hp => Nat.ne_of_lt (Nat.lt_of_lt_of_le hr (hrefs p hp)))]
    exact cloneFiles_heap_lt t.files m.heap m.next r hr
  · intro p hp q hq
    exact Nat.ne_of_lt (Nat.lt_of_lt_of_le (hwf p hp) (hrefs q hq))

/-- **C5**: every successful transformation returns a template whose trees
live at references the source template never touches (no shared mutable
state), and the source template renders to the same bytes afterwards — the
returned memory agrees with the original on every source reference.
`THWF m t` states the source's references were allocated before `m.next`,
which every template produced by the engine satisfies. -/
theorem template_transformations_frame (m : Mem) (t : TemplateH) (hwf : THWF m t) :
    (∀ old new res, thRenameStruct m t old new = .ok res →
      renderTH res.2 t = renderTH m t ∧
        ∀ p ∈ t.files, ∀ q ∈ res.1.files, p.2 ≠ q.2) ∧
    (∀ old new res, thRenameFunction m t old new = .ok res →
      renderTH res.2 t = renderTH m t ∧
        ∀ p ∈ t.files, ∀ q ∈ res.1.files, p.2 ≠ q.2) ∧
    (∀ old new res, thRenameVariable m t old new = .ok res →
      renderTH res.2 t = renderTH m t ∧
        ∀ p ∈ t.files, ∀ q ∈ res.1.files, p.2 ≠ q.2) ∧
    (∀ old new res, thRenameConstant m t old new = .ok res →
      renderTH res.2 t = renderTH m t ∧
        ∀ p ∈ t.files, ∀ q ∈ res.1.files, p.2 ≠ q.2) ∧
    (∀ old new res, thRenameType m t old new = .ok res →
      renderTH res.2 t = renderTH m t ∧
        ∀ p ∈ t.files, ∀ q ∈ res.1.files, p.2 ≠ q.2) ∧
    (∀ S oldF nf res, thRenameStructField m t S oldF nf = .ok res →
      renderTH res.2 t = renderTH m t ∧
        ∀ p ∈ t.files, ∀ q ∈ res.1.files, p.2 ≠ q.2) ∧
    (∀ S fd res, thAddStructField m t S fd = .ok res →
      renderTH res.2 t = renderTH m t ∧
        ∀ p ∈ t.files, ∀ q ∈ res.1.files, p.2 ≠ q.2) ∧
    (∀ S fd res, thRemoveStructField m t S fd = .ok res →
      renderTH res.2 t = renderTH m t ∧
        ∀ p ∈ t.files, ∀ q ∈ res.1.files, p.2 ≠ q.2) := by
  refine ⟨?_, ?_, ?_, ?_, ?_, ?_, ?_, ?_⟩
  · intro old new res heq
    unfold thRenameStruct at heq
    by_cases hc : thHasStruct m t old
    · rw [if_pos hc] at heq
      injection heq with h
      subst h
      exact frame_conclusion_mutate m t hwf _
    · rw [if_neg hc] at heq
      exact Except.noConfusion heq
  · intro old new res heq
    unfold thRenameFunction at heq
    by_cases hc : thHasFunction m t old
    · rw [if_pos hc] at heq
      injection heq with h
      subst h
      exact frame_conclusion_mutate m t hwf _
    · rw [if_neg hc] at heq
      exact Except.noConfusion heq
  · intro old new res heq
    unfold thRenameVariable at heq
    by_cases hc : thHasValueDecl m t .tvar old
    · rw [if_pos hc] at heq
      injection heq with h
      subst h
      exact frame_conclusion_mutate m t hwf _
    · rw [if_neg hc] at heq
      exact Except.noConfusion heq
  · intro old new res heq
    unfold thRenameConstant at heq
    by_cases hc : thHasValueDecl m t .tconst old
    · rw [if_pos hc] at heq
      injection heq with h
      subst h
      exact frame_conclusion_mutate m t hwf _
    · rw [if_neg hc] at heq
      exact Except.noConfusion heq
  · intro old new res heq
    unfold thRenameType at heq
    by_cases hc : thHasTypeDecl m t old
    · rw [if_pos hc] at heq
      injection heq with h
      subst h
      exact frame_conclusion_mutate m t hwf _
    · rw [if_neg hc] at heq
      exact Except.noConfusion heq
  · intro S oldF nf res heq
    unfold thRenameStructField at heq
    cases hm : structFieldsAtLoc m S t with
    | none =>
      simp only [hm] at heq
      exact Except.noConfusion heq
    | some fields =>
      simp only [hm] at heq
      by_cases hc : fields.any (fun fl => fl.names.any (fun m2 => decide (m2 = oldF)))
      · rw [if_pos hc] at heq
        injection heq with h
        subst h
        exact frame_conclusion_upd m t hwf _ S _
      · rw [if_neg hc] at heq
        exact Except.noConfusion heq
  · intro S fd res heq
    unfold thAddStructField at heq
    cases hm : structFieldsAtLoc m S t with
    | none =>
      simp only [hm] at heq
      exact Except.noConfusion heq
    | some fields =>
      simp only [hm] at heq
      by_cases hc : fields.any (fun fl => fl.names.any (fun m2 => decide (m2 = fd.name)))
      · rw [if_pos hc] at heq
        exact Except.noConfusion heq
      · rw [if_neg hc] at heq
        by_cases hl : (findStructLoc (cloneTemplate m t).2 S
            (cloneTemplate m t).1.files).isSome
        · rw [if_pos hl] at heq
          injection heq with h
          subst h
          exact frame_conclusion_upd_only m t hwf S _
        · rw [if_neg hl] at heq
          exact Except.noConfusion heq
  · intro S fd res heq
    unfold thRemoveStructField at heq
    cases hm : structFieldsAtLoc m S t with
    | none =>
      simp only [hm] at heq
      exact Except.noConfusion heq
    | some fields =>
      simp only [hm] at heq
      by_cases hc : fields.any (fun fl => fl.names.any (fun m2 => decide (m2 = fd.name)))
      · rw [if_pos hc] at heq
        by_cases hl : (findStructLoc (cloneTemplate m t).2 S
            (cloneTemplate m t).1.files).isSome
        · rw [if_pos hl] at heq
          injection heq with h
          subst h
          exact frame_conclusion_upd_only m t hwf S _
        · rw [if_neg hl] at heq
          exact Except.noConfusion heq
      · rw [if_neg hc] at heq
        exact Except.noConfusion heq

/-- A run of `template_transformations_frame`: RenameStruct succeeds on the
one-file template and the source keeps its bytes with disjoint references. -/
theorem template_transformations_frame_witness :
    THWF c5Mem c5T ∧ thRenameStruct c5Mem c5T "S" "S2" = .ok c5res ∧
    (renderTH c5res.2 c5T = renderTH c5Mem c5T ∧
      ∀ p ∈ c5T.files, ∀ q ∈ c5res.1.files, p.2 ≠ q.2) :=
  ⟨by unfold THWF; decide, rfl,
    (template_transformations_frame c5Mem c5T (by unfold THWF; decide)).1
      "S" "S2" c5res rfl⟩

end Gogo
